import Mathlib

/-! PRIMUS Hindi assistant: normalisation, context memory and scored retrieval.

A shallow embedding of `src/src/enhancer.cpp`, `src/src/intelligence.cpp` and
`src/src/hindi_ai.cpp`.

* A `std::string` is the list of its bytes (`Str`), each byte a natural number
  below 256.  String literals of the source are UTF-8 encoded by `utf8`.
* `std::string::find` is `find`, `std::string::replace` is `replace`.
* A `std::map<string,string>` built from an initializer list is `stdMap`: the
  association list sorted by key (byte-wise `std::less<std::string>`), which is
  the order a range-for visits it in.
* A `while` loop that may run forever takes fuel and returns `none` when the
  fuel is used up.
* The SQLite fact store is a list of rows of the `knowledge` table in scan
  order together with the outcome of the FTS5 top-1 query: no row, or a row
  with its answer column.
* A call that reaches undefined behaviour (the second `sqlite3_finalize` of
  `searchDB` on a statement that is already freed) has no result: `none`.
* `int` scores are natural numbers: a score is at most `10 + 2 * (number of
  query tokens)`, far below `2^31` for any query that fits in memory.
-/

/-! ## Strings -/

/-- A `std::string`: its bytes. -/
abbrev Str := List Nat

/-- UTF-8 encoding of one code point. -/
def utf8Char (c : Char) : List Nat :=
  let n := c.toNat
  if n < 0x80 then [n]
  else if n < 0x800 then [0xC0 + n / 64, 0x80 + n % 64]
  else if n < 0x10000 then [0xE0 + n / 4096, 0x80 + n / 64 % 64, 0x80 + n % 64]
  else [0xF0 + n / 262144, 0x80 + n / 4096 % 64, 0x80 + n / 64 % 64, 0x80 + n % 64]

/-- The bytes of a string literal of the (UTF-8 encoded) source file. -/
def utf8 (s : String) : Str := (s.data.map utf8Char).flatten

/-- `s.find(pat)`: the first position at which `pat` occurs in `s`, `none` for `npos`. -/
def find : Str → Str → Option Nat
  | [], pat => if pat.isPrefixOf [] then some 0 else none
  | c :: t, pat => if pat.isPrefixOf (c :: t) then some 0 else (find t pat).map (· + 1)

/-- `s.find(pat) != string::npos`. -/
def contains (s pat : Str) : Bool := (find s pat).isSome

/-- `s.replace(pos, len, rep)`. -/
def replace (s : Str) (pos len : Nat) (rep : Str) : Str :=
  s.take pos ++ rep ++ s.drop (pos + len)

/-- `isspace` in the "C" locale. -/
def isSpace (c : Nat) : Bool := c == 32 || (9 ≤ c && c ≤ 13)

/-- Auxiliary for `words`: `cur` is the token read so far. -/
def wordsAux : Str → Str → List Str
  | [], cur => if cur.isEmpty then [] else [cur]
  | c :: t, cur =>
    if isSpace c then (if cur.isEmpty then wordsAux t [] else cur :: wordsAux t [])
    else wordsAux t (cur ++ [c])

/-- The successive results of `ss >> word` on `stringstream ss(s)`. -/
def words (s : Str) : List Str := wordsAux s []

/-- `std::less<std::string>`: byte-wise lexicographic order. -/
def strLt : Str → Str → Bool
  | [], [] => false
  | [], _ :: _ => true
  | _ :: _, [] => false
  | a :: as, b :: bs => a < b || (a == b && strLt as bs)

/-- Insertion of one pair into a `std::map` (an existing key is kept). -/
def mapInsert : List (Str × Str) → Str × Str → List (Str × Str)
  | [], kv => [kv]
  | e :: rest, kv =>
    if strLt kv.1 e.1 then kv :: e :: rest
    else if strLt e.1 kv.1 then e :: mapInsert rest kv
    else e :: rest

/-- A `std::map<string,string>` built from an initializer list, in iteration order. -/
def stdMap (init : List (Str × Str)) : List (Str × Str) := init.foldl mapInsert []

/-! ## Enhancer (`enhancer.cpp`) -/

namespace Enhancer

/-- The initializer list of `loadSynonyms`. -/
def loadSynonyms : List (Str × Str) :=
  [ (utf8 "india", utf8 "भारत"),
    (utf8 "bharat", utf8 "भारत"),
    (utf8 "pm", utf8 "प्रधानमंत्री"),
    (utf8 "prime minister", utf8 "प्रधानमंत्री"),
    (utf8 "cm", utf8 "मुख्यमंत्री"),
    (utf8 "chief minister", utf8 "मुख्यमंत्री"),
    (utf8 "president", utf8 "राष्ट्रपति"),
    (utf8 "parliament", utf8 "संसद"),
    (utf8 "constitution", utf8 "संविधान"),
    (utf8 "court", utf8 "न्यायालय"),
    (utf8 "supreme court", utf8 "सर्वोच्च न्यायालय"),
    (utf8 "high court", utf8 "उच्च न्यायालय"),
    (utf8 "state", utf8 "राज्य"),
    (utf8 "capital", utf8 "राजधानी"),
    (utf8 "river", utf8 "नदी"),
    (utf8 "mountain", utf8 "पर्वत"),
    (utf8 "film", utf8 "फिल्म"),
    (utf8 "movie", utf8 "फिल्म"),
    (utf8 "actor", utf8 "अभिनेता"),
    (utf8 "actress", utf8 "अभिनेत्री"),
    (utf8 "director", utf8 "निर्देशक"),
    (utf8 "award", utf8 "पुरस्कार"),
    (utf8 "oscar", utf8 "ऑस्कर"),
    (utf8 "law", utf8 "कानून"),
    (utf8 "section", utf8 "धारा"),
    (utf8 "ipc", utf8 "आईपीसी"),
    (utf8 "technology", utf8 "तकनीक"),
    (utf8 "computer", utf8 "कंप्यूटर"),
    (utf8 "internet", utf8 "इंटरनेट"),
    (utf8 "mobile", utf8 "मोबाइल"),
    (utf8 "artificial intelligence", utf8 "कृत्रिम बुद्धिमत्ता"),
    (utf8 "ai", utf8 "कृत्रिम बुद्धिमत्ता"),
    (utf8 "इंडिया", utf8 "भारत"),
    (utf8 "नेहरु", utf8 "नेहरू"),
    (utf8 "गाँधी", utf8 "गांधी") ]

/-- The member `synonymMap` after `loadSynonyms`, in iteration order. -/
def synonymMap : List (Str × Str) := stdMap loadSynonyms

/-- The initializer list of `loadExpansions`. -/
def loadExpansions : List (Str × Str) :=
  [ (utf8 "बीजेपी", utf8 "भारतीय जनता पार्टी"),
    (utf8 "bjp", utf8 "भारतीय जनता पार्टी"),
    (utf8 "कांग्रेस", utf8 "भारतीय राष्ट्रीय कांग्रेस"),
    (utf8 "inc", utf8 "भारतीय राष्ट्रीय कांग्रेस"),
    (utf8 "आप", utf8 "आम आदमी पार्टी"),
    (utf8 "aap", utf8 "आम आदमी पार्टी"),
    (utf8 "आईपीसी", utf8 "भारतीय दंड संहिता"),
    (utf8 "सीआरपीसी", utf8 "दंड प्रक्रिया संहिता"),
    (utf8 "crpc", utf8 "दंड प्रक्रिया संहिता"),
    (utf8 "यूपी", utf8 "उत्तर प्रदेश"),
    (utf8 "up", utf8 "उत्तर प्रदेश"),
    (utf8 "एमपी", utf8 "मध्य प्रदेश"),
    (utf8 "mp", utf8 "मध्य प्रदेश"),
    (utf8 "जीडीपी", utf8 "सकल घरेलू उत्पाद"),
    (utf8 "gdp", utf8 "सकल घरेलू उत्पाद"),
    (utf8 "isro", utf8 "भारतीय अंतरिक्ष अनुसंधान संगठन"),
    (utf8 "इसरो", utf8 "भारतीय अंतरिक्ष अनुसंधान संगठन"),
    (utf8 "nato", utf8 "उत्तरी अटलांटिक संधि संगठन"),
    (utf8 "un", utf8 "संयुक्त राष्ट्र"),
    (utf8 "cbi", utf8 "केंद्रीय जांच ब्यूरो"),
    (utf8 "सीबीआई", utf8 "केंद्रीय जांच ब्यूरो"),
    (utf8 "rti", utf8 "सूचना का अधिकार"),
    (utf8 "आरटीआई", utf8 "सूचना का अधिकार") ]

/-- The member `shortExpansions` after `loadExpansions`, in iteration order. -/
def shortExpansions : List (Str × Str) := stdMap loadExpansions

/-- `tolower` in the "C" locale, on one byte. -/
def tolowerByte (c : Nat) : Nat := if 65 ≤ c ∧ c ≤ 90 then c + 32 else c

/-- `Enhancer::toLower`. -/
def toLower (text : Str) : Str := text.map tolowerByte

/-- `isalnum` in the "C" locale, on one byte. -/
def isalnum (c : Nat) : Bool :=
  (48 ≤ c && c ≤ 57) || (65 ≤ c && c ≤ 90) || (97 ≤ c && c ≤ 122)

/-- `Enhancer::removePunctuation`. -/
def removePunctuation (text : Str) : Str :=
  text.filter fun c => isalnum c || decide (128 ≤ c) || c == 32

/-- The loop `while((pos = s.find(pat)) != npos) s.replace(pos, pat.length(), rep);`
run for at most `fuel` evaluations of its condition. -/
def replaceAll : Nat → Str → Str → Str → Option Str
  | 0, _, _, _ => none
  | fuel + 1, pat, rep, s =>
    match find s pat with
    | none => some s
    | some pos => replaceAll fuel pat rep (replace s pos pat.length rep)

/-- The range-for over a rule table, each rule replaced to exhaustion. -/
def applyRules (fuel : Nat) : List (Str × Str) → Str → Option Str
  | [], s => some s
  | r :: rest, s =>
    match replaceAll fuel r.1 r.2 s with
    | none => none
    | some s' => applyRules fuel rest s'

/-- `Enhancer::normalizeSynonyms`. -/
def normalizeSynonyms (fuel : Nat) (text : Str) : Option Str :=
  applyRules fuel synonymMap text

/-- `Enhancer::expandShortForms`. -/
def expandShortForms (fuel : Nat) (text : Str) : Option Str :=
  applyRules fuel shortExpansions text

/-- `Enhancer::preprocess`. -/
def preprocess (fuel : Nat) (input : Str) : Option Str :=
  match normalizeSynonyms fuel (toLower input) with
  | none => none
  | some s =>
    match expandShortForms fuel s with
    | none => none
    | some s' => some (removePunctuation s')

end Enhancer


/-! ## Intelligence (`intelligence.cpp`) -/

/-- `struct ConversationTurn`. -/
structure ConversationTurn where
  userInput : Str
  aiResponse : Str
  topic : Str
  subject : Str
  timestamp : Int
  deriving DecidableEq, Repr

/-- The mutable members of `class Intelligence` (`topicKeywords` is constant after
construction and is the global `Intelligence.topicKeywords`). -/
structure Intelligence where
  lastSubject : Str
  lastTopic : Str
  currentEmotion : Str
  history : List ConversationTurn
  deriving DecidableEq, Repr

namespace Intelligence

/-- `KNOWN_PERSONS`. -/
def KNOWN_PERSONS : List Str :=
  [ utf8 "नरेंद्र मोदी", utf8 "राहुल गांधी", utf8 "अमित शाह", utf8 "अरविंद केजरीवाल",
    utf8 "ममता बनर्जी", utf8 "योगी आदित्यनाथ", utf8 "सोनिया गांधी", utf8 "मनमोहन सिंह",
    utf8 "अटल बिहारी वाजपेयी", utf8 "इंदिरा गांधी", utf8 "जवाहरलाल नेहरू",
    utf8 "अमिताभ बच्चन", utf8 "शाहरुख खान", utf8 "सलमान खान", utf8 "आमिर खान",
    utf8 "दीपिका पादुकोण", utf8 "प्रियंका चोपड़ा", utf8 "रणवीर सिंह",
    utf8 "एपीजे अब्दुल कलाम", utf8 "सुभाष चंद्र बोस", utf8 "भगत सिंह",
    utf8 "विराट कोहली", utf8 "सचिन तेंदुलकर", utf8 "महेंद्र सिंह धोनी",
    utf8 "रतन टाटा", utf8 "मुकेश अंबानी", utf8 "गौतम अडानी" ]

/-- The state built by the constructor `Intelligence::Intelligence()`. -/
def init : Intelligence :=
  { lastSubject := [], lastTopic := [], currentEmotion := utf8 "neutral", history := [] }

/-- The initializer list of `loadTopicKeywords`. -/
def loadTopicKeywords : List (Str × Str) :=
  [ (utf8 "राजनीति", utf8 "चुनाव मोदी गांधी भाजपा कांग्रेस संसद सरकार मंत्री विधायक सांसद"),
    (utf8 "सिनेमा", utf8 "फिल्म बॉलीवुड अभिनेता अभिनेत्री निर्देशक ऑस्कर फिल्मफेयर"),
    (utf8 "भूगोल", utf8 "राज्य नदी पर्वत राजधानी जिला क्षेत्रफल जनसंख्या"),
    (utf8 "कानून", utf8 "धारा आईपीसी संविधान अदालत न्यायालय अपराध सजा"),
    (utf8 "तकनीक", utf8 "इंटरनेट कंप्यूटर सॉफ्टवेयर एआई मोबाइल प्रोग्रामिंग"),
    (utf8 "इतिहास", utf8 "स्वतंत्रता आंदोलन युद्ध साम्राज्य मुगल ब्रिटिश"),
    (utf8 "खेल", utf8 "क्रिकेट फुटबॉल ओलंपिक विश्वकप टूर्नामेंट"),
    (utf8 "अर्थव्यवस्था", utf8 "जीडीपी बजट रुपया बैंक व्यापार निर्यात") ]

/-- The member `topicKeywords` after `loadTopicKeywords`, in iteration order. -/
def topicKeywords : List (Str × Str) := stdMap loadTopicKeywords

/-- The sentinel topic `"सामान्य"`. -/
def generalTopic : Str := utf8 "सामान्य"

/-- The inner loop of `detectTopic`: the number of keywords that occur in `input`. -/
def keywordScore (input keywords : Str) : Nat :=
  (words keywords).foldl (fun score kw => if contains input kw then score + 1 else score) 0

/-- `Intelligence::detectTopic`. -/
def detectTopic (input : Str) : Str :=
  (topicKeywords.foldl
    (fun (best : Nat × Str) tk =>
      let score := keywordScore input tk.2
      if score > best.1 then (score, tk.1) else best)
    (0, generalTopic)).2

/-- `Intelligence::extractNamedEntity`. -/
def extractNamedEntity (input : Str) : Str :=
  match KNOWN_PERSONS.find? (fun person => contains input person) with
  | some person => person
  | none =>
    let ws := words input
    let w1 := ws.getD 0 []
    let w2 := ws.getD 1 []
    let w3 := ws.getD 2 []
    if !w1.isEmpty then
      let entity := w1
      let entity := if !w2.isEmpty then entity ++ (utf8 " " ++ w2) else entity
      let entity := if !w3.isEmpty then entity ++ (utf8 " " ++ w3) else entity
      entity
    else []

/-- The pronoun list `PRONOUNS` of `applyContext`. -/
def PRONOUNS : List Str :=
  [ utf8 "उसकी", utf8 "उसका", utf8 "उसके", utf8 "उनकी", utf8 "उनका", utf8 "उनके",
    utf8 "वह", utf8 "वे", utf8 "इनकी", utf8 "इनका", utf8 "यह", utf8 "इसकी", utf8 "इसका" ]

/-- `Intelligence::applyContext`. -/
def applyContext (self : Intelligence) (input : Str) : Str :=
  let hasPronoun := PRONOUNS.any fun p => contains input p
  if hasPronoun && !self.lastSubject.isEmpty then
    self.lastSubject ++ utf8 " की बात करें तो — " ++ input
  else if (contains input (utf8 "और बताओ") || contains input (utf8 "आगे बताओ") ||
      contains input (utf8 "विस्तार")) && !self.lastTopic.isEmpty then
    self.lastTopic ++ utf8 " " ++ input
  else input

/-- `Intelligence::updateContext`; `now` is the clock reading in seconds. -/
def updateContext (self : Intelligence) (now : Int) (input response : Str) : Intelligence :=
  let entity := extractNamedEntity input
  let lastSubject := if !entity.isEmpty then entity else self.lastSubject
  let lastTopic := detectTopic input
  let turn : ConversationTurn :=
    { userInput := input, aiResponse := response, topic := lastTopic,
      subject := lastSubject, timestamp := now }
  let history := self.history ++ [turn]
  let history := if history.length > 10 then history.drop 1 else history
  { self with lastSubject := lastSubject, lastTopic := lastTopic, history := history }

/-- `Intelligence::detectEmotion`. -/
def detectEmotion (self : Intelligence) (input : Str) : Intelligence :=
  if contains input (utf8 "धन्यवाद") || contains input (utf8 "शुक्रिया") ||
      contains input (utf8 "thanks") then
    { self with currentEmotion := utf8 "warm" }
  else if contains input (utf8 "नमस्ते") || contains input (utf8 "hello") ||
      contains input (utf8 "हाय") then
    { self with currentEmotion := utf8 "energetic" }
  else if contains input (utf8 "गुस्सा") || contains input (utf8 "बेकार") ||
      contains input (utf8 "गलत") then
    { self with currentEmotion := utf8 "calm" }
  else if contains input (utf8 "दुखी") || contains input (utf8 "उदास") then
    { self with currentEmotion := utf8 "empathetic" }
  else if contains input (utf8 "शाबाश") || contains input (utf8 "वाह") then
    { self with currentEmotion := utf8 "excited" }
  else
    { self with currentEmotion := utf8 "neutral" }

/-- `Intelligence::getEmotion`. -/
def getEmotion (self : Intelligence) : Str := self.currentEmotion

/-- `Intelligence::getLastSubject`. -/
def getLastSubject (self : Intelligence) : Str := self.lastSubject

end Intelligence

/-! ## HindiAI (`hindi_ai.cpp`) -/

/-- A row of the `knowledge` table. -/
structure FactRecord where
  question : Str
  answer : Str
  category : Str
  deriving DecidableEq, Repr

/-- An opened fact store.  `indexed q` is the outcome of the FTS5 `MATCH` query for
`q`: `none` when the statement cannot be prepared or its step is not a row (no match,
or an error such as a query that FTS5 cannot parse), `some ans` when it yields a row,
`ans` being the answer column of the top-ranked row (which may be the empty string);
`records` is the `knowledge` table in scan order. -/
structure Store where
  indexed : Str → Option Str
  records : List FactRecord

namespace HindiAI

/-- `STOP_WORDS`. -/
def STOP_WORDS : List Str :=
  [ utf8 "क्या", utf8 "है", utf8 "हैं", utf8 "था", utf8 "थे", utf8 "की", utf8 "के", utf8 "का",
    utf8 "में", utf8 "और", utf8 "या", utf8 "से", utf8 "पर", utf8 "को", utf8 "ने", utf8 "यह",
    utf8 "वह", utf8 "एक", utf8 "कौन", utf8 "कब", utf8 "कहाँ", utf8 "कैसे",
    utf8 "the", utf8 "is", utf8 "of", utf8 "in", utf8 "a", utf8 "an", utf8 "what", utf8 "who",
    utf8 "when", utf8 "where", utf8 "how" ]

/-- `randomFrom`; `r` is the value returned by `rand()`. -/
def randomFrom (v : List Str) (r : Nat) : Str := v.getD (r % v.length) []

/-- `HindiAI::isStopWord`. -/
def isStopWord (w : Str) : Bool := STOP_WORDS.contains w

/-- `HindiAI::tokenize`. -/
def tokenize (text : Str) : List Str := (words text).filter fun word => !isStopWord word

/-- `HindiAI::scoreMatch`. -/
def scoreMatch (query dbQuestion : Str) : Nat :=
  let score := if contains dbQuestion query then 10 else 0
  (tokenize query).foldl
    (fun score tok =>
      if tok.length < 2 then score
      else if contains dbQuestion tok then score + 2 else score)
    score

/-- The scan loop shared by `searchByKeyword` and `searchByCategory`: the pair
`(bestAnswer, bestScore)` after stepping through `rows`. -/
def scanBest (query : Str) (rows : List FactRecord) : Str × Nat :=
  rows.foldl
    (fun (best : Str × Nat) row =>
      let score := scoreMatch query row.question
      if score > best.2 then (row.answer, score) else best)
    ([], 0)

/-- `HindiAI::searchByKeyword`; `db = none` is the null handle. -/
def searchByKeyword (db : Option Store) (query : Str) : Str :=
  match db with
  | none => []
  | some st =>
    let best := scanBest query st.records
    let MIN_SCORE := 1
    if best.2 ≥ MIN_SCORE then best.1 else []

/-- `HindiAI::searchDB`.  When the statement yields a row, it is finalized at line 129;
a non-empty answer is returned at line 130, but with an empty answer the code goes on to
line 132 and finalizes the freed statement a second time: from there on the call has no
defined result, which is `none`.  Without a row the statement is finalized once and the
scored scan runs. -/
def searchDB (db : Option Store) (query : Str) : Option Str :=
  match db with
  | none => some []
  | some st =>
    match st.indexed query with
    | some ans => if !ans.isEmpty then some ans else none
    | none => some (searchByKeyword db query)

/-- `HindiAI::searchByCategory`. -/
def searchByCategory (db : Option Store) (category query : Str) : Str :=
  match db with
  | none => []
  | some st =>
    if category.isEmpty then []
    else (scanBest query (st.records.filter fun row => row.category == category)).1

/-- `HindiAI::wrapResponse`; `r` is the value returned by `rand()`. -/
def wrapResponse (answer emotion : Str) (r : Nat) : Str :=
  let neutral := [
    answer ++ utf8 "। यदि आप चाहें तो मैं और विस्तार से समझा सकता हूँ।",
    answer ++ utf8 "। क्या आप इस विषय पर और जानकारी चाहते हैं?",
    answer ++ utf8 "। इस विषय में कोई और जिज्ञासा हो तो पूछें।" ]
  let warm := [
    answer ++ utf8 "। आपकी जिज्ञासा अच्छी है, और जानकारी के लिए पूछें।",
    answer ++ utf8 "। यह जानकारी आपके काम आए, यही मेरी कोशिश है।" ]
  let energetic := [
    answer ++ utf8 "। बढ़िया सवाल! और पूछें।",
    answer ++ utf8 "। शानदार! इस विषय पर और बात करें।" ]
  let calm := [
    answer ++ utf8 "। आशा है यह जानकारी सहायक होगी।",
    answer ++ utf8 "। शांत मन से इसे समझें, और प्रश्न हो तो पूछें।" ]
  if emotion == utf8 "warm" then randomFrom warm r
  else if emotion == utf8 "energetic" then randomFrom energetic r
  else if emotion == utf8 "calm" then randomFrom calm r
  else randomFrom neutral r

/-- The greeting templates of `generateResponse`. -/
def greets : List Str :=
  [ utf8 "नमस्ते बॉस! मैं पूरी तरह सक्रिय हूँ। भारतीय राजनीति, सिनेमा, भूगोल, कानून या तकनीक — किसी भी विषय पर पूछें।",
    utf8 "हेलो! मैं आपकी सेवा में हूँ। क्या जानना चाहते हैं?",
    utf8 "नमस्कार! आज किस विषय में जानकारी चाहिए?" ]

/-- The help text of `generateResponse`. -/
def helpText : Str :=
  utf8 ("मैं इन विषयों में मदद कर सकता हूँ:\n" ++
    "1. भारतीय राजनीति (नेता, दल, चुनाव, संसद)\n" ++
    "2. भारतीय सिनेमा (फिल्में, कलाकार, पुरस्कार)\n" ++
    "3. भारतीय भूगोल (राज्य, नदियाँ, पर्वत)\n" ++
    "4. भारतीय कानून (धाराएँ, संविधान, न्यायालय)\n" ++
    "5. तकनीक (इंटरनेट, एआई, प्रोग्रामिंग)\n" ++
    "बस पूछिए!")

/-- The "not found" message of `generateResponse`. -/
def apology : Str :=
  utf8 ("क्षमा कीजिए बॉस, इस विषय पर मेरे पास अभी जानकारी नहीं है। " ++
    "कृपया अलग शब्दों में पूछें या किसी और विषय पर प्रश्न करें।")

/-- Lines 256-296 of `generateResponse`: the greeting, help and follow-up intercepts.
`some (some result)` is an early `return` (with the state of `brain` at that point),
`some none` falls through to the primary search, and `none` is a call of `searchDB`
without a defined result. -/
def intercept (db : Option Store) (brain : Intelligence) (r : Nat) (now : Int)
    (input processed emotion : Str) : Option (Option (Str × Intelligence)) :=
  if contains processed (utf8 "नमस्ते") || contains processed (utf8 "hello") ||
      contains processed (utf8 "हाय") || contains processed (utf8 "hey") then
    some (some (randomFrom greets r, brain))
  else if contains processed (utf8 "मदद") || contains processed (utf8 "help") then
    some (some (helpText, brain))
  else if contains processed (utf8 "और बताओ") || contains processed (utf8 "विस्तार") then
    let lastSubj := brain.getLastSubject
    if !lastSubj.isEmpty then
      match searchDB db (lastSubj ++ utf8 " विस्तार " ++ processed) with
      | none => none
      | some followUp =>
        match (if followUp.isEmpty then searchDB db lastSubj else some followUp) with
        | none => none
        | some followUp =>
          if !followUp.isEmpty then
            some (some (wrapResponse followUp emotion r,
              brain.updateContext now input followUp))
          else some none
    else some none
  else some none

/-- Lines 298-315 of `generateResponse`: primary search, category fallback, success
or "not found"; `none` when the primary search has no defined result. -/
def respond (db : Option Store) (brain : Intelligence) (r : Nat) (now : Int)
    (input processed emotion topic : Str) : Option (Str × Intelligence) :=
  match searchDB db processed with
  | none => none
  | some answer =>
    let answer :=
      if answer.isEmpty && !topic.isEmpty && topic != Intelligence.generalTopic then
        searchByCategory db topic processed
      else answer
    if !answer.isEmpty then
      some (wrapResponse answer emotion r, brain.updateContext now input answer)
    else some (apology, brain)

/-- `HindiAI::generateResponse`: the response text and the state of `brain` after the
call; `none` when the call does not return within `fuel` loop steps or makes a call of
`searchDB` that has no defined result.  `r` is the value of `rand()` and `now` the clock
reading, each used at most once per call. -/
def generateResponse (fuel : Nat) (db : Option Store) (brain : Intelligence) (r : Nat)
    (now : Int) (input : Str) : Option (Str × Intelligence) :=
  match Enhancer.preprocess fuel input with
  | none => none
  | some processed =>
    let brain := brain.detectEmotion processed
    let emotion := brain.getEmotion
    let processed := brain.applyContext processed
    let topic := Intelligence.detectTopic processed
    match intercept db brain r now input processed emotion with
    | none => none
    | some (some result) => some result
    | some none => respond db brain r now input processed emotion topic

end HindiAI

/-! ## Performer (`performer.cpp`) -/

namespace Performer

/-- Insertion of one element into a `std::set<string>` (kept sorted, no duplicates). -/
def setInsert : List Str → Str → List Str
  | [], w => [w]
  | e :: rest, w =>
    if strLt w e then w :: e :: rest
    else if strLt e w then e :: setInsert rest w
    else e :: rest

/-- `Performer::buildVocabulary`: the member `vocabulary`, in iteration order, built
from the questions of the `knowledge` table in scan order. -/
def buildVocabulary (questions : List Str) : List Str :=
  (questions.map words).flatten.foldl setInsert []

/-- The inner `j` loop of `fuzzySimilarity` for one `i`: given `a[i-1]`, the rest of
`b` from `b[j-1]` on, the previous row from `dp[i-1][j-1]` on and `dp[i][j-1]`, the
entries `dp[i][j], dp[i][j+1], ...`. -/
def dpRowAux (ai : Nat) : Str → List Nat → Nat → List Nat
  | bj :: bs, diag :: up :: prev, left =>
    let v := min (up + 1) (min (left + 1) (diag + if ai ≠ bj then 1 else 0))
    v :: dpRowAux ai bs (up :: prev) v
  | _, _, _ => []

/-- Row `dp[i]` from row `dp[i-1]`: `dp[i][0] = i`, then the `j` loop. -/
def dpRow (ai : Nat) (b : Str) (prev : List Nat) (i : Nat) : List Nat :=
  i :: dpRowAux ai b prev i

/-- The rows of the table of `fuzzySimilarity`, from `dp[0]` (given) to `dp[m]`: the
last row. -/
def dpRows : Str → Str → List Nat → Nat → List Nat
  | [], _, row, _ => row
  | ai :: as, b, row, i => dpRows as b (dpRow ai b row (i + 1)) (i + 1)

/-- The entry `dp[m][n]` of the table of `fuzzySimilarity`. -/
def lev (a b : Str) : Nat :=
  (dpRows a b (List.range (b.length + 1)) 0).getLastD 0

/-- `Performer::fuzzySimilarity`, with the `double` arithmetic carried out exactly. -/
def fuzzySimilarity (a b : Str) : ℚ :=
  let maxLen := max a.length b.length
  if maxLen = 0 then 1 else 1 - (lev a b : ℚ) / (maxLen : ℚ)

/-- `Performer::autoCorrect`, over the vocabulary in iteration order. -/
def autoCorrect (vocabulary : List Str) (word : Str) : Str :=
  let best := vocabulary.foldl
    (fun (best : ℚ × Str) v =>
      if word.length < 3 then best
      else
        let sim := fuzzySimilarity word v
        if sim > best.1 then (sim, v) else best)
    (0, word)
  if best.1 > 0.80 then best.2 else word

end Performer

/-! ## Auxiliary definitions used by the statements and proofs -/

/-- Checks that a rule table, run on `s`, reaches a rule whose pattern occurs both in
`s` and in the rule's own replacement, all earlier rules leaving `s` untouched. -/
def divergesOn : List (Str × Str) → Str → Bool
  | [], _ => false
  | r :: rest, s => if contains s r.1 then contains r.2 r.1 else divergesOn rest s

/-- No rule of the table has its pattern in `s`. -/
def noRuleMatches (rules : List (Str × Str)) (s : Str) : Bool :=
  rules.all fun r => !contains s r.1

/-- One call of `updateContext`: input, response, clock reading. -/
abbrev UpdateCall := Str × Str × Int

/-- The state after a sequence of `updateContext` calls. -/
def updateAll (st : Intelligence) (calls : List UpdateCall) : Intelligence :=
  calls.foldl (fun b c => b.updateContext c.2.2 c.1 c.2.1) st

/-- The turn that one call of `updateContext` records: the call's input and response,
with the topic and subject as they stand after the call. -/
def turnOf (st : Intelligence) (c : UpdateCall) : ConversationTurn :=
  let st' := st.updateContext c.2.2 c.1 c.2.1
  { userInput := c.1, aiResponse := c.2.1, topic := st'.lastTopic,
    subject := st'.lastSubject, timestamp := c.2.2 }

/-- The turns that the calls of a sequence of `updateContext` calls record, in call
order. -/
def turnsOf (st : Intelligence) : List UpdateCall → List ConversationTurn
  | [] => []
  | c :: cs => turnOf st c :: turnsOf (st.updateContext c.2.2 c.1 c.2.1) cs

/-- A small fact store used to instantiate the statements: two geography rows and one
politics row, no FTS5 row for any query. -/
def demoStore : Store :=
  { indexed := fun _ => none,
    records :=
      [ { question := utf8 "भारत की राजधानी क्या है", answer := utf8 "नई दिल्ली",
          category := utf8 "भूगोल" },
        { question := utf8 "गंगा नदी कहाँ है", answer := utf8 "गंगा उत्तर भारत में बहती है",
          category := utf8 "भूगोल" },
        { question := utf8 "संसद क्या है", answer := utf8 "भारत की विधायिका",
          category := utf8 "राजनीति" } ] }

/-- The query that `generateResponse` searches with: the normalised input `p0` after
emotion detection and `applyContext` (steps 2 and 3). -/
def resolvedQuery (brain : Intelligence) (p0 : Str) : Str :=
  (brain.detectEmotion p0).applyContext p0

/-- The closing phrases of `wrapResponse`, all buckets together. -/
def closings : List Str :=
  [ utf8 "। यदि आप चाहें तो मैं और विस्तार से समझा सकता हूँ।",
    utf8 "। क्या आप इस विषय पर और जानकारी चाहते हैं?",
    utf8 "। इस विषय में कोई और जिज्ञासा हो तो पूछें।",
    utf8 "। आपकी जिज्ञासा अच्छी है, और जानकारी के लिए पूछें।",
    utf8 "। यह जानकारी आपके काम आए, यही मेरी कोशिश है।",
    utf8 "। बढ़िया सवाल! और पूछें।",
    utf8 "। शानदार! इस विषय पर और बात करें।",
    utf8 "। आशा है यह जानकारी सहायक होगी।",
    utf8 "। शांत मन से इसे समझें, और प्रश्न हो तो पूछें।" ]

/-- A context state with an established subject, topic and one turn of history. -/
def demoBrain : Intelligence :=
  Intelligence.init.updateContext 1 (utf8 "नरेंद्र मोदी कौन हैं") (utf8 "भारत के प्रधानमंत्री")

/-- The token loop of `scoreMatch` (lines 101-105), from the score `acc`. -/
def scoreTokens (dbQuestion : Str) (tokens : List Str) (acc : Nat) : Nat :=
  tokens.foldl
    (fun score tok =>
      if tok.length < 2 then score
      else if contains dbQuestion tok then score + 2 else score)
    acc

/-- The closing phrases of the `warm` bucket of `wrapResponse`. -/
def warmClosings : List Str :=
  [ utf8 "। आपकी जिज्ञासा अच्छी है, और जानकारी के लिए पूछें।",
    utf8 "। यह जानकारी आपके काम आए, यही मेरी कोशिश है।" ]

/-- The closing phrases of the `energetic` bucket of `wrapResponse`. -/
def energeticClosings : List Str :=
  [ utf8 "। बढ़िया सवाल! और पूछें।",
    utf8 "। शानदार! इस विषय पर और बात करें।" ]

/-- The closing phrases of the `calm` bucket of `wrapResponse`. -/
def calmClosings : List Str :=
  [ utf8 "। आशा है यह जानकारी सहायक होगी।",
    utf8 "। शांत मन से इसे समझें, और प्रश्न हो तो पूछें।" ]

/-- The closing phrases of the `neutral` bucket of `wrapResponse`. -/
def neutralClosings : List Str :=
  [ utf8 "। यदि आप चाहें तो मैं और विस्तार से समझा सकता हूँ।",
    utf8 "। क्या आप इस विषय पर और जानकारी चाहते हैं?",
    utf8 "। इस विषय में कोई और जिज्ञासा हो तो पूछें।" ]

/-- The bucket that an emotion label selects: a bucket of its own for `warm`,
`energetic` and `calm`, the neutral bucket for every other label. -/
def bucketOf (emotion : Str) : List Str :=
  if emotion = utf8 "warm" then warmClosings
  else if emotion = utf8 "energetic" then energeticClosings
  else if emotion = utf8 "calm" then calmClosings
  else neutralClosings

/-- Edit scripts: `EditScript a b n` says that `a` is turned into `b` by `n`
single-element deletions, insertions and substitutions, applied from left to right
(an element that is kept costs nothing). -/
inductive EditScript : Str → Str → Nat → Prop
  | done : EditScript [] [] 0
  | delete (x : Nat) {xs ys : Str} {n : Nat} : EditScript xs ys n → EditScript (x :: xs) ys (n + 1)
  | insert (y : Nat) {xs ys : Str} {n : Nat} : EditScript xs ys n → EditScript xs (y :: ys) (n + 1)
  | keep (x : Nat) {xs ys : Str} {n : Nat} : EditScript xs ys n → EditScript (x :: xs) (x :: ys) n
  | substitute (x y : Nat) {xs ys : Str} {n : Nat} :
      EditScript xs ys n → EditScript (x :: xs) (y :: ys) (n + 1)

/-- The Levenshtein distance with unit costs, as the library defines it (by recursion
on the two lists). -/
def editDistance (a b : Str) : Nat := levenshtein Levenshtein.defaultCost a b

/-- A fact store with one record, of category `xyz` and with an empty answer: the FTS5
index covers the category column, so the lookup for the query `xyz` yields this row,
whose answer column is the empty string; no other query yields a row. -/
def emptyAnswerStore : Store :=
  { indexed := fun q => if q = utf8 "xyz" then some [] else none,
    records := [ { question := utf8 "प्रश्न", answer := [], category := utf8 "xyz" } ] }

/-- A fact store with one row about `नरेंद्र मोदी`, no FTS5 row for any query. -/
def modiStore : Store :=
  { indexed := fun _ => none,
    records :=
      [ { question := utf8 "नरेंद्र मोदी की उम्र", answer := utf8 "उत्तर",
          category := utf8 "राजनीति" } ] }

/-- The gratitude cues of `detectEmotion`. -/
def gratitudeCues : List Str := [utf8 "धन्यवाद", utf8 "शुक्रिया", utf8 "thanks"]

/-- The greeting cues of `detectEmotion`. -/
def greetingCues : List Str := [utf8 "नमस्ते", utf8 "hello", utf8 "हाय"]

/-- The anger and complaint cues of `detectEmotion`. -/
def complaintCues : List Str := [utf8 "गुस्सा", utf8 "बेकार", utf8 "गलत"]

/-- The sadness cues of `detectEmotion`. -/
def sadnessCues : List Str := [utf8 "दुखी", utf8 "उदास"]

/-- The praise cues of `detectEmotion`. -/
def praiseCues : List Str := [utf8 "शाबाश", utf8 "वाह"]

/-- Some cue of the group occurs in the text. -/
def hasCue (cues : List Str) (text : Str) : Prop := ∃ c ∈ cues, c <:+: text

theorem find_isSome_iff (s pat : Str) : (find s pat).isSome = true ↔ pat <:+: s := by
  induction s with
  | nil =>
    cases pat with
    | nil => simp [find]
    | cons a p => simp [find, List.isPrefixOf]
  | cons c t ih =>
    rw [List.infix_cons_iff, ← ih, ← List.isPrefixOf_iff_prefix]
    by_cases h : pat.isPrefixOf (c :: t) = true
    · simp [find, h]
    · simp [find, h]

theorem contains_iff (s pat : Str) : contains s pat = true ↔ pat <:+: s :=
  find_isSome_iff s pat

theorem find_eq_none_iff (s pat : Str) : find s pat = none ↔ ¬ pat <:+: s := by
  rw [← find_isSome_iff]
  cases find s pat <;> simp

theorem contains_eq_false_iff (s pat : Str) : contains s pat = false ↔ ¬ pat <:+: s := by
  rw [← contains_iff]
  simp

/-! ## Replace-to-exhaustion loops -/

theorem replaceAll_of_find_none (n : Nat) (pat rep s : Str) (h : find s pat = none) :
    Enhancer.replaceAll (n + 1) pat rep s = some s := by
  simp [Enhancer.replaceAll, h]

theorem replaceAll_diverges (pat rep : Str) (hrep : pat <:+: rep) :
    ∀ (fuel : Nat) (s : Str), pat <:+: s → Enhancer.replaceAll fuel pat rep s = none := by
  intro fuel
  induction fuel with
  | zero => intro s _; rfl
  | succ n ih =>
    intro s hs
    unfold Enhancer.replaceAll
    cases hf : find s pat with
    | none => exact absurd hs ((find_eq_none_iff s pat).1 hf)
    | some pos =>
      simp only
      apply ih
      unfold replace
      exact hrep.trans ⟨s.take pos, s.drop (pos + pat.length), rfl⟩

theorem applyRules_of_noRuleMatches (n : Nat) (rules : List (Str × Str)) (s : Str)
    (h : noRuleMatches rules s = true) : Enhancer.applyRules (n + 1) rules s = some s := by
  induction rules with
  | nil => rfl
  | cons r rest ih =>
    simp only [noRuleMatches, List.all_cons, Bool.and_eq_true, Bool.not_eq_true'] at h
    unfold Enhancer.applyRules
    rw [replaceAll_of_find_none n r.1 r.2 s
      ((find_eq_none_iff _ _).2 ((contains_eq_false_iff _ _).1 h.1))]
    exact ih h.2

theorem applyRules_diverges (rules : List (Str × Str)) (s : Str)
    (h : divergesOn rules s = true) (fuel : Nat) : Enhancer.applyRules fuel rules s = none := by
  induction rules with
  | nil => simp [divergesOn] at h
  | cons r rest ih =>
    unfold Enhancer.applyRules
    cases fuel with
    | zero => rfl
    | succ n =>
      unfold divergesOn at h
      by_cases hc : contains s r.1 = true
      · rw [if_pos hc] at h
        rw [replaceAll_diverges r.1 r.2 ((contains_iff _ _).1 h) (n + 1) s
          ((contains_iff _ _).1 hc)]
      · rw [if_neg hc] at h
        have hn : find s r.1 = none :=
          (find_eq_none_iff _ _).2 (fun hi => hc ((contains_iff _ _).2 hi))
        rw [replaceAll_of_find_none n r.1 r.2 s hn]
        exact ih h

/-! ## C1: totality of normalisation -/

/-- C1 (fails on the code): `preprocess` does not return on the input `कांग्रेस`.  The
abbreviation rule `कांग्रेस` → `भारतीय राष्ट्रीय कांग्रेस` puts its own pattern back, so
the replace-to-exhaustion loop of `expandShortForms` never ends: for every amount of
fuel both `expandShortForms` and `preprocess` run out of it. -/
theorem C1_preprocess_diverges :
    (∀ fuel, Enhancer.expandShortForms fuel (utf8 "कांग्रेस") = none) ∧
    (∀ fuel, Enhancer.preprocess fuel (utf8 "कांग्रेस") = none) := by
  have hd : divergesOn Enhancer.shortExpansions (utf8 "कांग्रेस") = true := by decide
  refine ⟨fun fuel => applyRules_diverges _ _ hd fuel, fun fuel => ?_⟩
  cases fuel with
  | zero => rfl
  | succ n =>
    have hlow : Enhancer.toLower (utf8 "कांग्रेस") = utf8 "कांग्रेस" := by decide
    have hs : noRuleMatches Enhancer.synonymMap (utf8 "कांग्रेस") = true := by decide
    unfold Enhancer.preprocess Enhancer.normalizeSynonyms Enhancer.expandShortForms
    rw [hlow, applyRules_of_noRuleMatches n _ _ hs]
    simp only
    rw [applyRules_diverges _ _ hd (n + 1)]

/-! ## C4: the history bound -/

theorem updateContext_history (st : Intelligence) (now : Int) (input response : Str) :
    (st.updateContext now input response).history =
      if (st.history ++ [turnOf st (input, response, now)]).length > 10
      then (st.history ++ [turnOf st (input, response, now)]).drop 1
      else st.history ++ [turnOf st (input, response, now)] := by
  rfl

theorem drop_length_sub_append {α : Type} (k : Nat) (a b : List α) :
    ((a.drop (a.length - k)) ++ b).drop ((a.drop (a.length - k) ++ b).length - k) =
      (a ++ b).drop ((a ++ b).length - k) := by
  rcases Nat.le_total a.length k with h | h
  · simp [Nat.sub_eq_zero_of_le h]
  · have h1 : (a.drop (a.length - k)).length = k := by
      rw [List.length_drop]; omega
    rw [List.length_append, h1, List.length_append]
    have h2 : k + b.length - k = b.length := by omega
    rw [h2]
    have h3 : a.length + b.length - k = (a.length - k) + b.length := by omega
    rw [h3]
    rw [List.drop_append_eq_append_drop, List.drop_append_eq_append_drop]
    rw [List.drop_drop, h1]
    have h4 : b.length - k = (a.length - k) + b.length - a.length := by omega
    rw [← h4]

theorem updateAll_history (calls : List UpdateCall) :
    ∀ st : Intelligence, st.history.length ≤ 10 →
      (updateAll st calls).history =
        (st.history ++ turnsOf st calls).drop ((st.history ++ turnsOf st calls).length - 10) := by
  induction calls with
  | nil =>
    intro st h
    simp [updateAll, turnsOf, Nat.sub_eq_zero_of_le h]
  | cons c cs ih =>
    intro st h
    have hstep : (st.updateContext c.2.2 c.1 c.2.1).history =
        (st.history ++ [turnOf st c]).drop
          ((st.history ++ [turnOf st c]).length - 10) := by
      rw [updateContext_history]
      simp only [List.length_append, List.length_singleton]
      split
      · have : st.history.length + 1 - 10 = 1 := by omega
        rw [this]
      · have : st.history.length + 1 - 10 = 0 := by omega
        rw [this]; rfl
    have hlen : (st.updateContext c.2.2 c.1 c.2.1).history.length ≤ 10 := by
      rw [hstep, List.length_drop]
      omega
    have := ih (st.updateContext c.2.2 c.1 c.2.1) hlen
    simp only [updateAll, List.foldl_cons] at this ⊢
    rw [this, hstep, drop_length_sub_append]
    simp [turnsOf]

theorem turnsOf_length (calls : List UpdateCall) :
    ∀ st : Intelligence, (turnsOf st calls).length = calls.length := by
  induction calls with
  | nil => intro st; rfl
  | cons c cs ih => intro st; simp [turnsOf, ih]

theorem turnsOf_userInput (calls : List UpdateCall) :
    ∀ st : Intelligence, (turnsOf st calls).map (·.userInput) = calls.map (·.1) := by
  induction calls with
  | nil => intro st; rfl
  | cons c cs ih => intro st; simp [turnsOf, turnOf, ih]

theorem turnsOf_aiResponse (calls : List UpdateCall) :
    ∀ st : Intelligence, (turnsOf st calls).map (·.aiResponse) = calls.map (·.2.1) := by
  induction calls with
  | nil => intro st; rfl
  | cons c cs ih => intro st; simp [turnsOf, turnOf, ih]

/-- C4: starting from the freshly constructed `Intelligence`, after `n` calls of
`updateContext` the history has length `min n 10` (so never more than 10) and is the
list of the turns recorded by the last `min n 10` calls, in call order; in particular
its user inputs and responses are those of the last `min n 10` calls. -/
theorem C4_history_bound (calls : List UpdateCall) :
    (updateAll Intelligence.init calls).history.length = min calls.length 10 ∧
    (updateAll Intelligence.init calls).history.length ≤ 10 ∧
    (updateAll Intelligence.init calls).history =
      (turnsOf Intelligence.init calls).drop (calls.length - 10) ∧
    (updateAll Intelligence.init calls).history.map (·.userInput) =
      (calls.map (·.1)).drop (calls.length - 10) ∧
    (updateAll Intelligence.init calls).history.map (·.aiResponse) =
      (calls.map (·.2.1)).drop (calls.length - 10) := by
  have h := updateAll_history calls Intelligence.init (by simp [Intelligence.init])
  have h0 : Intelligence.init.history = [] := rfl
  rw [h0, List.nil_append, turnsOf_length] at h
  refine ⟨?_, ?_, h, ?_, ?_⟩
  · rw [h, List.length_drop, turnsOf_length]; omega
  · rw [h, List.length_drop, turnsOf_length]; omega
  · rw [h, List.map_drop, turnsOf_userInput]
  · rw [h, List.map_drop, turnsOf_aiResponse]

/-! ## C5: the scoring formula -/

/-- The token loop of `scoreMatch`, from an arbitrary starting score and over an
arbitrary word list. -/
theorem scoreMatch_loop (d : Str) (ws : List Str) :
    ∀ acc : Nat,
      (ws.filter fun word => !HindiAI.isStopWord word).foldl
        (fun score tok =>
          if tok.length < 2 then score
          else if contains d tok then score + 2 else score) acc =
      acc + 2 * ws.countP (fun t =>
        decide (t ∉ HindiAI.STOP_WORDS) && decide (2 ≤ t.length) && decide (t <:+: d)) := by
  induction ws with
  | nil => intro acc; simp
  | cons w ws ih =>
    intro acc
    have hstop : HindiAI.isStopWord w = true ↔ w ∈ HindiAI.STOP_WORDS := by
      simp [HindiAI.isStopWord]
    rw [List.filter_cons, List.countP_cons]
    by_cases h1 : w ∈ HindiAI.STOP_WORDS
    · have : HindiAI.isStopWord w = true := hstop.2 h1
      simp [this, h1, ih]
    · have : HindiAI.isStopWord w = false := by
        cases hb : HindiAI.isStopWord w
        · rfl
        · exact absurd (hstop.1 hb) h1
      simp only [this, Bool.not_false, if_true, List.foldl_cons, h1, not_false_eq_true,
        decide_True, Bool.true_and]
      rw [ih]
      by_cases h2 : w.length < 2
      · have h2' : ¬ 2 ≤ w.length := by omega
        simp [h2, h2']
      · have h2' : 2 ≤ w.length := by omega
        by_cases h3 : w <:+: d
        · have : contains d w = true := (contains_iff _ _).2 h3
          simp [h2, h2', h3, this]
          omega
        · have : contains d w = false := (contains_eq_false_iff _ _).2 h3
          simp [h2, h2', h3, this]

/-- C5: `scoreMatch q d` is 10 when `q` occurs in `d` as a contiguous substring (else
0) plus 2 for every whitespace-separated token of `q`, counted with multiplicity, that
is not a stop word, has at least 2 bytes and occurs in `d` as a substring; so the
score is even. -/
theorem C5_scoreMatch_formula (q d : Str) :
    HindiAI.scoreMatch q d =
      (if q <:+: d then 10 else 0) +
        2 * (words q).countP (fun t =>
          decide (t ∉ HindiAI.STOP_WORDS) && decide (2 ≤ t.length) && decide (t <:+: d)) ∧
    Even (HindiAI.scoreMatch q d) := by
  have h : HindiAI.scoreMatch q d =
      (if q <:+: d then 10 else 0) +
        2 * (words q).countP (fun t =>
          decide (t ∉ HindiAI.STOP_WORDS) && decide (2 ≤ t.length) && decide (t <:+: d)) := by
    unfold HindiAI.scoreMatch HindiAI.tokenize
    simp only
    rw [scoreMatch_loop]
    congr 1
    by_cases hq : q <:+: d
    · simp [hq, (contains_iff d q).2 hq]
    · simp [hq, (contains_eq_false_iff d q).2 hq]
  refine ⟨h, ?_⟩
  rw [h]
  split
  · exact Even.add (by decide) (even_two_mul _)
  · exact Even.add (by decide) (even_two_mul _)

/-! ## The scan loop of `searchByKeyword` and `searchByCategory` -/

/-- The body of the scan loop. -/
theorem scanBest_eq_foldl (q : Str) (rows : List FactRecord) :
    HindiAI.scanBest q rows =
      rows.foldl (fun (best : Str × Nat) row =>
        if HindiAI.scoreMatch q row.question > best.2
        then (row.answer, HindiAI.scoreMatch q row.question) else best) ([], 0) := rfl

/-- Rows that do not beat the current best leave it as it is. -/
theorem scan_keeps (q : Str) (rows : List FactRecord) :
    ∀ best : Str × Nat, (∀ r ∈ rows, HindiAI.scoreMatch q r.question ≤ best.2) →
      rows.foldl (fun (best : Str × Nat) row =>
        if HindiAI.scoreMatch q row.question > best.2
        then (row.answer, HindiAI.scoreMatch q row.question) else best) best = best := by
  induction rows with
  | nil => intro best _; rfl
  | cons r rs ih =>
    intro best h
    have h1 : ¬ HindiAI.scoreMatch q r.question > best.2 := by
      have := h r (List.mem_cons_self _ _)
      omega
    rw [List.foldl_cons, if_neg h1]
    exact ih best (fun r' hr' => h r' (List.mem_cons_of_mem _ hr'))

/-- Rows that score below `k` keep the best score below `k`. -/
theorem scan_below (q : Str) (k : Nat) (rows : List FactRecord) :
    ∀ best : Str × Nat, best.2 < k → (∀ r ∈ rows, HindiAI.scoreMatch q r.question < k) →
      (rows.foldl (fun (best : Str × Nat) row =>
        if HindiAI.scoreMatch q row.question > best.2
        then (row.answer, HindiAI.scoreMatch q row.question) else best) best).2 < k := by
  induction rows with
  | nil => intro best hb _; exact hb
  | cons r rs ih =>
    intro best hb h
    rw [List.foldl_cons]
    apply ih
    · split
      · exact h r (List.mem_cons_self _ _)
      · exact hb
    · exact fun r' hr' => h r' (List.mem_cons_of_mem _ hr')

/-- The scan returns the first row that attains the maximal, positive score. -/
theorem scanBest_first_max (q : Str) (pre post : List FactRecord) (r : FactRecord)
    (hpos : 0 < HindiAI.scoreMatch q r.question)
    (hpre : ∀ r' ∈ pre, HindiAI.scoreMatch q r'.question < HindiAI.scoreMatch q r.question)
    (hpost : ∀ r' ∈ post, HindiAI.scoreMatch q r'.question ≤ HindiAI.scoreMatch q r.question) :
    HindiAI.scanBest q (pre ++ r :: post) = (r.answer, HindiAI.scoreMatch q r.question) := by
  rw [scanBest_eq_foldl, List.foldl_append, List.foldl_cons]
  have hlt := scan_below q _ pre ([], 0) hpos hpre
  rw [if_pos hlt]
  exact scan_keeps q post _ hpost

/-- When every row scores 0 the scan ends with the empty answer and score 0. -/
theorem scanBest_all_zero (q : Str) (rows : List FactRecord)
    (h : ∀ r ∈ rows, HindiAI.scoreMatch q r.question = 0) :
    HindiAI.scanBest q rows = ([], 0) := by
  rw [scanBest_eq_foldl]
  exact scan_keeps q rows ([], 0) (fun r hr => by simp [h r hr])

/-- A list with a row of positive score splits at the first row of maximal score. -/
theorem exists_first_max (q : Str) (rows : List FactRecord) :
    (∃ r ∈ rows, 0 < HindiAI.scoreMatch q r.question) →
      ∃ pre r post, rows = pre ++ r :: post ∧ 0 < HindiAI.scoreMatch q r.question ∧
        (∀ r' ∈ pre, HindiAI.scoreMatch q r'.question < HindiAI.scoreMatch q r.question) ∧
        (∀ r' ∈ post, HindiAI.scoreMatch q r'.question ≤ HindiAI.scoreMatch q r.question) := by
  induction rows with
  | nil => rintro ⟨r, hr, _⟩; simp at hr
  | cons a rs ih =>
    intro hex
    by_cases hrs : ∃ r ∈ rs, HindiAI.scoreMatch q a.question < HindiAI.scoreMatch q r.question
    · obtain ⟨r0, hr0, hlt0⟩ := hrs
      obtain ⟨pre, r, post, heq, hpos, hpre, hpost⟩ := ih ⟨r0, hr0, by omega⟩
      refine ⟨a :: pre, r, post, by rw [heq]; rfl, hpos, ?_, hpost⟩
      intro r' hr'
      rcases List.mem_cons.1 hr' with rfl | hm
      · have hr0' : r0 ∈ pre ++ r :: post := heq ▸ hr0
        rcases List.mem_append.1 hr0' with h1 | h1
        · have := hpre r0 h1; omega
        · rcases List.mem_cons.1 h1 with rfl | h2
          · exact hlt0
          · have := hpost r0 h2; omega
      · exact hpre r' hm
    · have hle : ∀ r ∈ rs, HindiAI.scoreMatch q r.question ≤ HindiAI.scoreMatch q a.question := by
        intro r hr
        by_contra hc
        exact hrs ⟨r, hr, by omega⟩
      refine ⟨[], a, rs, rfl, ?_, by simp, hle⟩
      obtain ⟨r, hr, hp⟩ := hex
      rcases List.mem_cons.1 hr with rfl | hm
      · exact hp
      · have := hle r hm; omega

/-- The scan ends either with its starting pair or with the answer and score of a row. -/
theorem scan_result (q : Str) (rows : List FactRecord) :
    ∀ best : Str × Nat,
      rows.foldl (fun (best : Str × Nat) row =>
        if HindiAI.scoreMatch q row.question > best.2
        then (row.answer, HindiAI.scoreMatch q row.question) else best) best = best ∨
      ∃ r ∈ rows, rows.foldl (fun (best : Str × Nat) row =>
        if HindiAI.scoreMatch q row.question > best.2
        then (row.answer, HindiAI.scoreMatch q row.question) else best) best =
          (r.answer, HindiAI.scoreMatch q r.question) := by
  induction rows with
  | nil => intro best; exact Or.inl rfl
  | cons a rs ih =>
    intro best
    rw [List.foldl_cons]
    rcases ih (if HindiAI.scoreMatch q a.question > best.2
        then (a.answer, HindiAI.scoreMatch q a.question) else best) with h | ⟨r, hr, h⟩
    · rw [h]
      split
      · exact Or.inr ⟨a, List.mem_cons_self _ _, rfl⟩
      · exact Or.inl rfl
    · exact Or.inr ⟨r, List.mem_cons_of_mem _ hr, h⟩

/-- The scan over a list with a row of positive score ends with a row of maximal score. -/
theorem scanBest_max (q : Str) (rows : List FactRecord)
    (hex : ∃ r ∈ rows, 0 < HindiAI.scoreMatch q r.question) :
    ∃ r ∈ rows, HindiAI.scanBest q rows = (r.answer, HindiAI.scoreMatch q r.question) ∧
      0 < HindiAI.scoreMatch q r.question ∧
      ∀ r' ∈ rows, HindiAI.scoreMatch q r'.question ≤ HindiAI.scoreMatch q r.question := by
  obtain ⟨pre, r, post, heq, hpos, hpre, hpost⟩ := exists_first_max q rows hex
  refine ⟨r, by simp [heq], by rw [heq]; exact scanBest_first_max q pre post r hpos hpre hpost,
    hpos, ?_⟩
  intro r' hr'
  rw [heq] at hr'
  rcases List.mem_append.1 hr' with h | h
  · exact (hpre r' h).le
  · rcases List.mem_cons.1 h with rfl | h2
    · exact le_rfl
    · exact hpost r' h2

/-! ## C6: the scored full scan -/

/-- C6: over an opened store, `searchByKeyword q` returns the answer of a record whose
`scoreMatch` against `q` is the maximum over all records when some record scores at
least 1, and returns the empty answer when every record scores 0 (in particular when
there is no record). -/
theorem C6_searchByKeyword_max (st : Store) (q : Str) :
    ((∃ r ∈ st.records, 1 ≤ HindiAI.scoreMatch q r.question) →
      ∃ r ∈ st.records, HindiAI.searchByKeyword (some st) q = r.answer ∧
        1 ≤ HindiAI.scoreMatch q r.question ∧
        ∀ r' ∈ st.records, HindiAI.scoreMatch q r'.question ≤ HindiAI.scoreMatch q r.question) ∧
    ((∀ r ∈ st.records, HindiAI.scoreMatch q r.question = 0) →
      HindiAI.searchByKeyword (some st) q = []) := by
  constructor
  · intro hex
    obtain ⟨r, hr, hscan, hpos, hmax⟩ := scanBest_max q st.records hex
    refine ⟨r, hr, ?_, hpos, hmax⟩
    simp only [HindiAI.searchByKeyword, hscan]
    exact if_pos hpos
  · intro hz
    simp [HindiAI.searchByKeyword, scanBest_all_zero q st.records hz]

/-- C6 on `demoStore`: the query `नदी` is answered by the Ganga row, the only row with a
positive score, and the query `xyz`, which scores 0 everywhere, gets the empty answer. -/
theorem C6_searchByKeyword_max_witness :
    ((∃ r ∈ demoStore.records, 1 ≤ HindiAI.scoreMatch (utf8 "नदी") r.question) ∧
      ∃ r ∈ demoStore.records, HindiAI.searchByKeyword (some demoStore) (utf8 "नदी") = r.answer ∧
        1 ≤ HindiAI.scoreMatch (utf8 "नदी") r.question ∧
        ∀ r' ∈ demoStore.records,
          HindiAI.scoreMatch (utf8 "नदी") r'.question ≤ HindiAI.scoreMatch (utf8 "नदी") r.question) ∧
    ((∀ r ∈ demoStore.records, HindiAI.scoreMatch (utf8 "xyz") r.question = 0) ∧
      HindiAI.searchByKeyword (some demoStore) (utf8 "xyz") = []) := by
  have h1 : ∃ r ∈ demoStore.records, 1 ≤ HindiAI.scoreMatch (utf8 "नदी") r.question := by
    decide
  have h2 : ∀ r ∈ demoStore.records, HindiAI.scoreMatch (utf8 "xyz") r.question = 0 := by
    decide
  exact ⟨⟨h1, (C6_searchByKeyword_max demoStore (utf8 "नदी")).1 h1⟩,
    ⟨h2, (C6_searchByKeyword_max demoStore (utf8 "xyz")).2 h2⟩⟩

/-! ## C7: ties are broken by encounter order -/

/-- C7: when the records are `pre ++ r :: post`, `r` has a positive score, every record
before `r` scores strictly less and every record after `r` scores at most as much (so
`r` is the first record that attains the maximum), `searchByKeyword` returns the
answer of `r`; and one more scanned row replaces the current best exactly when its
score is strictly greater than the best score so far. -/
theorem C7_first_seen_wins (st : Store) (q : Str) (pre post : List FactRecord)
    (r : FactRecord) (hrec : st.records = pre ++ r :: post)
    (hpos : 0 < HindiAI.scoreMatch q r.question)
    (hpre : ∀ r' ∈ pre, HindiAI.scoreMatch q r'.question < HindiAI.scoreMatch q r.question)
    (hpost : ∀ r' ∈ post, HindiAI.scoreMatch q r'.question ≤ HindiAI.scoreMatch q r.question) :
    HindiAI.searchByKeyword (some st) q = r.answer ∧
    ∀ (rows : List FactRecord) (row : FactRecord),
      HindiAI.scanBest q (rows ++ [row]) =
        if HindiAI.scoreMatch q row.question > (HindiAI.scanBest q rows).2
        then (row.answer, HindiAI.scoreMatch q row.question) else HindiAI.scanBest q rows := by
  constructor
  · simp only [HindiAI.searchByKeyword, hrec, scanBest_first_max q pre post r hpos hpre hpost]
    exact if_pos hpos
  · intro rows row
    simp [scanBest_eq_foldl, List.foldl_append]

/-- C7 on a store with two rows that tie at the maximal score for the query `नदी`: the
first of them is returned. -/
theorem C7_first_seen_wins_witness :
    HindiAI.searchByKeyword
      (some { indexed := fun _ => none,
              records := [ { question := utf8 "संसद", answer := utf8 "a0", category := [] },
                           { question := utf8 "गंगा नदी", answer := utf8 "a1", category := [] },
                           { question := utf8 "यमुना नदी", answer := utf8 "a2", category := [] } ] })
      (utf8 "नदी") = utf8 "a1" :=
  (C7_first_seen_wins
    { indexed := fun _ => none,
      records := [ { question := utf8 "संसद", answer := utf8 "a0", category := [] },
                   { question := utf8 "गंगा नदी", answer := utf8 "a1", category := [] },
                   { question := utf8 "यमुना नदी", answer := utf8 "a2", category := [] } ] }
    (utf8 "नदी")
    [ { question := utf8 "संसद", answer := utf8 "a0", category := [] } ]
    [ { question := utf8 "यमुना नदी", answer := utf8 "a2", category := [] } ]
    { question := utf8 "गंगा नदी", answer := utf8 "a1", category := [] }
    rfl (by decide) (by decide) (by decide)).1

/-! ## C8: the category scan and zero scores -/

/-- C8 (counterexample): in `demoStore` the category `भूगोल` has records, the query
`पर्वत` scores 0 against both of them, and `searchByCategory` returns the empty
answer, which is the answer of neither record. -/
theorem C8_zero_score_not_accepted :
    utf8 "भूगोल" ≠ [] ∧
    (∃ r ∈ demoStore.records, r.category = utf8 "भूगोल") ∧
    (∀ r ∈ demoStore.records, r.category = utf8 "भूगोल" →
      HindiAI.scoreMatch (utf8 "पर्वत") r.question = 0) ∧
    HindiAI.searchByCategory (some demoStore) (utf8 "भूगोल") (utf8 "पर्वत") = [] ∧
    ¬ ∃ r ∈ demoStore.records, r.category = utf8 "भूगोल" ∧
      HindiAI.searchByCategory (some demoStore) (utf8 "भूगोल") (utf8 "पर्वत") = r.answer := by
  decide

theorem mem_filter_category (rows : List FactRecord) (t : Str) (r : FactRecord) :
    r ∈ rows.filter (fun row => row.category == t) ↔ r ∈ rows ∧ r.category = t := by
  simp [List.mem_filter]

/-- C8 (amended): for a non-empty category `t`, `searchByCategory t q` returns the
answer of a maximum-scoring record of category `t` when some record of that category
scores at least 1, and returns the empty answer when every record of category `t`
scores 0. -/
theorem C8_searchByCategory_positive_only (st : Store) (t q : Str) (ht : t ≠ []) :
    ((∃ r ∈ st.records, r.category = t ∧ 1 ≤ HindiAI.scoreMatch q r.question) →
      ∃ r ∈ st.records, r.category = t ∧ 1 ≤ HindiAI.scoreMatch q r.question ∧
        (∀ r' ∈ st.records, r'.category = t →
          HindiAI.scoreMatch q r'.question ≤ HindiAI.scoreMatch q r.question) ∧
        HindiAI.searchByCategory (some st) t q = r.answer) ∧
    ((∀ r ∈ st.records, r.category = t → HindiAI.scoreMatch q r.question = 0) →
      HindiAI.searchByCategory (some st) t q = []) := by
  have hte : t.isEmpty = false := by
    cases t with
    | nil => exact absurd rfl ht
    | cons a l => rfl
  constructor
  · rintro ⟨r0, hr0, hc0, hs0⟩
    obtain ⟨r, hr, hscan, hpos, hmax⟩ :=
      scanBest_max q (st.records.filter fun row => row.category == t)
        ⟨r0, (mem_filter_category _ _ _).2 ⟨hr0, hc0⟩, hs0⟩
    have hr' := (mem_filter_category _ _ _).1 hr
    refine ⟨r, hr'.1, hr'.2, hpos, ?_, ?_⟩
    · exact fun r' h1 h2 => hmax r' ((mem_filter_category _ _ _).2 ⟨h1, h2⟩)
    · simp [HindiAI.searchByCategory, hte, hscan]
  · intro hz
    have := scanBest_all_zero q (st.records.filter fun row => row.category == t)
      (fun r hr => hz r ((mem_filter_category _ _ _).1 hr).1 ((mem_filter_category _ _ _).1 hr).2)
    simp [HindiAI.searchByCategory, hte, this]

/-- C8 (amended) on `demoStore` and the category `भूगोल`: the query `नदी` is answered by
the Ganga row, the query `पर्वत` gets the empty answer. -/
theorem C8_searchByCategory_positive_only_witness :
    (∃ r ∈ demoStore.records, r.category = utf8 "भूगोल" ∧
        1 ≤ HindiAI.scoreMatch (utf8 "नदी") r.question ∧
        (∀ r' ∈ demoStore.records, r'.category = utf8 "भूगोल" →
          HindiAI.scoreMatch (utf8 "नदी") r'.question ≤ HindiAI.scoreMatch (utf8 "नदी") r.question) ∧
        HindiAI.searchByCategory (some demoStore) (utf8 "भूगोल") (utf8 "नदी") = r.answer) ∧
    HindiAI.searchByCategory (some demoStore) (utf8 "भूगोल") (utf8 "पर्वत") = [] :=
  ⟨(C8_searchByCategory_positive_only demoStore (utf8 "भूगोल") (utf8 "नदी") (by decide)).1
      (by decide),
    (C8_searchByCategory_positive_only demoStore (utf8 "भूगोल") (utf8 "पर्वत") (by decide)).2
      (by decide)⟩

/-! ## C9: category scoping -/

/-- C9: a non-empty answer of `searchByCategory t q` is the answer of a record of
category `t`, and two stores with the same sequence of category-`t` records give the
same result. -/
theorem C9_category_scoping (st1 st2 : Store) (t q : Str) :
    (HindiAI.searchByCategory (some st1) t q ≠ [] →
      ∃ r ∈ st1.records, r.category = t ∧
        HindiAI.searchByCategory (some st1) t q = r.answer) ∧
    (st1.records.filter (fun row => row.category == t) =
        st2.records.filter (fun row => row.category == t) →
      HindiAI.searchByCategory (some st1) t q = HindiAI.searchByCategory (some st2) t q) := by
  constructor
  · intro hne
    unfold HindiAI.searchByCategory at hne ⊢
    simp only at hne ⊢
    by_cases hte : t.isEmpty = true
    · simp [hte] at hne
    · simp only [hte] at hne ⊢
      rcases scan_result q (st1.records.filter fun row => row.category == t) ([], 0)
        with h | ⟨r, hr, h⟩
      · rw [scanBest_eq_foldl, h] at hne
        simp at hne
      · have hr' := (mem_filter_category _ _ _).1 hr
        refine ⟨r, hr'.1, hr'.2, ?_⟩
        rw [scanBest_eq_foldl, h]
        rfl
  · intro h
    simp only [HindiAI.searchByCategory, h]

/-- C9 on `demoStore` and the store that holds its geography rows only: the query
`नदी` in the category `भूगोल` gets the same non-empty answer from both, the answer of a
geography record. -/
theorem C9_category_scoping_witness :
    (∃ r ∈ demoStore.records, r.category = utf8 "भूगोल" ∧
      HindiAI.searchByCategory (some demoStore) (utf8 "भूगोल") (utf8 "नदी") = r.answer) ∧
    HindiAI.searchByCategory (some demoStore) (utf8 "भूगोल") (utf8 "नदी") =
      HindiAI.searchByCategory
        (some { indexed := fun _ => some (utf8 "x"), records := demoStore.records.take 2 })
        (utf8 "भूगोल") (utf8 "नदी") :=
  ⟨(C9_category_scoping demoStore demoStore (utf8 "भूगोल") (utf8 "नदी")).1 (by decide),
    (C9_category_scoping demoStore
      { indexed := fun _ => some (utf8 "x"), records := demoStore.records.take 2 }
      (utf8 "भूगोल") (utf8 "नदी")).2 (by decide)⟩

/-! ## `generateResponse` -/

theorem randomFrom_mem (v : List Str) (r : Nat) (hv : v ≠ []) : HindiAI.randomFrom v r ∈ v := by
  unfold HindiAI.randomFrom
  have hlt : r % v.length < v.length := Nat.mod_lt _ (List.length_pos.2 hv)
  rw [List.getD_eq_getElem _ _ hlt]
  exact List.getElem_mem _

/-- Every wrapped response is the answer followed by one of the closing phrases. -/
theorem wrapResponse_form (answer emotion : Str) (r : Nat) :
    ∃ suf ∈ closings, HindiAI.wrapResponse answer emotion r = answer ++ suf := by
  unfold HindiAI.wrapResponse
  simp only
  split
  · have := randomFrom_mem [answer ++ utf8 "। आपकी जिज्ञासा अच्छी है, और जानकारी के लिए पूछें।",
      answer ++ utf8 "। यह जानकारी आपके काम आए, यही मेरी कोशिश है।"] r (by simp)
    rcases List.mem_cons.1 this with h | h
    · exact ⟨_, by simp [closings], h⟩
    · rw [List.mem_singleton] at h
      exact ⟨_, by simp [closings], h⟩
  · split
    · have := randomFrom_mem [answer ++ utf8 "। बढ़िया सवाल! और पूछें।",
        answer ++ utf8 "। शानदार! इस विषय पर और बात करें।"] r (by simp)
      rcases List.mem_cons.1 this with h | h
      · exact ⟨_, by simp [closings], h⟩
      · rw [List.mem_singleton] at h
        exact ⟨_, by simp [closings], h⟩
    · split
      · have := randomFrom_mem [answer ++ utf8 "। आशा है यह जानकारी सहायक होगी।",
          answer ++ utf8 "। शांत मन से इसे समझें, और प्रश्न हो तो पूछें।"] r (by simp)
        rcases List.mem_cons.1 this with h | h
        · exact ⟨_, by simp [closings], h⟩
        · rw [List.mem_singleton] at h
          exact ⟨_, by simp [closings], h⟩
      · have := randomFrom_mem [answer ++ utf8 "। यदि आप चाहें तो मैं और विस्तार से समझा सकता हूँ।",
          answer ++ utf8 "। क्या आप इस विषय पर और जानकारी चाहते हैं?",
          answer ++ utf8 "। इस विषय में कोई और जिज्ञासा हो तो पूछें।"] r (by simp)
        rcases List.mem_cons.1 this with h | h
        · exact ⟨_, by simp [closings], h⟩
        · rcases List.mem_cons.1 h with h | h
          · exact ⟨_, by simp [closings], h⟩
          · rw [List.mem_singleton] at h
            exact ⟨_, by simp [closings], h⟩

/-- No wrapped response is the "not found" message: no closing phrase ends it. -/
theorem wrapResponse_ne_apology (answer emotion : Str) (r : Nat) :
    HindiAI.wrapResponse answer emotion r ≠ HindiAI.apology := by
  obtain ⟨suf, hsuf, h⟩ := wrapResponse_form answer emotion r
  intro heq
  have hs : suf <:+ HindiAI.apology := ⟨answer, by rw [← heq, h]⟩
  have hall : closings.all (fun suf => !suf.isSuffixOf HindiAI.apology) = true := by decide
  have := List.all_eq_true.1 hall suf hsuf
  rw [← List.isSuffixOf_iff_suffix] at hs
  simp [hs] at this

theorem detectEmotion_frame (brain : Intelligence) (p : Str) :
    (brain.detectEmotion p).lastSubject = brain.lastSubject ∧
    (brain.detectEmotion p).lastTopic = brain.lastTopic ∧
    (brain.detectEmotion p).history = brain.history := by
  unfold Intelligence.detectEmotion
  split_ifs <;> exact ⟨rfl, rfl, rfl⟩

/-- An intercept never returns the "not found" message. -/
theorem intercept_ne_apology (db : Option Store) (brain : Intelligence) (r : Nat) (now : Int)
    (input processed emotion : Str) (res : Str × Intelligence)
    (h : HindiAI.intercept db brain r now input processed emotion = some (some res)) :
    res.1 ≠ HindiAI.apology := by
  unfold HindiAI.intercept at h
  simp only at h
  have hm := randomFrom_mem HindiAI.greets r (by decide)
  have hall : ∀ g ∈ HindiAI.greets, g ≠ HindiAI.apology := by decide
  have hhelp : HindiAI.helpText ≠ HindiAI.apology := by decide
  split_ifs at h
  · cases h; exact hall _ hm
  · cases h; exact hhelp
  · split at h
    · cases h
    · split at h
      · cases h
      · split_ifs at h
        · cases h; exact wrapResponse_ne_apology _ _ _
        · cases h
  · cases h
  · cases h

/-- The primary stage returns the "not found" message only with the state untouched. -/
theorem respond_apology (db : Option Store) (brain b : Intelligence) (r : Nat) (now : Int)
    (input processed emotion topic : Str)
    (h : HindiAI.respond db brain r now input processed emotion topic =
      some (HindiAI.apology, b)) :
    b = brain := by
  unfold HindiAI.respond at h
  split at h
  · cases h
  · simp only at h
    split_ifs at h
    all_goals
      simp only [Option.some.injEq, Prod.mk.injEq] at h
      first
        | exact h.2.symm
        | exact absurd h.1 (wrapResponse_ne_apology _ _ _)

/-- Without an FTS5 row and with every record scoring 0, `searchDB` returns the empty
answer. -/
theorem searchDB_empty (db : Option Store) (q : Str)
    (hidx : ∀ st, db = some st → st.indexed q = none)
    (hsc : ∀ st, db = some st → ∀ rec ∈ st.records, HindiAI.scoreMatch q rec.question = 0) :
    HindiAI.searchDB db q = some [] := by
  cases db with
  | none => rfl
  | some st =>
    simp [HindiAI.searchDB, hidx st rfl, HindiAI.searchByKeyword,
      scanBest_all_zero q st.records (hsc st rfl)]

/-- After `preprocess` has returned `p0`, `generateResponse` is the intercept stage
followed by the primary stage. -/
theorem generateResponse_of_preprocess (fuel : Nat) (db : Option Store) (brain : Intelligence)
    (r : Nat) (now : Int) (input p0 : Str) (hp : Enhancer.preprocess fuel input = some p0) :
    HindiAI.generateResponse fuel db brain r now input =
      match HindiAI.intercept db (brain.detectEmotion p0) r now input (resolvedQuery brain p0)
          (brain.detectEmotion p0).getEmotion with
      | none => none
      | some (some result) => some result
      | some none =>
        HindiAI.respond db (brain.detectEmotion p0) r now input (resolvedQuery brain p0)
          (brain.detectEmotion p0).getEmotion
          (Intelligence.detectTopic (resolvedQuery brain p0)) := by
  unfold HindiAI.generateResponse
  rw [hp]
  rfl

/-! ## C2: the minimum-score floor -/

/-- The floor holds when the FTS5 lookup yields no row: when `preprocess` returns `p0`,
no intercept fires, the statement for the resolved query cannot be prepared or yields
no row, every stored record scores 0 against the resolved query and its topic is the
sentinel, `generateResponse` returns the "not found" message, and the state is the one
after emotion detection. -/
theorem generateResponse_floor_of_no_row (fuel : Nat) (db : Option Store)
    (brain : Intelligence) (r : Nat) (now : Int) (input p0 : Str)
    (hp : Enhancer.preprocess fuel input = some p0)
    (hi : HindiAI.intercept db (brain.detectEmotion p0) r now input (resolvedQuery brain p0)
      (brain.detectEmotion p0).getEmotion = some none)
    (hidx : ∀ st, db = some st → st.indexed (resolvedQuery brain p0) = none)
    (hsc : ∀ st, db = some st → ∀ rec ∈ st.records,
      HindiAI.scoreMatch (resolvedQuery brain p0) rec.question = 0)
    (ht : Intelligence.detectTopic (resolvedQuery brain p0) = Intelligence.generalTopic) :
    HindiAI.generateResponse fuel db brain r now input =
      some (HindiAI.apology, brain.detectEmotion p0) := by
  rw [generateResponse_of_preprocess fuel db brain r now input p0 hp, hi]
  simp only [HindiAI.respond, searchDB_empty db _ hidx hsc, ht]
  simp

/-- The floor on `demoStore` and `demoBrain`: the input `xyz` shares nothing with any
stored question, has no topic keyword and no FTS5 row, and is answered with the "not
found" message. -/
theorem generateResponse_floor_of_no_row_example :
    HindiAI.generateResponse 3 (some demoStore) demoBrain 7 2 (utf8 "xyz") =
      some (HindiAI.apology, demoBrain.detectEmotion (utf8 "xyz")) :=
  generateResponse_floor_of_no_row 3 (some demoStore) demoBrain 7 2 (utf8 "xyz") (utf8 "xyz")
    (by decide) (by decide) (fun st h => by cases h; rfl)
    (fun st h => by cases h; decide) (by decide)

/-! ## C3: the subject persists on failure -/

/-- C3: when `generateResponse` returns the "not found" message, `lastSubject`,
`lastTopic` and `history` after the call are what they were before it. -/
theorem C3_failure_keeps_context (fuel : Nat) (db : Option Store) (brain brain' : Intelligence)
    (r : Nat) (now : Int) (input : Str)
    (h : HindiAI.generateResponse fuel db brain r now input = some (HindiAI.apology, brain')) :
    brain'.lastSubject = brain.lastSubject ∧ brain'.lastTopic = brain.lastTopic ∧
    brain'.history = brain.history := by
  cases hp : Enhancer.preprocess fuel input with
  | none =>
    unfold HindiAI.generateResponse at h
    rw [hp] at h; cases h
  | some p0 =>
    rw [generateResponse_of_preprocess fuel db brain r now input p0 hp] at h
    cases hi : HindiAI.intercept db (brain.detectEmotion p0) r now input
        (resolvedQuery brain p0) (brain.detectEmotion p0).getEmotion with
    | none => rw [hi] at h; cases h
    | some stage =>
      cases stage with
      | some res =>
        rw [hi] at h
        simp only [Option.some.injEq] at h
        exact absurd (by rw [h]) (intercept_ne_apology _ _ _ _ _ _ _ _ hi)
      | none =>
        rw [hi] at h
        simp only at h
        rw [respond_apology _ _ _ _ _ _ _ _ _ h]
        exact detectEmotion_frame brain p0

/-- C3 on `demoStore` and `demoBrain` (subject `नरेंद्र मोदी`, one turn of history): the
failing input `xyz` leaves subject, topic and history as they were. -/
theorem C3_failure_keeps_context_witness :
    (demoBrain.detectEmotion (utf8 "xyz")).lastSubject = demoBrain.lastSubject ∧
    (demoBrain.detectEmotion (utf8 "xyz")).lastTopic = demoBrain.lastTopic ∧
    (demoBrain.detectEmotion (utf8 "xyz")).history = demoBrain.history :=
  C3_failure_keeps_context 3 (some demoStore) demoBrain (demoBrain.detectEmotion (utf8 "xyz"))
    7 2 (utf8 "xyz") (by rfl)

/-! ## C10: the indexed result is accepted first -/

/-- C10: when `preprocess` returns `p0`, no intercept fires and the indexed lookup on
the resolved query yields a row with a non-empty answer `a`, `generateResponse` returns
`wrapResponse a emotion` and the state after `updateContext input a`, whatever the
stored records are. -/
theorem C10_indexed_first (fuel : Nat) (st : Store) (brain : Intelligence)
    (r : Nat) (now : Int) (input p0 a : Str)
    (hp : Enhancer.preprocess fuel input = some p0)
    (hi : HindiAI.intercept (some st) (brain.detectEmotion p0) r now input
      (resolvedQuery brain p0) (brain.detectEmotion p0).getEmotion = some none)
    (hidx : st.indexed (resolvedQuery brain p0) = some a) (ha : a ≠ []) :
    HindiAI.generateResponse fuel (some st) brain r now input =
      some (HindiAI.wrapResponse a (brain.detectEmotion p0).getEmotion r,
            (brain.detectEmotion p0).updateContext now input a) := by
  rw [generateResponse_of_preprocess fuel (some st) brain r now input p0 hp, hi]
  have he : a.isEmpty = false := by
    cases a with
    | nil => exact absurd rfl ha
    | cons c rest => rfl
  simp [HindiAI.respond, HindiAI.searchDB, hidx, he]

/-- C10 on a store whose FTS5 lookup answers `नई दिल्ली` although its only record
scores 12 against the query: the indexed answer is the one rendered and recorded. -/
theorem C10_indexed_first_witness :
    HindiAI.generateResponse 3
      (some { indexed := fun _ => some (utf8 "नई दिल्ली"),
              records := [ { question := utf8 "rajdhani", answer := utf8 "scan",
                             category := [] } ] })
      demoBrain 7 2 (utf8 "Rajdhani?") =
    some (HindiAI.wrapResponse (utf8 "नई दिल्ली") (utf8 "neutral") 7,
          (demoBrain.detectEmotion (utf8 "rajdhani")).updateContext 2 (utf8 "Rajdhani?")
            (utf8 "नई दिल्ली")) :=
  C10_indexed_first 3
    { indexed := fun _ => some (utf8 "नई दिल्ली"),
      records := [ { question := utf8 "rajdhani", answer := utf8 "scan", category := [] } ] }
    demoBrain 7 2 (utf8 "Rajdhani?") (utf8 "rajdhani") (utf8 "नई दिल्ली") (by decide)
    (by decide) rfl (by decide)

/-! ## More on the replace-to-exhaustion loops: fuel and exhaustion -/

/-- A loop that ends within `f` steps ends with the same result within any `f' ≥ f`. -/
theorem replaceAll_mono (pat rep : Str) :
    ∀ (f f' : Nat) (s t : Str), f ≤ f' → Enhancer.replaceAll f pat rep s = some t →
      Enhancer.replaceAll f' pat rep s = some t := by
  intro f
  induction f with
  | zero => intro f' s t _ h; simp [Enhancer.replaceAll] at h
  | succ n ih =>
    intro f' s t hle h
    obtain ⟨m, rfl⟩ : ∃ m, f' = m + 1 := ⟨f' - 1, by omega⟩
    unfold Enhancer.replaceAll at h ⊢
    cases hf : find s pat with
    | none => rw [hf] at h; exact h
    | some pos =>
      rw [hf] at h
      exact ih m _ t (by omega) h

/-- When the loop ends, the pattern no longer occurs in the text. -/
theorem replaceAll_exhausts (pat rep : Str) :
    ∀ (f : Nat) (s t : Str), Enhancer.replaceAll f pat rep s = some t → ¬ pat <:+: t := by
  intro f
  induction f with
  | zero => intro s t h; simp [Enhancer.replaceAll] at h
  | succ n ih =>
    intro s t h
    unfold Enhancer.replaceAll at h
    cases hf : find s pat with
    | none =>
      rw [hf] at h
      simp only [Option.some.injEq] at h
      rw [← h]
      exact (find_eq_none_iff s pat).1 hf
    | some pos =>
      rw [hf] at h
      exact ih _ t h

theorem applyRules_mono (rules : List (Str × Str)) :
    ∀ (f f' : Nat) (s t : Str), f ≤ f' → Enhancer.applyRules f rules s = some t →
      Enhancer.applyRules f' rules s = some t := by
  induction rules with
  | nil => intro f f' s t _ h; exact h
  | cons r rest ih =>
    intro f f' s t hle h
    unfold Enhancer.applyRules at h ⊢
    cases hr : Enhancer.replaceAll f r.1 r.2 s with
    | none => rw [hr] at h; cases h
    | some s' =>
      rw [hr] at h
      rw [replaceAll_mono r.1 r.2 f f' s s' hle hr]
      exact ih f f' s' t hle h

/-- `preprocess` returns `out` exactly when the synonym pass on the case-folded input
returns some `s1`, the abbreviation pass on `s1` returns some `s2`, and `out` is `s2`
with punctuation removed. -/
theorem preprocess_eq_some_iff (fuel : Nat) (input out : Str) :
    Enhancer.preprocess fuel input = some out ↔
      ∃ s1 s2, Enhancer.normalizeSynonyms fuel (Enhancer.toLower input) = some s1 ∧
        Enhancer.expandShortForms fuel s1 = some s2 ∧ out = Enhancer.removePunctuation s2 := by
  unfold Enhancer.preprocess
  cases h1 : Enhancer.normalizeSynonyms fuel (Enhancer.toLower input) with
  | none => simp
  | some s =>
    cases h2 : Enhancer.expandShortForms fuel s with
    | none => simp [h2]
    | some s' =>
      simp only [Option.some.injEq, h2]
      constructor
      · intro h; exact ⟨s, s', rfl, h2, h.symm⟩
      · rintro ⟨s1, s2, rfl, hs2, rfl⟩
        rw [h2] at hs2
        cases hs2
        rfl

theorem preprocess_mono (f f' : Nat) (input out : Str) (hle : f ≤ f')
    (h : Enhancer.preprocess f input = some out) : Enhancer.preprocess f' input = some out := by
  obtain ⟨s1, s2, h1, h2, h3⟩ := (preprocess_eq_some_iff f input out).1 h
  exact (preprocess_eq_some_iff f' input out).2
    ⟨s1, s2, applyRules_mono _ f f' _ s1 hle h1, applyRules_mono _ f f' _ s2 hle h2, h3⟩

/-- The rule loop is the left-to-right monadic fold of the per-rule loop. -/
theorem applyRules_eq_foldlM (fuel : Nat) (rules : List (Str × Str)) :
    ∀ s : Str, Enhancer.applyRules fuel rules s =
      rules.foldlM (fun s r => Enhancer.replaceAll fuel r.1 r.2 s) s := by
  induction rules with
  | nil => intro s; rfl
  | cons r rest ih =>
    intro s
    rw [List.foldlM_cons]
    unfold Enhancer.applyRules
    cases Enhancer.replaceAll fuel r.1 r.2 s with
    | none => rfl
    | some s' => exact ih s'

/-! ## `std::map` tables hold the pairs of their initializer list -/

theorem mem_mapInsert (m : List (Str × Str)) (kv x : Str × Str) (h : x ∈ mapInsert m kv) :
    x ∈ m ∨ x = kv := by
  induction m with
  | nil =>
    simp only [mapInsert, List.mem_singleton] at h
    exact Or.inr h
  | cons e rest ih =>
    unfold mapInsert at h
    split_ifs at h
    · rcases List.mem_cons.1 h with h1 | h1
      · exact Or.inr h1
      · exact Or.inl h1
    · rcases List.mem_cons.1 h with h1 | h1
      · exact Or.inl (h1 ▸ List.mem_cons_self _ _)
      · rcases ih h1 with h2 | h2
        · exact Or.inl (List.mem_cons_of_mem _ h2)
        · exact Or.inr h2
    · exact Or.inl h

theorem mem_foldl_mapInsert (init : List (Str × Str)) :
    ∀ (m : List (Str × Str)) (x : Str × Str), x ∈ init.foldl mapInsert m → x ∈ m ∨ x ∈ init := by
  induction init with
  | nil => intro m x h; exact Or.inl h
  | cons kv rest ih =>
    intro m x h
    rw [List.foldl_cons] at h
    rcases ih _ x h with h1 | h1
    · rcases mem_mapInsert m kv x h1 with h2 | h2
      · exact Or.inl h2
      · exact Or.inr (h2 ▸ List.mem_cons_self _ _)
    · exact Or.inr (List.mem_cons_of_mem _ h1)

theorem mem_stdMap (init : List (Str × Str)) (x : Str × Str) (h : x ∈ stdMap init) :
    x ∈ init := by
  rcases mem_foldl_mapInsert init [] x h with h1 | h1
  · simp at h1
  · exact h1

/-! ## C11: the order of the synonym rules -/

/-- C11 (counterexample): on the input `mountain` the fold over the rules in the order
in which `loadSynonyms` lists them gives `पर्वत`, but `normalizeSynonyms` gives
`mountकृत्रिम बुद्धिमत्ताn` (the rule `ai` is applied before the rule `mountain`), and
with no amount of fuel does it give `पर्वत`. -/
theorem C11_listed_order_fails :
    Enhancer.applyRules 2 Enhancer.loadSynonyms (utf8 "mountain") = some (utf8 "पर्वत") ∧
    Enhancer.normalizeSynonyms 2 (utf8 "mountain") =
      some (utf8 "mountकृत्रिम बुद्धिमत्ताn") ∧
    (∀ fuel, Enhancer.normalizeSynonyms fuel (utf8 "mountain") ≠ some (utf8 "पर्वत")) := by
  have h2 : Enhancer.normalizeSynonyms 2 (utf8 "mountain") =
      some (utf8 "mountकृत्रिम बुद्धिमत्ताn") := by decide
  refine ⟨by decide, h2, fun fuel => ?_⟩
  rcases Nat.lt_or_ge fuel 2 with hlt | hge
  · interval_cases fuel <;> decide
  · rw [Enhancer.normalizeSynonyms, applyRules_mono _ 2 fuel _ _ hge h2]
    decide

/-- C11 (amended): `synonymMap` holds the rules of `loadSynonyms` with their patterns in
strictly ascending byte-wise order; `normalizeSynonyms` is the left-to-right fold of
replace-to-exhaustion over that sorted sequence, and when the loop of a rule ends its
pattern no longer occurs in the text. -/
theorem C11_sorted_rule_order :
    Enhancer.synonymMap.Perm Enhancer.loadSynonyms ∧
    (Enhancer.synonymMap.map Prod.fst).Pairwise (fun a b => strLt a b = true) ∧
    (∀ fuel text, Enhancer.normalizeSynonyms fuel text =
      Enhancer.synonymMap.foldlM (fun s r => Enhancer.replaceAll fuel r.1 r.2 s) text) ∧
    (∀ fuel pat rep s t, Enhancer.replaceAll fuel pat rep s = some t → ¬ pat <:+: t) := by
  refine ⟨by decide, by decide, fun fuel text => applyRules_eq_foldlM fuel _ text,
    fun fuel pat rep s t h => replaceAll_exhausts pat rep fuel s t h⟩

/-! ## C2: a row with an empty answer -/

/-- C2 (fails on the code): on `emptyAnswerStore` and `demoBrain` the input `xyz` is
normalised to `xyz`, no intercept fires, the FTS5 lookup yields a row whose answer is
empty (no answer to accept), the one stored record scores 0 and the topic is the
sentinel; but `searchDB` has no defined result there (the statement is finalized a
second time), and with no amount of fuel does `generateResponse` return the "not found"
message or anything else. -/
theorem C2_empty_answer_row_no_result :
    Enhancer.preprocess 1 (utf8 "xyz") = some (utf8 "xyz") ∧
    resolvedQuery demoBrain (utf8 "xyz") = utf8 "xyz" ∧
    HindiAI.intercept (some emptyAnswerStore) (demoBrain.detectEmotion (utf8 "xyz")) 7 2
      (utf8 "xyz") (utf8 "xyz") (demoBrain.detectEmotion (utf8 "xyz")).getEmotion = some none ∧
    emptyAnswerStore.indexed (utf8 "xyz") = some [] ∧
    (∀ rec ∈ emptyAnswerStore.records, HindiAI.scoreMatch (utf8 "xyz") rec.question = 0) ∧
    Intelligence.detectTopic (utf8 "xyz") = Intelligence.generalTopic ∧
    HindiAI.searchDB (some emptyAnswerStore) (utf8 "xyz") = none ∧
    (∀ fuel, HindiAI.generateResponse fuel (some emptyAnswerStore) demoBrain 7 2 (utf8 "xyz") =
      none) := by
  have hp : Enhancer.preprocess 1 (utf8 "xyz") = some (utf8 "xyz") := by decide
  have hi : HindiAI.intercept (some emptyAnswerStore) (demoBrain.detectEmotion (utf8 "xyz")) 7 2
      (utf8 "xyz") (resolvedQuery demoBrain (utf8 "xyz"))
      (demoBrain.detectEmotion (utf8 "xyz")).getEmotion = some none := by decide
  have hr : HindiAI.respond (some emptyAnswerStore) (demoBrain.detectEmotion (utf8 "xyz")) 7 2
      (utf8 "xyz") (resolvedQuery demoBrain (utf8 "xyz"))
      (demoBrain.detectEmotion (utf8 "xyz")).getEmotion
      (Intelligence.detectTopic (resolvedQuery demoBrain (utf8 "xyz"))) = none := by decide
  refine ⟨hp, by decide, by decide, by decide, by decide, by decide, by decide, fun fuel => ?_⟩
  cases fuel with
  | zero => rfl
  | succ n =>
    rw [generateResponse_of_preprocess (n + 1) _ _ _ _ _ _
      (preprocess_mono 1 (n + 1) _ _ (by omega) hp), hi]
    exact hr

/-! ## C12: the normalisation pipeline of `generateResponse` -/

theorem fuzzySimilarity_rajdhaani :
    Performer.fuzzySimilarity (utf8 "rajdhaani") (utf8 "rajdhani") = 8 / 9 := by
  have h1 : Performer.lev (utf8 "rajdhaani") (utf8 "rajdhani") = 1 := by decide
  have h2 : (utf8 "rajdhaani").length = 9 := by decide
  have h3 : (utf8 "rajdhani").length = 8 := by decide
  simp only [Performer.fuzzySimilarity, h1, h2, h3]
  norm_num

/-- C12 (counterexample): with the vocabulary `rajdhani`, the input `rajdhaani` is one
token of 9 bytes whose similarity to the vocabulary token is 8/9 > 0.80, and
`autoCorrect` maps it to `rajdhani`; yet `preprocess` returns `rajdhaani` itself, in
which `rajdhani` does not occur, and returns nothing else with any amount of fuel. -/
theorem C12_no_fuzzy_correction :
    words (utf8 "rajdhaani") = [utf8 "rajdhaani"] ∧
    3 ≤ (utf8 "rajdhaani").length ∧
    Performer.fuzzySimilarity (utf8 "rajdhaani") (utf8 "rajdhani") = 8 / 9 ∧
    (0.80 : ℚ) < 8 / 9 ∧
    Performer.autoCorrect [utf8 "rajdhani"] (utf8 "rajdhaani") = utf8 "rajdhani" ∧
    Enhancer.preprocess 1 (utf8 "rajdhaani") = some (utf8 "rajdhaani") ∧
    (∀ fuel, 1 ≤ fuel → Enhancer.preprocess fuel (utf8 "rajdhaani") = some (utf8 "rajdhaani")) ∧
    contains (utf8 "rajdhaani") (utf8 "rajdhani") = false := by
  have hp : Enhancer.preprocess 1 (utf8 "rajdhaani") = some (utf8 "rajdhaani") := by decide
  refine ⟨by decide, by decide, fuzzySimilarity_rajdhaani, by norm_num, ?_, hp,
    fun fuel h => preprocess_mono 1 fuel _ _ h hp, by decide⟩
  have h2 : (utf8 "rajdhaani").length = 9 := by decide
  simp only [Performer.autoCorrect, List.foldl_cons, List.foldl_nil, fuzzySimilarity_rajdhaani, h2]
  norm_num

/-- C12 (amended): `generateResponse` normalises the raw input with `preprocess`, and
`preprocess` is, in this order, case folding, the synonym pass, the abbreviation pass
and punctuation stripping, with nothing in between: it returns `out` exactly when the
synonym pass on the case-folded input returns some `s1`, the abbreviation pass on `s1`
returns some `s2`, and `out` is `s2` without its punctuation.  `generateResponse` does
not return when `preprocess` does not, and otherwise is the intercept stage followed
by the primary stage, both run on the output of `preprocess` after context
resolution. -/
theorem C12_pipeline_without_fuzzy :
    (∀ fuel input out, Enhancer.preprocess fuel input = some out ↔
      ∃ s1 s2, Enhancer.normalizeSynonyms fuel (Enhancer.toLower input) = some s1 ∧
        Enhancer.expandShortForms fuel s1 = some s2 ∧ out = Enhancer.removePunctuation s2) ∧
    (∀ fuel db brain r now input,
      Enhancer.preprocess fuel input = none →
        HindiAI.generateResponse fuel db brain r now input = none) ∧
    (∀ fuel db brain r now input p,
      Enhancer.preprocess fuel input = some p →
        HindiAI.generateResponse fuel db brain r now input =
          match HindiAI.intercept db (brain.detectEmotion p) r now input (resolvedQuery brain p)
              (brain.detectEmotion p).getEmotion with
          | none => none
          | some (some result) => some result
          | some none =>
            HindiAI.respond db (brain.detectEmotion p) r now input (resolvedQuery brain p)
              (brain.detectEmotion p).getEmotion
              (Intelligence.detectTopic (resolvedQuery brain p))) := by
  refine ⟨preprocess_eq_some_iff, ?_, ?_⟩
  · intro fuel db brain r now input h
    simp [HindiAI.generateResponse, h]
  · intro fuel db brain r now input p h
    exact generateResponse_of_preprocess fuel db brain r now input p h

/-- C12 (amended) on `demoStore` and `demoBrain`: the input `Rajdhaani?` is normalised
to `rajdhaani` and the call returns. -/
theorem C12_pipeline_without_fuzzy_witness :
    Enhancer.preprocess 1 (utf8 "Rajdhaani?") = some (utf8 "rajdhaani") ∧
    (HindiAI.generateResponse 1 (some demoStore) demoBrain 7 2 (utf8 "Rajdhaani?")).isSome = true :=
  have hp : Enhancer.preprocess 1 (utf8 "Rajdhaani?") = some (utf8 "rajdhaani") :=
    (C12_pipeline_without_fuzzy.1 1 (utf8 "Rajdhaani?") (utf8 "rajdhaani")).2
      ⟨utf8 "rajdhaani?", utf8 "rajdhaani?", by decide, by decide, by decide⟩
  ⟨hp, by rw [C12_pipeline_without_fuzzy.2.2 1 (some demoStore) demoBrain 7 2 _ _ hp]; rfl⟩

/-! ## C13: cascading across the two tables -/

/-- C13: the abbreviation pass runs on the output of the synonym pass, and on the input
`ipc` the synonym pass gives `आईपीसी`, the abbreviation pass turns that into
`भारतीय दंड संहिता`, and this is what `preprocess` returns (with fuel for two loop
steps or more). -/
theorem C13_cascade :
    (∀ fuel input s1, Enhancer.normalizeSynonyms fuel (Enhancer.toLower input) = some s1 →
      Enhancer.preprocess fuel input =
        (Enhancer.expandShortForms fuel s1).map Enhancer.removePunctuation) ∧
    (∀ fuel, 2 ≤ fuel →
      Enhancer.normalizeSynonyms fuel (Enhancer.toLower (utf8 "ipc")) = some (utf8 "आईपीसी") ∧
      Enhancer.expandShortForms fuel (utf8 "आईपीसी") = some (utf8 "भारतीय दंड संहिता") ∧
      Enhancer.preprocess fuel (utf8 "ipc") = some (utf8 "भारतीय दंड संहिता")) := by
  constructor
  · intro fuel input s1 h
    unfold Enhancer.preprocess
    rw [h]
    cases h2 : Enhancer.expandShortForms fuel s1 <;> simp [h2]
  · intro fuel hf
    exact ⟨applyRules_mono _ 2 fuel _ _ hf (by decide),
      applyRules_mono _ 2 fuel _ _ hf (by decide),
      preprocess_mono 2 fuel _ _ hf (by decide)⟩

/-- C13 with fuel 5: `ipc` is normalised to `भारतीय दंड संहिता`. -/
theorem C13_cascade_witness :
    Enhancer.preprocess 5 (utf8 "ipc") = some (utf8 "भारतीय दंड संहिता") :=
  (C13_cascade.2 5 (by decide)).2.2

/-! ## C14: case folding -/

theorem toLower_idem (text : Str) : Enhancer.toLower (Enhancer.toLower text) = Enhancer.toLower text := by
  unfold Enhancer.toLower
  rw [List.map_map]
  apply List.map_congr_left
  intro c _
  simp only [Function.comp, Enhancer.tolowerByte]
  split_ifs <;> first | rfl | omega

/-- C14: `tolower` adds 32 to each byte in `'A'..'Z'` and leaves every other byte as it
is, `toLower` applies it to each byte, `preprocess` gives the same result on an input
and on its case-folded form, and `PM ki jankari` is normalised to
`प्रधानमंत्री ki jankari`. -/
theorem C14_case_folding :
    (∀ c, 65 ≤ c → c ≤ 90 → Enhancer.tolowerByte c = c + 32) ∧
    (∀ c, (c < 65 ∨ 90 < c) → Enhancer.tolowerByte c = c) ∧
    (∀ (text : Str) (i : Nat),
      (Enhancer.toLower text)[i]? = (text[i]?).map Enhancer.tolowerByte) ∧
    (∀ fuel input, Enhancer.preprocess fuel input =
      Enhancer.preprocess fuel (Enhancer.toLower input)) ∧
    (∀ fuel, 2 ≤ fuel → Enhancer.preprocess fuel (utf8 "PM ki jankari") =
      some (utf8 "प्रधानमंत्री ki jankari")) := by
  refine ⟨?_, ?_, ?_, ?_, ?_⟩
  · intro c h1 h2
    simp [Enhancer.tolowerByte, h1, h2]
  · intro c h
    unfold Enhancer.tolowerByte
    split_ifs with h' <;> first | rfl | omega
  · intro text i
    simp [Enhancer.toLower]
  · intro fuel input
    unfold Enhancer.preprocess
    rw [toLower_idem]
  · intro fuel hf
    exact preprocess_mono 2 fuel _ _ hf (by decide)

/-- C14 on concrete data: `'P'` (80) becomes `'p'` (112), the byte 224 of a Devanagari
letter stays, and with fuel 4 `PM ki jankari` is normalised to `प्रधानमंत्री ki jankari`,
the same as its case-folded form `pm ki jankari`. -/
theorem C14_case_folding_witness :
    Enhancer.tolowerByte 80 = 112 ∧ Enhancer.tolowerByte 224 = 224 ∧
    Enhancer.preprocess 4 (utf8 "PM ki jankari") = some (utf8 "प्रधानमंत्री ki jankari") ∧
    Enhancer.preprocess 4 (utf8 "PM ki jankari") =
      Enhancer.preprocess 4 (Enhancer.toLower (utf8 "PM ki jankari")) :=
  ⟨C14_case_folding.1 80 (by decide) (by decide),
    C14_case_folding.2.1 224 (Or.inr (by decide)),
    C14_case_folding.2.2.2.2 4 (by decide),
    C14_case_folding.2.2.2.1 4 (utf8 "PM ki jankari")⟩

/-! ## C15: punctuation stripping -/

/-- C15 (counterexample): the tab (byte 9) is a whitespace character, so the bytes of
`a<TAB>b` that are alphanumeric, whitespace or non-ASCII are all three of them, but
`removePunctuation` returns `ab`: the tab is removed. -/
theorem C15_tab_removed :
    isSpace 9 = true ∧
    (utf8 "a\tb").filter (fun c => Enhancer.isalnum c || isSpace c || decide (128 ≤ c)) =
      utf8 "a\tb" ∧
    Enhancer.removePunctuation (utf8 "a\tb") = utf8 "ab" ∧
    Enhancer.removePunctuation (utf8 "a\nb") = utf8 "ab" ∧
    Enhancer.removePunctuation (utf8 "a b") = utf8 "a b" := by
  decide

/-- C15 (amended): `removePunctuation` returns, in their original order, the bytes that
are ASCII digits or letters, the space (byte 32) or non-ASCII (128 and above); every
other byte below 128 (punctuation, tab, newline and the other control characters) is
removed. -/
theorem C15_removePunctuation_keeps (text : Str) :
    Enhancer.removePunctuation text =
      text.filter (fun c => decide ((48 ≤ c ∧ c ≤ 57) ∨ (65 ≤ c ∧ c ≤ 90) ∨
        (97 ≤ c ∧ c ≤ 122) ∨ c = 32 ∨ 128 ≤ c)) ∧
    (Enhancer.removePunctuation text).Sublist text ∧
    (∀ c ∈ Enhancer.removePunctuation text,
      (48 ≤ c ∧ c ≤ 57) ∨ (65 ≤ c ∧ c ≤ 90) ∨ (97 ≤ c ∧ c ≤ 122) ∨ c = 32 ∨ 128 ≤ c) ∧
    (∀ c, c < 128 → c ≠ 32 → Enhancer.isalnum c = false → c ∉ Enhancer.removePunctuation text) := by
  have hpred : ∀ c : Nat, (Enhancer.isalnum c || decide (128 ≤ c) || c == 32) =
      decide ((48 ≤ c ∧ c ≤ 57) ∨ (65 ≤ c ∧ c ≤ 90) ∨ (97 ≤ c ∧ c ≤ 122) ∨ c = 32 ∨ 128 ≤ c) := by
    intro c
    rw [Bool.eq_iff_iff]
    simp only [Enhancer.isalnum, Bool.or_eq_true, Bool.and_eq_true, decide_eq_true_eq,
      beq_iff_eq]
    tauto
  have heq : Enhancer.removePunctuation text =
      text.filter (fun c => decide ((48 ≤ c ∧ c ≤ 57) ∨ (65 ≤ c ∧ c ≤ 90) ∨
        (97 ≤ c ∧ c ≤ 122) ∨ c = 32 ∨ 128 ≤ c)) := by
    unfold Enhancer.removePunctuation
    congr 1
    funext c
    exact hpred c
  refine ⟨heq, ?_, ?_, ?_⟩
  · rw [heq]; exact List.filter_sublist _
  · intro c hc
    rw [heq, List.mem_filter] at hc
    simpa using hc.2
  · intro c h1 h2 h3 hc
    unfold Enhancer.removePunctuation at hc
    rw [List.mem_filter] at hc
    have := hc.2
    simp only [h3, Bool.false_or, Bool.or_eq_true, decide_eq_true_eq, beq_iff_eq] at this
    omega

/-! ## C16: clean text is a fixed point -/

/-- C16: a string with no ASCII uppercase letter, with no pattern of a synonym rule or
of an abbreviation rule as a substring, and made of ASCII alphanumerics, spaces and
non-ASCII bytes only, is returned unchanged by `preprocess` (with fuel for one loop
step or more). -/
theorem C16_clean_text_fixed (s : Str) (fuel : Nat) (hf : 1 ≤ fuel)
    (hup : ∀ c ∈ s, ¬ (65 ≤ c ∧ c ≤ 90))
    (hsyn : ∀ r ∈ Enhancer.loadSynonyms, ¬ r.1 <:+: s)
    (habbr : ∀ r ∈ Enhancer.loadExpansions, ¬ r.1 <:+: s)
    (hclean : ∀ c ∈ s, Enhancer.isalnum c = true ∨ c = 32 ∨ 128 ≤ c) :
    Enhancer.preprocess fuel s = some s := by
  obtain ⟨n, rfl⟩ : ∃ n, fuel = n + 1 := ⟨fuel - 1, by omega⟩
  have hlow : Enhancer.toLower s = s := by
    unfold Enhancer.toLower
    conv_rhs => rw [← List.map_id s]
    apply List.map_congr_left
    intro c hc
    simp only [Enhancer.tolowerByte, id]
    rw [if_neg (hup c hc)]
  have h1 : noRuleMatches Enhancer.synonymMap s = true := by
    simp only [noRuleMatches, List.all_eq_true, Bool.not_eq_true']
    exact fun r hr => (contains_eq_false_iff _ _).2 (hsyn r (mem_stdMap _ _ hr))
  have h2 : noRuleMatches Enhancer.shortExpansions s = true := by
    simp only [noRuleMatches, List.all_eq_true, Bool.not_eq_true']
    exact fun r hr => (contains_eq_false_iff _ _).2 (habbr r (mem_stdMap _ _ hr))
  have h3 : Enhancer.removePunctuation s = s := by
    unfold Enhancer.removePunctuation
    rw [List.filter_eq_self]
    intro c hc
    rcases hclean c hc with h | h | h
    · simp [h]
    · simp [h]
    · simp [h]
  unfold Enhancer.preprocess Enhancer.normalizeSynonyms Enhancer.expandShortForms
  rw [hlow, applyRules_of_noRuleMatches n _ _ h1]
  simp only
  rw [applyRules_of_noRuleMatches n _ _ h2]
  simp only [h3]

/-- C16 on the clean string `गंगा नदी 2024 xyz`, with fuel 1. -/
theorem C16_clean_text_fixed_witness :
    Enhancer.preprocess 1 (utf8 "गंगा नदी 2024 xyz") = some (utf8 "गंगा नदी 2024 xyz") :=
  C16_clean_text_fixed (utf8 "गंगा नदी 2024 xyz") 1 (le_refl 1) (by decide)
    (fun r hr => (contains_eq_false_iff _ _).1
      ((by decide : ∀ r ∈ Enhancer.loadSynonyms,
        contains (utf8 "गंगा नदी 2024 xyz") r.1 = false) r hr))
    (fun r hr => (contains_eq_false_iff _ _).1
      ((by decide : ∀ r ∈ Enhancer.loadExpansions,
        contains (utf8 "गंगा नदी 2024 xyz") r.1 = false) r hr))
    (by decide)

/-! ## C17: reference resolution -/

theorem isEmpty_eq_false_of_ne_nil (s : Str) (h : s ≠ []) : s.isEmpty = false := by
  cases s with
  | nil => exact absurd rfl h
  | cons a l => rfl

theorem any_contains_iff (l : List Str) (q : Str) :
    (l.any fun p => contains q p) = true ↔ ∃ p ∈ l, p <:+: q := by
  simp only [List.any_eq_true, contains_iff]

/-- C17: `applyContext q` is `lastSubject ++ " की बात करें तो — " ++ q` when `q` contains
one of the 13 pronoun forms and `lastSubject` is non-empty; otherwise it is
`lastTopic ++ " " ++ q` when `q` contains one of the three follow-up cues and `lastTopic`
is non-empty; otherwise it is `q`.  (The function reads the state and returns the
text only: no member is assigned.) -/
theorem C17_applyContext_cases (self : Intelligence) (q : Str) :
    Intelligence.PRONOUNS.length = 13 ∧
    (((∃ p ∈ Intelligence.PRONOUNS, p <:+: q) ∧ self.lastSubject ≠ []) →
      self.applyContext q = self.lastSubject ++ utf8 " की बात करें तो — " ++ q) ∧
    (¬ ((∃ p ∈ Intelligence.PRONOUNS, p <:+: q) ∧ self.lastSubject ≠ []) →
      ((utf8 "और बताओ" <:+: q ∨ utf8 "आगे बताओ" <:+: q ∨ utf8 "विस्तार" <:+: q) ∧
        self.lastTopic ≠ []) →
      self.applyContext q = self.lastTopic ++ utf8 " " ++ q) ∧
    (¬ ((∃ p ∈ Intelligence.PRONOUNS, p <:+: q) ∧ self.lastSubject ≠ []) →
      ¬ ((utf8 "और बताओ" <:+: q ∨ utf8 "आगे बताओ" <:+: q ∨ utf8 "विस्तार" <:+: q) ∧
        self.lastTopic ≠ []) →
      self.applyContext q = q) := by
  have hA : ((Intelligence.PRONOUNS.any fun p => contains q p) && !self.lastSubject.isEmpty) = true ↔
      ((∃ p ∈ Intelligence.PRONOUNS, p <:+: q) ∧ self.lastSubject ≠ []) := by
    rw [Bool.and_eq_true, any_contains_iff]
    simp
  have hB : ((contains q (utf8 "और बताओ") || contains q (utf8 "आगे बताओ") ||
      contains q (utf8 "विस्तार")) && !self.lastTopic.isEmpty) = true ↔
      ((utf8 "और बताओ" <:+: q ∨ utf8 "आगे बताओ" <:+: q ∨ utf8 "विस्तार" <:+: q) ∧
        self.lastTopic ≠ []) := by
    rw [Bool.and_eq_true, Bool.or_eq_true, Bool.or_eq_true, contains_iff, contains_iff,
      contains_iff]
    simp [or_assoc]
  refine ⟨by decide, ?_, ?_, ?_⟩
  · intro h
    unfold Intelligence.applyContext
    simp only
    rw [if_pos (hA.2 h)]
  · intro h1 h2
    unfold Intelligence.applyContext
    simp only
    rw [if_neg (fun h => h1 (hA.1 h)), if_pos (hB.2 h2)]
  · intro h1 h2
    unfold Intelligence.applyContext
    simp only
    rw [if_neg (fun h => h1 (hA.1 h)), if_neg (fun h => h2 (hB.1 h))]

/-- C17 on `demoBrain` (subject `नरेंद्र मोदी`, topic `राजनीति`): a query with the pronoun
`उनकी` gets the subject in front, the query `और बताओ` gets the topic in front, and the
query `xyz` is returned as it is. -/
theorem C17_applyContext_cases_witness :
    demoBrain.applyContext (utf8 "उनकी उम्र क्या है") =
      demoBrain.lastSubject ++ utf8 " की बात करें तो — " ++ utf8 "उनकी उम्र क्या है" ∧
    demoBrain.applyContext (utf8 "और बताओ") = demoBrain.lastTopic ++ utf8 " " ++ utf8 "और बताओ" ∧
    demoBrain.applyContext (utf8 "xyz") = utf8 "xyz" :=
  ⟨(C17_applyContext_cases demoBrain (utf8 "उनकी उम्र क्या है")).2.1
      ⟨⟨utf8 "उनकी", by decide, (contains_iff _ _).1 (by decide)⟩, by decide⟩,
    (C17_applyContext_cases demoBrain (utf8 "और बताओ")).2.2.1
      (fun h => by
        obtain ⟨⟨p, hp, hc⟩, _⟩ := h
        have hall : ∀ p ∈ Intelligence.PRONOUNS, contains (utf8 "और बताओ") p = false := by decide
        have := (contains_eq_false_iff _ _).1 (hall p hp)
        exact this hc)
      ⟨Or.inl (List.infix_refl _), by decide⟩,
    (C17_applyContext_cases demoBrain (utf8 "xyz")).2.2.2
      (fun h => by
        obtain ⟨⟨p, hp, hc⟩, _⟩ := h
        have hall : ∀ p ∈ Intelligence.PRONOUNS, contains (utf8 "xyz") p = false := by decide
        exact (contains_eq_false_iff _ _).1 (hall p hp) hc)
      (fun h => by
        have h1 : contains (utf8 "xyz") (utf8 "और बताओ") = false := by decide
        have h2 : contains (utf8 "xyz") (utf8 "आगे बताओ") = false := by decide
        have h3 : contains (utf8 "xyz") (utf8 "विस्तार") = false := by decide
        rcases h.1 with hc | hc | hc
        · exact (contains_eq_false_iff _ _).1 h1 hc
        · exact (contains_eq_false_iff _ _).1 h2 hc
        · exact (contains_eq_false_iff _ _).1 h3 hc)⟩

/-! ## Entity extraction and the context update -/

/-- Every token produced by `ss >> word` is non-empty. -/
theorem wordsAux_ne_nil (s : Str) :
    ∀ cur : Str, ∀ w ∈ wordsAux s cur, w ≠ [] := by
  induction s with
  | nil =>
    intro cur w hw
    unfold wordsAux at hw
    cases cur with
    | nil => simp at hw
    | cons a l =>
      simp only [List.isEmpty_cons, Bool.false_eq_true, if_false, List.mem_singleton] at hw
      rw [hw]; exact List.cons_ne_nil _ _
  | cons c t ih =>
    intro cur w hw
    unfold wordsAux at hw
    split_ifs at hw with h1 h2
    · exact ih [] w hw
    · rcases List.mem_cons.1 hw with h | h
      · rw [h]
        intro hc
        rw [hc] at h2
        exact h2 rfl
      · exact ih [] w h
    · exact ih _ w hw

theorem words_ne_nil (s : Str) : ∀ w ∈ words s, w ≠ [] :=
  wordsAux_ne_nil s []

/-- When a known entity occurs in the input, the first such entry of the list is the
extracted entity. -/
theorem extractNamedEntity_of_first (input P : Str) (pre post : List Str)
    (hlist : Intelligence.KNOWN_PERSONS = pre ++ P :: post)
    (hP : P <:+: input) (hpre : ∀ x ∈ pre, ¬ x <:+: input) :
    Intelligence.extractNamedEntity input = P := by
  have hfind : Intelligence.KNOWN_PERSONS.find? (fun person => contains input person) = some P := by
    rw [hlist, List.find?_append]
    have h1 : pre.find? (fun person => contains input person) = none := by
      rw [List.find?_eq_none]
      intro x hx
      simpa using (contains_eq_false_iff input x).2 (hpre x hx)
    rw [h1]
    simp [List.find?_cons, (contains_iff input P).2 hP]
  unfold Intelligence.extractNamedEntity
  rw [hfind]

/-- When no known entity occurs in the input, the extracted entity is made of the first
up-to-three tokens, joined by single spaces. -/
theorem extractNamedEntity_of_none (input : Str)
    (hno : ∀ x ∈ Intelligence.KNOWN_PERSONS, ¬ x <:+: input) :
    Intelligence.extractNamedEntity input = (utf8 " ").intercalate ((words input).take 3) := by
  have hfind : Intelligence.KNOWN_PERSONS.find? (fun person => contains input person) = none := by
    rw [List.find?_eq_none]
    intro x hx
    simpa using (contains_eq_false_iff input x).2 (hno x hx)
  have hne := words_ne_nil input
  unfold Intelligence.extractNamedEntity
  rw [hfind]
  simp only
  rcases hw : words input with _ | ⟨w1, _ | ⟨w2, _ | ⟨w3, rest⟩⟩⟩
  · rfl
  · rw [hw] at hne
    have h1 := isEmpty_eq_false_of_ne_nil w1 (hne w1 (by simp))
    simp [h1, List.intercalate]
  · rw [hw] at hne
    have h1 := isEmpty_eq_false_of_ne_nil w1 (hne w1 (by simp))
    have h2 := isEmpty_eq_false_of_ne_nil w2 (hne w2 (by simp))
    simp [h1, h2, List.intercalate]
  · rw [hw] at hne
    have h1 := isEmpty_eq_false_of_ne_nil w1 (hne w1 (by simp))
    have h2 := isEmpty_eq_false_of_ne_nil w2 (hne w2 (by simp))
    have h3 := isEmpty_eq_false_of_ne_nil w3 (hne w3 (by simp))
    simp [h1, h2, h3, List.intercalate]

theorem known_persons_ne_nil : ∀ x ∈ Intelligence.KNOWN_PERSONS, x ≠ [] := by
  decide

/-! ## C18: two-turn pronoun resolution -/

/-- Two-turn resolution for the listed forms: when `P` is the first entry of
`KNOWN_PERSONS` that occurs in the first input and the second query `q` contains one of
the pronoun forms of `PRONOUNS` (which hold the third-person possessive forms `उसकी`,
`उसका`, `उसके`, `उनकी`, `उनका`, `उनके`, `इनकी`, `इनका`, `इसकी`, `इसका`), then after
`updateContext firstInput response`, from any state, `applyContext q` is
`P ++ " की बात करें तो — " ++ q`: it starts with `P` and ends with `q`. -/
theorem applyContext_after_update_of_listed_form (st : Intelligence) (now : Int)
    (firstInput response q P p : Str) (pre post : List Str)
    (hlist : Intelligence.KNOWN_PERSONS = pre ++ P :: post)
    (hP : P <:+: firstInput) (hpre : ∀ x ∈ pre, ¬ x <:+: firstInput)
    (hp : p ∈ Intelligence.PRONOUNS) (hq : p <:+: q) :
    (st.updateContext now firstInput response).applyContext q =
      P ++ utf8 " की बात करें तो — " ++ q ∧
    P <+: (st.updateContext now firstInput response).applyContext q ∧
    q <:+ (st.updateContext now firstInput response).applyContext q := by
  have hent := extractNamedEntity_of_first firstInput P pre post hlist hP hpre
  have hPne : P ≠ [] := known_persons_ne_nil P (by rw [hlist]; simp)
  have hsub : (st.updateContext now firstInput response).lastSubject = P := by
    simp [Intelligence.updateContext, hent, isEmpty_eq_false_of_ne_nil P hPne]
  have hany : (Intelligence.PRONOUNS.any fun p => contains q p) = true :=
    (any_contains_iff _ _).2 ⟨p, hp, hq⟩
  have heq : (st.updateContext now firstInput response).applyContext q =
      P ++ utf8 " की बात करें तो — " ++ q := by
    unfold Intelligence.applyContext
    simp only [hsub, hany, isEmpty_eq_false_of_ne_nil P hPne]
    rfl
  refine ⟨heq, ?_, ?_⟩
  · rw [heq, List.append_assoc]; exact List.prefix_append _ _
  · rw [heq]; exact List.suffix_append _ _

/-- From the fresh state: the first input `भगत सिंह और राहुल गांधी कौन थे` holds two
known entities, of which `राहुल गांधी` comes first in the list; the second query
`उनकी उम्र क्या है` is resolved to `राहुल गांधी की बात करें तो — उनकी उम्र क्या है`. -/
theorem applyContext_after_update_of_listed_form_example :
    (Intelligence.init.updateContext 1 (utf8 "भगत सिंह और राहुल गांधी कौन थे")
        (utf8 "उत्तर")).applyContext (utf8 "उनकी उम्र क्या है") =
      utf8 "राहुल गांधी की बात करें तो — उनकी उम्र क्या है" :=
  (applyContext_after_update_of_listed_form Intelligence.init 1 (utf8 "भगत सिंह और राहुल गांधी कौन थे")
    (utf8 "उत्तर") (utf8 "उनकी उम्र क्या है") (utf8 "राहुल गांधी") (utf8 "उनकी")
    (Intelligence.KNOWN_PERSONS.take 1) (Intelligence.KNOWN_PERSONS.drop 2)
    (by decide) ((contains_iff _ _).1 (by decide))
    (fun x hx => (contains_eq_false_iff _ _).1
      ((by decide : ∀ x ∈ Intelligence.KNOWN_PERSONS.take 1,
        contains (utf8 "भगत सिंह और राहुल गांधी कौन थे") x = false) x hx))
    (by decide) ((contains_iff _ _).1 (by decide))).1.trans (by decide)

/-- The forms `इनके` and `इसके` are not in `PRONOUNS`: with the subject `नरेंद्र मोदी`
established, the query `इनके पिता कौन हैं` is returned as it is. -/
theorem applyContext_form_outside_list :
    utf8 "इनके" ∉ Intelligence.PRONOUNS ∧ utf8 "इसके" ∉ Intelligence.PRONOUNS ∧
    demoBrain.lastSubject = utf8 "नरेंद्र मोदी" ∧
    demoBrain.applyContext (utf8 "इनके पिता कौन हैं") = utf8 "इनके पिता कौन हैं" := by
  decide

/-- A query that holds no form of `PRONOUNS` and no follow-up cue is returned as it is,
whatever the state. -/
theorem applyContext_of_no_form (st : Intelligence) (q : Str)
    (hpro : (Intelligence.PRONOUNS.any fun p => contains q p) = false)
    (hcue : (contains q (utf8 "और बताओ") || contains q (utf8 "आगे बताओ") ||
      contains q (utf8 "विस्तार")) = false) :
    st.applyContext q = q := by
  unfold Intelligence.applyContext
  simp only
  rw [hpro, hcue]
  simp

/-- C18 (fails on the code): the first input `नरेंद्र मोदी कौन हैं` holds the known entity
`नरेंद्र मोदी`, and the second query `इनके पिता कौन हैं` holds the third-person possessive
form `इनके` (of the same pronoun as the listed `इनकी` and `इनका`, and with the same
ending as the listed `उसके` and `उनके`); after `updateContext` with the first input,
from any state, the subject is `नरेंद्र मोदी`, but `applyContext` returns the second
query as it is, which does not start with `नरेंद्र मोदी`.  The same holds for the form
`इसके`. -/
theorem C18_unlisted_possessive_form :
    Intelligence.extractNamedEntity (utf8 "नरेंद्र मोदी कौन हैं") = utf8 "नरेंद्र मोदी" ∧
    Intelligence.KNOWN_PERSONS.head? = some (utf8 "नरेंद्र मोदी") ∧
    contains (utf8 "इनके पिता कौन हैं") (utf8 "इनके") = true ∧
    utf8 "इनके" ∉ Intelligence.PRONOUNS ∧ utf8 "इसके" ∉ Intelligence.PRONOUNS ∧
    utf8 "इनकी" ∈ Intelligence.PRONOUNS ∧ utf8 "इनका" ∈ Intelligence.PRONOUNS ∧
    utf8 "उसके" ∈ Intelligence.PRONOUNS ∧ utf8 "उनके" ∈ Intelligence.PRONOUNS ∧
    (∀ (st : Intelligence) (now : Int) (response : Str),
      (st.updateContext now (utf8 "नरेंद्र मोदी कौन हैं") response).lastSubject =
        utf8 "नरेंद्र मोदी" ∧
      (st.updateContext now (utf8 "नरेंद्र मोदी कौन हैं") response).applyContext
        (utf8 "इनके पिता कौन हैं") = utf8 "इनके पिता कौन हैं" ∧
      (st.updateContext now (utf8 "नरेंद्र मोदी कौन हैं") response).applyContext
        (utf8 "इसके पिता कौन हैं") = utf8 "इसके पिता कौन हैं") ∧
    ¬ (utf8 "नरेंद्र मोदी" <+: utf8 "इनके पिता कौन हैं") ∧
    ¬ (utf8 "नरेंद्र मोदी" <+: utf8 "इसके पिता कौन हैं") := by
  have hent : Intelligence.extractNamedEntity (utf8 "नरेंद्र मोदी कौन हैं") = utf8 "नरेंद्र मोदी" := by
    decide
  refine ⟨hent, by decide, by decide, by decide, by decide, by decide, by decide, by decide,
    by decide, fun st now response => ⟨?_, ?_, ?_⟩, by decide, by decide⟩
  · have hne : (utf8 "नरेंद्र मोदी").isEmpty = false := by decide
    simp [Intelligence.updateContext, hent, hne]
  · exact applyContext_of_no_form _ _ (by decide) (by decide)
  · exact applyContext_of_no_form _ _ (by decide) (by decide)

/-! ## C19: the postcondition of `updateContext` -/

/-- C19: after `updateContext input response`, `lastTopic` is `detectTopic input`,
`lastSubject` is `extractNamedEntity input` when that is non-empty and its previous
value otherwise, `currentEmotion` is unchanged, and the last turn of the history is the
new one: it records the input, the response, the new topic and the new subject. -/
theorem C19_updateContext_post (st : Intelligence) (now : Int) (input response : Str) :
    (st.updateContext now input response).lastTopic = Intelligence.detectTopic input ∧
    (Intelligence.extractNamedEntity input ≠ [] →
      (st.updateContext now input response).lastSubject = Intelligence.extractNamedEntity input) ∧
    (Intelligence.extractNamedEntity input = [] →
      (st.updateContext now input response).lastSubject = st.lastSubject) ∧
    (st.updateContext now input response).currentEmotion = st.currentEmotion ∧
    (st.updateContext now input response).history.getLast? =
      some { userInput := input, aiResponse := response,
             topic := (st.updateContext now input response).lastTopic,
             subject := (st.updateContext now input response).lastSubject,
             timestamp := now } := by
  refine ⟨rfl, ?_, ?_, rfl, ?_⟩
  · intro h
    simp [Intelligence.updateContext, isEmpty_eq_false_of_ne_nil _ h]
  · intro h
    simp [Intelligence.updateContext, h]
  · rw [updateContext_history]
    have hturn : turnOf st (input, response, now) =
        { userInput := input, aiResponse := response,
          topic := (st.updateContext now input response).lastTopic,
          subject := (st.updateContext now input response).lastSubject,
          timestamp := now } := rfl
    rw [← hturn]
    split
    · rename_i hlen
      rw [List.length_append, List.length_singleton] at hlen
      cases hh : st.history with
      | nil => rw [hh] at hlen; simp at hlen
      | cons a l => simp
    · simp

/-- C19 on `demoBrain` (subject `नरेंद्र मोदी`, topic `राजनीति`): an input with a token but
without a known entity sets the topic and the subject anew, an input without any token
keeps the subject, and the topic is overwritten in both cases. -/
theorem C19_updateContext_post_witness :
    (demoBrain.updateContext 5 (utf8 "गंगा नदी कहाँ है") (utf8 "उत्तर")).lastSubject =
      utf8 "गंगा नदी कहाँ" ∧
    (demoBrain.updateContext 5 (utf8 "  ") (utf8 "उत्तर")).lastSubject = utf8 "नरेंद्र मोदी" ∧
    (demoBrain.updateContext 5 (utf8 "  ") (utf8 "उत्तर")).lastTopic = utf8 "सामान्य" :=
  ⟨((C19_updateContext_post demoBrain 5 (utf8 "गंगा नदी कहाँ है") (utf8 "उत्तर")).2.1
      (by decide)).trans (by decide),
    ((C19_updateContext_post demoBrain 5 (utf8 "  ") (utf8 "उत्तर")).2.2.1
      (by decide)).trans (by decide),
    ((C19_updateContext_post demoBrain 5 (utf8 "  ") (utf8 "उत्तर")).1).trans (by decide)⟩

/-! ## C20: entity extraction -/

/-- C20: `extractNamedEntity` returns the first entry of `KNOWN_PERSONS`, in list order,
that occurs in the input; when no entry occurs it returns the first up-to-three
whitespace-separated tokens joined by single spaces; and it returns the empty string
exactly when no entry occurs and the input has no token. -/
theorem C20_extractNamedEntity (input : Str) :
    (∀ (P : Str) (pre post : List Str), Intelligence.KNOWN_PERSONS = pre ++ P :: post →
      P <:+: input → (∀ x ∈ pre, ¬ x <:+: input) →
      Intelligence.extractNamedEntity input = P) ∧
    ((∀ x ∈ Intelligence.KNOWN_PERSONS, ¬ x <:+: input) →
      Intelligence.extractNamedEntity input =
        (utf8 " ").intercalate ((words input).take 3)) ∧
    (Intelligence.extractNamedEntity input = [] ↔
      (∀ x ∈ Intelligence.KNOWN_PERSONS, ¬ x <:+: input) ∧ words input = []) := by
  refine ⟨fun P pre post h1 h2 h3 => extractNamedEntity_of_first input P pre post h1 h2 h3,
    extractNamedEntity_of_none input, ?_⟩
  constructor
  · intro hempty
    by_cases hno : ∀ x ∈ Intelligence.KNOWN_PERSONS, ¬ x <:+: input
    · refine ⟨hno, ?_⟩
      rw [extractNamedEntity_of_none input hno] at hempty
      have hne := words_ne_nil input
      rcases hw : words input with _ | ⟨w1, rest⟩
      · rfl
      · exfalso
        rw [hw] at hne hempty
        have h1 : w1 ≠ [] := hne w1 (by simp)
        cases rest with
        | nil => simp [List.intercalate] at hempty; exact h1 hempty
        | cons w2 rest2 =>
          cases rest2 with
          | nil => simp [List.intercalate] at hempty; exact h1 hempty.1
          | cons w3 rest3 => simp [List.intercalate] at hempty; exact h1 hempty.1
    · exfalso
      have hfind : (Intelligence.KNOWN_PERSONS.find?
          (fun person => contains input person)).isSome = true := by
        rw [List.find?_isSome]
        push_neg at hno
        obtain ⟨x, hx, hxi⟩ := hno
        exact ⟨x, hx, (contains_iff input x).2 hxi⟩
      obtain ⟨P, hP⟩ := Option.isSome_iff_exists.1 hfind
      have hmem := List.mem_of_find?_eq_some hP
      unfold Intelligence.extractNamedEntity at hempty
      rw [hP] at hempty
      exact known_persons_ne_nil P hmem hempty
  · rintro ⟨hno, hw⟩
    rw [extractNamedEntity_of_none input hno, hw]
    rfl

/-- C20 on three inputs: the list order decides (`राहुल गांधी` before `भगत सिंह`), the
fallback joins the first three tokens, and blanks alone give the empty string. -/
theorem C20_extractNamedEntity_witness :
    Intelligence.extractNamedEntity (utf8 "भगत सिंह और राहुल गांधी कौन थे") = utf8 "राहुल गांधी" ∧
    Intelligence.extractNamedEntity (utf8 "  गंगा \t नदी कहाँ  है") = utf8 "गंगा नदी कहाँ" ∧
    Intelligence.extractNamedEntity (utf8 "  ") = [] :=
  ⟨(C20_extractNamedEntity (utf8 "भगत सिंह और राहुल गांधी कौन थे")).1 (utf8 "राहुल गांधी")
      (Intelligence.KNOWN_PERSONS.take 1) (Intelligence.KNOWN_PERSONS.drop 2)
      (by decide) ((contains_iff _ _).1 (by decide))
      (fun x hx => (contains_eq_false_iff _ _).1
        ((by decide : ∀ x ∈ Intelligence.KNOWN_PERSONS.take 1,
          contains (utf8 "भगत सिंह और राहुल गांधी कौन थे") x = false) x hx)),
    ((C20_extractNamedEntity (utf8 "  गंगा \t नदी कहाँ  है")).2.1
      (fun x hx => (contains_eq_false_iff _ _).1
        ((by decide : ∀ x ∈ Intelligence.KNOWN_PERSONS,
          contains (utf8 "  गंगा \t नदी कहाँ  है") x = false) x hx))).trans (by decide),
    (C20_extractNamedEntity (utf8 "  ")).2.2.2
      ⟨fun x hx => (contains_eq_false_iff _ _).1
        ((by decide : ∀ x ∈ Intelligence.KNOWN_PERSONS,
          contains (utf8 "  ") x = false) x hx), by decide⟩⟩

/-! ## Folds that keep the first maximum -/

/-- Elements that do not beat the current best leave it as it is. -/
theorem foldBest_keeps {α β κ : Type} [LinearOrder κ] (f : α → κ) (g : α → β) (l : List α) :
    ∀ best : κ × β, (∀ x ∈ l, f x ≤ best.1) →
      l.foldl (fun (best : κ × β) x => if f x > best.1 then (f x, g x) else best) best = best := by
  induction l with
  | nil => intro best _; rfl
  | cons a l ih =>
    intro best h
    rw [List.foldl_cons, if_neg (not_lt.2 (h a (List.mem_cons_self _ _)))]
    exact ih best (fun x hx => h x (List.mem_cons_of_mem _ hx))

/-- Elements below `k` keep the best value below `k`. -/
theorem foldBest_below {α β κ : Type} [LinearOrder κ] (f : α → κ) (g : α → β) (k : κ)
    (l : List α) :
    ∀ best : κ × β, best.1 < k → (∀ x ∈ l, f x < k) →
      (l.foldl (fun (best : κ × β) x => if f x > best.1 then (f x, g x) else best) best).1 < k := by
  induction l with
  | nil => intro best hb _; exact hb
  | cons a l ih =>
    intro best hb h
    rw [List.foldl_cons]
    apply ih
    · split
      · exact h a (List.mem_cons_self _ _)
      · exact hb
    · exact fun x hx => h x (List.mem_cons_of_mem _ hx)

/-- The fold ends at the first element that attains the maximum, when that beats the
starting value. -/
theorem foldBest_first {α β κ : Type} [LinearOrder κ] (f : α → κ) (g : α → β)
    (pre post : List α) (x : α) (best : κ × β) (hx : best.1 < f x)
    (hpre : ∀ u ∈ pre, f u < f x) (hpost : ∀ u ∈ post, f u ≤ f x) :
    (pre ++ x :: post).foldl
      (fun (best : κ × β) x => if f x > best.1 then (f x, g x) else best) best = (f x, g x) := by
  rw [List.foldl_append, List.foldl_cons]
  have hlt := foldBest_below f g (f x) pre best hx hpre
  rw [if_pos hlt]
  exact foldBest_keeps f g post _ hpost

/-- The fold ends either with its starting pair or with the pair of an element that
beats the starting value. -/
theorem foldBest_result {α β κ : Type} [LinearOrder κ] (f : α → κ) (g : α → β) (l : List α) :
    ∀ best : κ × β,
      l.foldl (fun (best : κ × β) x => if f x > best.1 then (f x, g x) else best) best = best ∨
      ∃ x ∈ l, best.1 < f x ∧
        l.foldl (fun (best : κ × β) x => if f x > best.1 then (f x, g x) else best) best =
          (f x, g x) := by
  induction l with
  | nil => intro best; exact Or.inl rfl
  | cons a l ih =>
    intro best
    rw [List.foldl_cons]
    by_cases ha : f a > best.1
    · rw [if_pos ha]
      rcases ih (f a, g a) with h | ⟨x, hx, hlt, h⟩
      · exact Or.inr ⟨a, List.mem_cons_self _ _, ha, h⟩
      · exact Or.inr ⟨x, List.mem_cons_of_mem _ hx, lt_trans ha hlt, h⟩
    · rw [if_neg ha]
      rcases ih best with h | ⟨x, hx, hlt, h⟩
      · exact Or.inl h
      · exact Or.inr ⟨x, List.mem_cons_of_mem _ hx, hlt, h⟩

/-- A list with an element above `k` splits at the first element of maximal value. -/
theorem exists_first_maximum {α κ : Type} [LinearOrder κ] (f : α → κ) (k : κ) (l : List α) :
    (∃ x ∈ l, k < f x) →
      ∃ pre x post, l = pre ++ x :: post ∧ k < f x ∧
        (∀ u ∈ pre, f u < f x) ∧ (∀ u ∈ post, f u ≤ f x) := by
  induction l with
  | nil => rintro ⟨x, hx, _⟩; simp at hx
  | cons a l ih =>
    intro hex
    by_cases hl : ∃ x ∈ l, f a < f x
    · obtain ⟨x0, hx0, hlt0⟩ := hl
      have hk : ∃ x ∈ l, k < f x := by
        obtain ⟨y, hy, hky⟩ := hex
        rcases List.mem_cons.1 hy with rfl | hm
        · exact ⟨x0, hx0, lt_trans hky hlt0⟩
        · exact ⟨y, hm, hky⟩
      obtain ⟨pre, x, post, heq, hpos, hpre, hpost⟩ := ih hk
      refine ⟨a :: pre, x, post, by rw [heq]; rfl, hpos, ?_, hpost⟩
      intro u hu
      rcases List.mem_cons.1 hu with rfl | hm
      · have hx0' : x0 ∈ pre ++ x :: post := heq ▸ hx0
        rcases List.mem_append.1 hx0' with h1 | h1
        · exact lt_trans hlt0 (hpre x0 h1)
        · rcases List.mem_cons.1 h1 with rfl | h2
          · exact hlt0
          · exact lt_of_lt_of_le hlt0 (hpost x0 h2)
      · exact hpre u hm
    · have hle : ∀ x ∈ l, f x ≤ f a := by
        intro x hx
        by_contra hc
        exact hl ⟨x, hx, not_le.1 hc⟩
      refine ⟨[], a, l, rfl, ?_, by simp, hle⟩
      obtain ⟨y, hy, hky⟩ := hex
      rcases List.mem_cons.1 hy with rfl | hm
      · exact hky
      · exact lt_of_lt_of_le hky (hle y hm)

/-! ## C21: topic detection -/

/-- The keyword loop of `detectTopic` counts the keywords that occur in the input. -/
theorem keywordScore_eq_countP (input keywords : Str) :
    Intelligence.keywordScore input keywords =
      (words keywords).countP (fun kw => decide (kw <:+: input)) := by
  unfold Intelligence.keywordScore
  have h : ∀ (l : List Str) (acc : Nat),
      l.foldl (fun score kw => if contains input kw then score + 1 else score) acc =
        acc + l.countP (fun kw => decide (kw <:+: input)) := by
    intro l
    induction l with
    | nil => intro acc; simp
    | cons w l ih =>
      intro acc
      rw [List.foldl_cons, ih, List.countP_cons]
      by_cases hw : w <:+: input
      · simp [hw, (contains_iff input w).2 hw]; omega
      · simp [hw, (contains_eq_false_iff input w).2 hw]
  rw [h]
  omega

theorem detectTopic_eq_foldl (input : Str) :
    Intelligence.detectTopic input =
      (Intelligence.topicKeywords.foldl
        (fun (best : Nat × Str) tk =>
          if Intelligence.keywordScore input tk.2 > best.1
          then (Intelligence.keywordScore input tk.2, tk.1) else best)
        (0, Intelligence.generalTopic)).2 := rfl

/-- C21: `detectTopic` returns the sentinel `सामान्य` exactly when no keyword of any
topic occurs in the text; otherwise it returns the first topic, in the iteration order
of the table, whose count of occurring keywords is the maximum over all topics: that
count is strictly greater than the count of every earlier topic. -/
theorem C21_detectTopic (text : Str) :
    (∀ keywords, Intelligence.keywordScore text keywords =
      (words keywords).countP (fun kw => decide (kw <:+: text))) ∧
    (Intelligence.detectTopic text = Intelligence.generalTopic ↔
      ∀ tk ∈ Intelligence.topicKeywords, ∀ kw ∈ words tk.2, ¬ kw <:+: text) ∧
    ((∃ tk ∈ Intelligence.topicKeywords, ∃ kw ∈ words tk.2, kw <:+: text) →
      ∃ pre tk post, Intelligence.topicKeywords = pre ++ tk :: post ∧
        Intelligence.detectTopic text = tk.1 ∧
        0 < Intelligence.keywordScore text tk.2 ∧
        (∀ t' ∈ Intelligence.topicKeywords,
          Intelligence.keywordScore text t'.2 ≤ Intelligence.keywordScore text tk.2) ∧
        (∀ t' ∈ pre, Intelligence.keywordScore text t'.2 < Intelligence.keywordScore text tk.2)) := by
  have hpos : ∀ tk : Str × Str, 0 < Intelligence.keywordScore text tk.2 ↔
      ∃ kw ∈ words tk.2, kw <:+: text := by
    intro tk
    rw [keywordScore_eq_countP, List.countP_pos_iff]
    simp
  have hkeys : ∀ tk ∈ Intelligence.topicKeywords, tk.1 ≠ Intelligence.generalTopic := by decide
  have hsome : (∃ tk ∈ Intelligence.topicKeywords, ∃ kw ∈ words tk.2, kw <:+: text) →
      ∃ pre tk post, Intelligence.topicKeywords = pre ++ tk :: post ∧
        Intelligence.detectTopic text = tk.1 ∧
        0 < Intelligence.keywordScore text tk.2 ∧
        (∀ t' ∈ Intelligence.topicKeywords,
          Intelligence.keywordScore text t'.2 ≤ Intelligence.keywordScore text tk.2) ∧
        (∀ t' ∈ pre, Intelligence.keywordScore text t'.2 < Intelligence.keywordScore text tk.2) := by
    rintro ⟨tk0, htk0, hkw⟩
    obtain ⟨pre, tk, post, heq, hgt, hpre, hpost⟩ :=
      exists_first_maximum (fun tk : Str × Str => Intelligence.keywordScore text tk.2) 0
        Intelligence.topicKeywords ⟨tk0, htk0, (hpos tk0).2 hkw⟩
    refine ⟨pre, tk, post, heq, ?_, hgt, ?_, hpre⟩
    · rw [detectTopic_eq_foldl, heq,
        foldBest_first (fun tk : Str × Str => Intelligence.keywordScore text tk.2)
          (fun tk => tk.1) pre post tk (0, Intelligence.generalTopic) hgt hpre hpost]
    · intro t' ht'
      rw [heq] at ht'
      rcases List.mem_append.1 ht' with h | h
      · exact (hpre t' h).le
      · rcases List.mem_cons.1 h with rfl | h2
        · exact le_rfl
        · exact hpost t' h2
  refine ⟨keywordScore_eq_countP text, ?_, hsome⟩
  constructor
  · intro hgen tk htk kw hkw hin
    obtain ⟨pre, tk1, post, heq, hdt, _, _, _⟩ := hsome ⟨tk, htk, kw, hkw, hin⟩
    refine hkeys tk1 ?_ (hdt ▸ hgen)
    rw [heq]; simp
  · intro hnone
    rw [detectTopic_eq_foldl,
      foldBest_keeps (fun tk : Str × Str => Intelligence.keywordScore text tk.2)
        (fun tk => tk.1) Intelligence.topicKeywords (0, Intelligence.generalTopic)]
    intro tk htk
    have : ¬ 0 < Intelligence.keywordScore text tk.2 := by
      rw [hpos]
      rintro ⟨kw, hkw, hin⟩
      exact hnone tk htk kw hkw hin
    simpa using this

/-- C21 on three texts: no keyword gives `सामान्य`; `फिल्म` and `नदी` tie at one keyword
each and the earlier topic `भूगोल` wins; and two politics keywords
beat one cinema keyword. -/
theorem C21_detectTopic_witness :
    Intelligence.detectTopic (utf8 "xyz") = utf8 "सामान्य" ∧
    Intelligence.detectTopic (utf8 "फिल्म नदी") = utf8 "भूगोल" ∧
    (∃ pre tk post, Intelligence.topicKeywords = pre ++ tk :: post ∧
        Intelligence.detectTopic (utf8 "मोदी चुनाव फिल्म") = tk.1 ∧
        0 < Intelligence.keywordScore (utf8 "मोदी चुनाव फिल्म") tk.2 ∧
        (∀ t' ∈ Intelligence.topicKeywords,
          Intelligence.keywordScore (utf8 "मोदी चुनाव फिल्म") t'.2 ≤
            Intelligence.keywordScore (utf8 "मोदी चुनाव फिल्म") tk.2) ∧
        (∀ t' ∈ pre, Intelligence.keywordScore (utf8 "मोदी चुनाव फिल्म") t'.2 <
          Intelligence.keywordScore (utf8 "मोदी चुनाव फिल्म") tk.2)) :=
  ⟨(C21_detectTopic (utf8 "xyz")).2.1.2
      (fun tk htk kw hkw => (contains_eq_false_iff _ _).1
        ((by decide : ∀ tk ∈ Intelligence.topicKeywords, ∀ kw ∈ words tk.2,
          contains (utf8 "xyz") kw = false) tk htk kw hkw)),
    by decide,
    (C21_detectTopic (utf8 "मोदी चुनाव फिल्म")).2.2
      ⟨(utf8 "सिनेमा", utf8 "फिल्म बॉलीवुड अभिनेता अभिनेत्री निर्देशक ऑस्कर फिल्मफेयर"),
        by decide, utf8 "फिल्म", by decide, (contains_iff _ _).1 (by decide)⟩⟩

/-! ## C22: emotion classification -/

theorem hasCue_three (a b c text : Str) :
    hasCue [a, b, c] text ↔ (contains text a || contains text b || contains text c) = true := by
  simp [hasCue, contains_iff, or_assoc]

theorem hasCue_two (a b text : Str) :
    hasCue [a, b] text ↔ (contains text a || contains text b) = true := by
  simp [hasCue, contains_iff]

/-- C22: after `detectEmotion text` the emotion is `warm` when a gratitude cue occurs,
else `energetic` when a greeting cue occurs, else `calm` when a complaint cue occurs,
else `empathetic` when a sadness cue occurs, else `excited` when a praise cue occurs,
else `neutral`; it is one of these six labels, it does not depend on the state before
the call, and the other members are left as they were. -/
theorem C22_detectEmotion (st : Intelligence) (text : Str) :
    (hasCue gratitudeCues text → (st.detectEmotion text).currentEmotion = utf8 "warm") ∧
    (¬ hasCue gratitudeCues text → hasCue greetingCues text →
      (st.detectEmotion text).currentEmotion = utf8 "energetic") ∧
    (¬ hasCue gratitudeCues text → ¬ hasCue greetingCues text → hasCue complaintCues text →
      (st.detectEmotion text).currentEmotion = utf8 "calm") ∧
    (¬ hasCue gratitudeCues text → ¬ hasCue greetingCues text → ¬ hasCue complaintCues text →
      hasCue sadnessCues text → (st.detectEmotion text).currentEmotion = utf8 "empathetic") ∧
    (¬ hasCue gratitudeCues text → ¬ hasCue greetingCues text → ¬ hasCue complaintCues text →
      ¬ hasCue sadnessCues text → hasCue praiseCues text →
      (st.detectEmotion text).currentEmotion = utf8 "excited") ∧
    (¬ hasCue gratitudeCues text → ¬ hasCue greetingCues text → ¬ hasCue complaintCues text →
      ¬ hasCue sadnessCues text → ¬ hasCue praiseCues text →
      (st.detectEmotion text).currentEmotion = utf8 "neutral") ∧
    (st.detectEmotion text).currentEmotion ∈
      [utf8 "warm", utf8 "energetic", utf8 "calm", utf8 "empathetic", utf8 "excited",
        utf8 "neutral"] ∧
    (∀ st' : Intelligence,
      (st'.detectEmotion text).currentEmotion = (st.detectEmotion text).currentEmotion) ∧
    (st.detectEmotion text).lastSubject = st.lastSubject ∧
    (st.detectEmotion text).lastTopic = st.lastTopic ∧
    (st.detectEmotion text).history = st.history := by
  have g1 := hasCue_three (utf8 "धन्यवाद") (utf8 "शुक्रिया") (utf8 "thanks") text
  have g2 := hasCue_three (utf8 "नमस्ते") (utf8 "hello") (utf8 "हाय") text
  have g3 := hasCue_three (utf8 "गुस्सा") (utf8 "बेकार") (utf8 "गलत") text
  have g4 := hasCue_two (utf8 "दुखी") (utf8 "उदास") text
  have g5 := hasCue_two (utf8 "शाबाश") (utf8 "वाह") text
  refine ⟨?_, ?_, ?_, ?_, ?_, ?_, ?_, ?_, (detectEmotion_frame st text).1,
    (detectEmotion_frame st text).2.1, (detectEmotion_frame st text).2.2⟩
  · intro h1
    unfold Intelligence.detectEmotion
    rw [if_pos (g1.1 h1)]
  · intro n1 h2
    unfold Intelligence.detectEmotion
    rw [if_neg (fun h => n1 (g1.2 h)), if_pos (g2.1 h2)]
  · intro n1 n2 h3
    unfold Intelligence.detectEmotion
    rw [if_neg (fun h => n1 (g1.2 h)), if_neg (fun h => n2 (g2.2 h)), if_pos (g3.1 h3)]
  · intro n1 n2 n3 h4
    unfold Intelligence.detectEmotion
    rw [if_neg (fun h => n1 (g1.2 h)), if_neg (fun h => n2 (g2.2 h)),
      if_neg (fun h => n3 (g3.2 h)), if_pos (g4.1 h4)]
  · intro n1 n2 n3 n4 h5
    unfold Intelligence.detectEmotion
    rw [if_neg (fun h => n1 (g1.2 h)), if_neg (fun h => n2 (g2.2 h)),
      if_neg (fun h => n3 (g3.2 h)), if_neg (fun h => n4 (g4.2 h)), if_pos (g5.1 h5)]
  · intro n1 n2 n3 n4 n5
    unfold Intelligence.detectEmotion
    rw [if_neg (fun h => n1 (g1.2 h)), if_neg (fun h => n2 (g2.2 h)),
      if_neg (fun h => n3 (g3.2 h)), if_neg (fun h => n4 (g4.2 h)),
      if_neg (fun h => n5 (g5.2 h))]
  · unfold Intelligence.detectEmotion
    split_ifs <;> simp
  · intro st'
    unfold Intelligence.detectEmotion
    split_ifs <;> rfl

/-- C22 on `demoBrain` (emotion `neutral`) and on a state with the emotion `calm`: a
text with a gratitude cue and a greeting cue gets `warm` from both, and a text with no
cue resets the emotion to `neutral`. -/
theorem C22_detectEmotion_witness :
    (demoBrain.detectEmotion (utf8 "नमस्ते और धन्यवाद")).currentEmotion = utf8 "warm" ∧
    (({ demoBrain with currentEmotion := utf8 "calm" } : Intelligence).detectEmotion
      (utf8 "नमस्ते और धन्यवाद")).currentEmotion = utf8 "warm" ∧
    (({ demoBrain with currentEmotion := utf8 "calm" } : Intelligence).detectEmotion
      (utf8 "xyz")).currentEmotion = utf8 "neutral" :=
  ⟨(C22_detectEmotion demoBrain (utf8 "नमस्ते और धन्यवाद")).1
      ((hasCue_three _ _ _ _).2 (by decide)),
    (C22_detectEmotion { demoBrain with currentEmotion := utf8 "calm" }
      (utf8 "नमस्ते और धन्यवाद")).1 ((hasCue_three _ _ _ _).2 (by decide)),
    (C22_detectEmotion { demoBrain with currentEmotion := utf8 "calm" } (utf8 "xyz")).2.2.2.2.2.1
      (fun h => absurd ((hasCue_three _ _ _ _).1 h) (by decide))
      (fun h => absurd ((hasCue_three _ _ _ _).1 h) (by decide))
      (fun h => absurd ((hasCue_three _ _ _ _).1 h) (by decide))
      (fun h => absurd ((hasCue_two _ _ _).1 h) (by decide))
      (fun h => absurd ((hasCue_two _ _ _).1 h) (by decide))⟩

/-! ## C23: response templating -/

theorem randomFrom_map_append (answer : Str) (bucket : List Str) (r : Nat) (hb : bucket ≠ []) :
    HindiAI.randomFrom (bucket.map fun suf => answer ++ suf) r =
      answer ++ bucket.getD (r % bucket.length) [] := by
  unfold HindiAI.randomFrom
  have hlt : r % bucket.length < bucket.length := Nat.mod_lt _ (List.length_pos.2 hb)
  rw [List.length_map, List.getD_eq_getElem _ _ (by rw [List.length_map]; exact hlt),
    List.getD_eq_getElem _ _ hlt, List.getElem_map]

/-- C23: `wrapResponse answer emotion` is the answer followed by the closing phrase
that `rand() % size` picks from the bucket of the emotion: the `warm`, `energetic` or
`calm` bucket for those labels, the neutral bucket for every other label, among them
`empathetic` and `excited`; so the closing phrase belongs to that bucket and the answer
is a prefix of the result. -/
theorem C23_wrapResponse (answer emotion : Str) (r : Nat) :
    HindiAI.wrapResponse answer emotion r =
      answer ++ (bucketOf emotion).getD (r % (bucketOf emotion).length) [] ∧
    (bucketOf emotion).getD (r % (bucketOf emotion).length) [] ∈ bucketOf emotion ∧
    answer <+: HindiAI.wrapResponse answer emotion r ∧
    bucketOf (utf8 "warm") = warmClosings ∧
    bucketOf (utf8 "energetic") = energeticClosings ∧
    bucketOf (utf8 "calm") = calmClosings ∧
    bucketOf (utf8 "empathetic") = neutralClosings ∧
    bucketOf (utf8 "excited") = neutralClosings ∧
    (emotion ≠ utf8 "warm" → emotion ≠ utf8 "energetic" → emotion ≠ utf8 "calm" →
      bucketOf emotion = neutralClosings) := by
  have hne : bucketOf emotion ≠ [] := by
    unfold bucketOf
    split_ifs <;> decide
  have heq : HindiAI.wrapResponse answer emotion r =
      answer ++ (bucketOf emotion).getD (r % (bucketOf emotion).length) [] := by
    unfold HindiAI.wrapResponse bucketOf
    simp only [beq_iff_eq]
    split_ifs
    · exact randomFrom_map_append answer warmClosings r (by decide)
    · exact randomFrom_map_append answer energeticClosings r (by decide)
    · exact randomFrom_map_append answer calmClosings r (by decide)
    · exact randomFrom_map_append answer neutralClosings r (by decide)
  refine ⟨heq, ?_, ?_, by decide, by decide, by decide, by decide, by decide, ?_⟩
  · have hlt : r % (bucketOf emotion).length < (bucketOf emotion).length :=
      Nat.mod_lt _ (List.length_pos.2 hne)
    rw [List.getD_eq_getElem _ _ hlt]
    exact List.getElem_mem _
  · rw [heq]; exact List.prefix_append _ _
  · intro h1 h2 h3
    unfold bucketOf
    rw [if_neg h1, if_neg h2, if_neg h3]

/-- C23 on the answer `नई दिल्ली`: with `rand() = 7` the label `calm` gives the second
calm phrase and the label `excited` the second neutral phrase. -/
theorem C23_wrapResponse_witness :
    HindiAI.wrapResponse (utf8 "नई दिल्ली") (utf8 "calm") 7 =
      utf8 "नई दिल्ली। शांत मन से इसे समझें, और प्रश्न हो तो पूछें।" ∧
    HindiAI.wrapResponse (utf8 "नई दिल्ली") (utf8 "excited") 7 =
      utf8 "नई दिल्ली। क्या आप इस विषय पर और जानकारी चाहते हैं?" :=
  ⟨(C23_wrapResponse (utf8 "नई दिल्ली") (utf8 "calm") 7).1.trans (by decide),
    (C23_wrapResponse (utf8 "नई दिल्ली") (utf8 "excited") 7).1.trans (by decide)⟩

/-! ## C24: the store could not be opened -/

theorem hasCue_four (a b c d text : Str) :
    hasCue [a, b, c, d] text ↔
      (contains text a || contains text b || contains text c || contains text d) = true := by
  simp [hasCue, contains_iff, or_assoc]

/-- Degradation when `preprocess` returns: with the null handle (`db = none`), when
`preprocess` returns `p0` and the resolved query holds no greeting cue and no help cue,
`generateResponse` returns the "not found" message, and `lastSubject`, `lastTopic` and
`history` are left as they were (the follow-up intercept cannot succeed: both of its
lookups are empty). -/
theorem generateResponse_null_store (fuel : Nat) (brain : Intelligence) (r : Nat) (now : Int)
    (input p0 : Str)
    (hp : Enhancer.preprocess fuel input = some p0)
    (hgreet : ¬ hasCue [utf8 "नमस्ते", utf8 "hello", utf8 "हाय", utf8 "hey"]
      (resolvedQuery brain p0))
    (hhelp : ¬ hasCue [utf8 "मदद", utf8 "help"] (resolvedQuery brain p0)) :
    HindiAI.generateResponse fuel none brain r now input =
      some (HindiAI.apology, brain.detectEmotion p0) ∧
    (brain.detectEmotion p0).lastSubject = brain.lastSubject ∧
    (brain.detectEmotion p0).lastTopic = brain.lastTopic ∧
    (brain.detectEmotion p0).history = brain.history := by
  refine ⟨?_, detectEmotion_frame brain p0⟩
  have e1 := fun h => hgreet ((hasCue_four _ _ _ _ _).2 h)
  have e2 := fun h => hhelp ((hasCue_two _ _ _).2 h)
  unfold resolvedQuery at e1 e2
  have hint : HindiAI.intercept none (brain.detectEmotion p0) r now input
      (resolvedQuery brain p0) (brain.detectEmotion p0).getEmotion = some none := by
    unfold HindiAI.intercept resolvedQuery
    rw [if_neg e1, if_neg e2]
    simp [HindiAI.searchDB]
  rw [generateResponse_of_preprocess fuel none brain r now input p0 hp, hint]
  simp [HindiAI.respond, HindiAI.searchDB, HindiAI.searchByCategory]

/-- On `demoBrain` (subject `नरेंद्र मोदी`, topic `राजनीति`): without a store the
follow-up input `और बताओ` is answered with the "not found" message. -/
theorem generateResponse_null_store_example :
    HindiAI.generateResponse 1 none demoBrain 7 2 (utf8 "और बताओ") =
      some (HindiAI.apology, demoBrain.detectEmotion (utf8 "और बताओ")) :=
  (generateResponse_null_store 1 demoBrain 7 2 (utf8 "और बताओ") (utf8 "और बताओ") (by decide)
    (fun h => absurd ((hasCue_four _ _ _ _ _).1 h) (by decide))
    (fun h => absurd ((hasCue_two _ _ _).1 h) (by decide))).1

/-- The abbreviation rule for `कांग्रेस` writes its own pattern back: on the input
`कांग्रेस` neither `expandShortForms` nor `preprocess` returns, whatever the fuel. -/
theorem preprocess_self_expanding (fuel : Nat) :
    Enhancer.preprocess fuel (utf8 "कांग्रेस") = none := by
  have hd : divergesOn Enhancer.shortExpansions (utf8 "कांग्रेस") = true := by decide
  cases fuel with
  | zero => rfl
  | succ n =>
    have hlow : Enhancer.toLower (utf8 "कांग्रेस") = utf8 "कांग्रेस" := by decide
    have hs : noRuleMatches Enhancer.synonymMap (utf8 "कांग्रेस") = true := by decide
    unfold Enhancer.preprocess Enhancer.normalizeSynonyms Enhancer.expandShortForms
    rw [hlow, applyRules_of_noRuleMatches n _ _ hs]
    simp only
    rw [applyRules_diverges _ _ hd (n + 1)]

/-- C24 (fails on the code): the raw input `कांग्रेस` holds no greeting cue and no help
cue, in the raw text or after case folding and the synonym pass; with the null handle
(`db = none`), from any state and with any amount of fuel, `generateResponse` does not
return the "not found" message: it does not return at all, because `preprocess` does
not. -/
theorem C24_null_store_no_return :
    (∀ cue ∈ [utf8 "नमस्ते", utf8 "hello", utf8 "हाय", utf8 "hey", utf8 "मदद", utf8 "help"],
      contains (utf8 "कांग्रेस") cue = false) ∧
    Enhancer.normalizeSynonyms 1 (Enhancer.toLower (utf8 "कांग्रेस")) = some (utf8 "कांग्रेस") ∧
    (∀ (fuel : Nat) (brain : Intelligence) (r : Nat) (now : Int),
      HindiAI.generateResponse fuel none brain r now (utf8 "कांग्रेस") = none) := by
  refine ⟨by decide, by decide, fun fuel brain r now => ?_⟩
  unfold HindiAI.generateResponse
  rw [preprocess_self_expanding fuel]

/-! ## C25: short tokens -/

theorem scoreTokens_append (d : Str) (l1 l2 : List Str) (acc : Nat) :
    scoreTokens d (l1 ++ l2) acc = scoreTokens d l2 (scoreTokens d l1 acc) := by
  unfold scoreTokens
  rw [List.foldl_append]

theorem scoreTokens_add (d : Str) (l : List Str) :
    ∀ acc k : Nat, scoreTokens d l (acc + k) = scoreTokens d l acc + k := by
  induction l with
  | nil => intro acc k; rfl
  | cons t l ih =>
    intro acc k
    unfold scoreTokens at ih ⊢
    rw [List.foldl_cons, List.foldl_cons]
    split_ifs
    · exact ih acc k
    · rw [show acc + k + 2 = acc + 2 + k by omega]; exact ih (acc + 2) k
    · exact ih acc k

/-- C25 (counterexample): the query `क xyz` has the two tokens `क` and `xyz`; `क` is one
character (three bytes in UTF-8) and occurs in the question `कमल`; the score is 2,
whereas the query `xyz` alone scores 0: the one-character token adds 2. -/
theorem C25_devanagari_letter_scores :
    words (utf8 "क xyz") = [utf8 "क", utf8 "xyz"] ∧
    "क".length = 1 ∧ (utf8 "क").length = 3 ∧
    HindiAI.scoreMatch (utf8 "क xyz") (utf8 "कमल") = 2 ∧
    HindiAI.scoreMatch (utf8 "xyz") (utf8 "कमल") = 0 := by
  decide

/-- C25 (amended): the score is the exact-phrase bonus followed by the token loop; in
that loop a token of fewer than 2 bytes adds nothing, wherever it stands and even when
it occurs in the question, and a token of 2 bytes or more that occurs in the question
adds 2; a single ASCII character is 1 byte, a single Devanagari character is 3 bytes. -/
theorem C25_short_tokens_by_bytes (d : Str) :
    (∀ q, HindiAI.scoreMatch q d =
      scoreTokens d (HindiAI.tokenize q) (if contains d q then 10 else 0)) ∧
    (∀ (pre post : List Str) (tok : Str) (acc : Nat), tok.length < 2 →
      scoreTokens d (pre ++ tok :: post) acc = scoreTokens d (pre ++ post) acc) ∧
    (∀ (pre post : List Str) (tok : Str) (acc : Nat), 2 ≤ tok.length → tok <:+: d →
      scoreTokens d (pre ++ tok :: post) acc = scoreTokens d (pre ++ post) acc + 2) ∧
    (∀ c : Char, c.toNat < 128 → (utf8Char c).length = 1) ∧
    (∀ c : Char, 0x900 ≤ c.toNat → c.toNat ≤ 0x97F → (utf8Char c).length = 3) := by
  refine ⟨fun q => rfl, ?_, ?_, ?_, ?_⟩
  · intro pre post tok acc h
    rw [scoreTokens_append, scoreTokens_append]
    conv_lhs => unfold scoreTokens
    rw [List.foldl_cons, if_pos h]
    rfl
  · intro pre post tok acc h1 h2
    rw [scoreTokens_append, scoreTokens_append]
    have : scoreTokens d (tok :: post) (scoreTokens d pre acc) =
        scoreTokens d post (scoreTokens d pre acc + 2) := by
      unfold scoreTokens
      rw [List.foldl_cons, if_neg (by omega), if_pos ((contains_iff d tok).2 h2)]
    rw [this, scoreTokens_add]
  · intro c h
    simp [utf8Char, h]
  · intro c h1 h2
    unfold utf8Char
    simp only
    rw [if_neg (by omega), if_neg (by omega), if_pos (by omega)]
    rfl

/-- C25 (amended) on concrete tokens: the one-byte token `k` adds nothing to the score
against `kamal`, the three-byte token `क` adds 2 to the score against `कमल`. -/
theorem C25_short_tokens_by_bytes_witness :
    scoreTokens (utf8 "kamal") ([utf8 "ka"] ++ utf8 "k" :: [utf8 "mal"]) 0 =
      scoreTokens (utf8 "kamal") ([utf8 "ka"] ++ [utf8 "mal"]) 0 ∧
    scoreTokens (utf8 "कमल") ([] ++ utf8 "क" :: [utf8 "xyz"]) 0 =
      scoreTokens (utf8 "कमल") ([] ++ [utf8 "xyz"]) 0 + 2 :=
  ⟨(C25_short_tokens_by_bytes (utf8 "kamal")).2.1 [utf8 "ka"] [utf8 "mal"] (utf8 "k") 0
      (by decide),
    (C25_short_tokens_by_bytes (utf8 "कमल")).2.2.1 [] [utf8 "xyz"] (utf8 "क") 0 (by decide)
      ((contains_iff _ _).1 (by decide))⟩

/-! ## C28: the category scan as a restricted full scan -/

/-- A scan that starts from the empty answer with score 0 ends with the empty answer
whenever it ends with score 0. -/
theorem scan_zero_empty (q : Str) (rows : List FactRecord) :
    ∀ best : Str × Nat, (best.2 = 0 → best.1 = []) →
      (rows.foldl (fun (best : Str × Nat) row =>
        if HindiAI.scoreMatch q row.question > best.2
        then (row.answer, HindiAI.scoreMatch q row.question) else best) best).2 = 0 →
      (rows.foldl (fun (best : Str × Nat) row =>
        if HindiAI.scoreMatch q row.question > best.2
        then (row.answer, HindiAI.scoreMatch q row.question) else best) best).1 = [] := by
  induction rows with
  | nil => intro best h; exact h
  | cons a rs ih =>
    intro best h
    rw [List.foldl_cons]
    apply ih
    split
    · rename_i hgt
      intro h0
      simp only at h0
      omega
    · exact h

/-- C28: for a non-empty category `t`, `searchByCategory t q` equals `searchByKeyword q`
run over the store that holds the records of category `t` only; and when every stored
record scores 0 against `q`, `searchByCategory t q` is the empty answer for every `t`. -/
theorem C28_category_scan_is_restricted_scan (st : Store) (q : Str) :
    (∀ t : Str, t ≠ [] →
      HindiAI.searchByCategory (some st) t q =
        HindiAI.searchByKeyword
          (some { st with records := st.records.filter fun row => row.category == t }) q) ∧
    ((∀ r ∈ st.records, HindiAI.scoreMatch q r.question = 0) →
      ∀ t : Str, HindiAI.searchByCategory (some st) t q = []) := by
  constructor
  · intro t ht
    simp only [HindiAI.searchByCategory, HindiAI.searchByKeyword,
      isEmpty_eq_false_of_ne_nil t ht]
    by_cases h : (HindiAI.scanBest q (st.records.filter fun row => row.category == t)).2 ≥ 1
    · simp [h]
    · have h0 : (HindiAI.scanBest q (st.records.filter fun row => row.category == t)).2 = 0 := by
        omega
      have := scan_zero_empty q (st.records.filter fun row => row.category == t) ([], 0)
        (fun _ => rfl) h0
      rw [scanBest_eq_foldl] at h ⊢
      simp [h, this]
  · intro hz t
    unfold HindiAI.searchByCategory
    simp only
    split
    · rfl
    · rw [scanBest_all_zero q _ (fun r hr => hz r (List.mem_filter.1 hr).1)]

/-- C28 on `demoStore`: for the category `भूगोल` the category scan and the full scan over
the geography rows agree on the query `नदी`; the query `xyz` scores 0 against every
record, so the category scan is empty for `भूगोल`. -/
theorem C28_category_scan_is_restricted_scan_witness :
    HindiAI.searchByCategory (some demoStore) (utf8 "भूगोल") (utf8 "नदी") =
      HindiAI.searchByKeyword
        (some { demoStore with
          records := demoStore.records.filter fun row => row.category == utf8 "भूगोल" })
        (utf8 "नदी") ∧
    HindiAI.searchByCategory (some demoStore) (utf8 "भूगोल") (utf8 "xyz") = [] :=
  ⟨(C28_category_scan_is_restricted_scan demoStore (utf8 "नदी")).1 (utf8 "भूगोल") (by decide),
    (C28_category_scan_is_restricted_scan demoStore (utf8 "xyz")).2 (by decide) (utf8 "भूगोल")⟩

/-! ## C30: a turn without a known entity overwrites the subject -/

/-- C30: when no known entity occurs in the input and the input has a token, after
`updateContext input response` the subject is the first up-to-three tokens of the
input joined by single spaces (a non-empty text), whatever the subject was before. -/
theorem C30_subject_overwritten (st : Intelligence) (now : Int) (input response : Str)
    (hno : ∀ x ∈ Intelligence.KNOWN_PERSONS, ¬ x <:+: input) (htok : words input ≠ []) :
    (st.updateContext now input response).lastSubject =
      (utf8 " ").intercalate ((words input).take 3) ∧
    (st.updateContext now input response).lastSubject ≠ [] := by
  have hent := extractNamedEntity_of_none input hno
  have hne : Intelligence.extractNamedEntity input ≠ [] := by
    have hw := words_ne_nil input
    unfold Intelligence.extractNamedEntity
    have hfind : Intelligence.KNOWN_PERSONS.find? (fun person => contains input person) = none := by
      rw [List.find?_eq_none]
      intro x hx
      simpa using (contains_eq_false_iff input x).2 (hno x hx)
    rw [hfind]
    simp only
    rcases hws : words input with _ | ⟨w1, rest⟩
    · exact absurd hws htok
    · rw [hws] at hw
      have h1 : w1 ≠ [] := hw w1 (by simp)
      simp only [List.getD_cons_zero, isEmpty_eq_false_of_ne_nil w1 h1, Bool.not_false, if_true]
      split_ifs <;> simp [h1]
  have hsub : (st.updateContext now input response).lastSubject =
      Intelligence.extractNamedEntity input := by
    simp [Intelligence.updateContext, isEmpty_eq_false_of_ne_nil _ hne]
  exact ⟨hsub.trans hent, hsub ▸ hne⟩

set_option maxRecDepth 20000 in
/-- C30 on `demoBrain`, whose subject is `नरेंद्र मोदी`: after the update with the input
`उनकी उम्र क्या है` the subject is `उनकी उम्र क्या`; and the whole turn on `modiStore`
succeeds (the pronoun is resolved to `नरेंद्र मोदी` and the row about him is found) and
leaves `उनकी उम्र क्या` as the subject. -/
theorem C30_subject_overwritten_witness :
    demoBrain.lastSubject = utf8 "नरेंद्र मोदी" ∧
    (demoBrain.updateContext 2 (utf8 "उनकी उम्र क्या है") (utf8 "उत्तर")).lastSubject =
      utf8 "उनकी उम्र क्या" ∧
    (HindiAI.generateResponse 3 (some modiStore) demoBrain 7 2 (utf8 "उनकी उम्र क्या है")).map
        (fun res => (res.1, res.2.lastSubject)) =
      some (utf8 "उत्तर। क्या आप इस विषय पर और जानकारी चाहते हैं?", utf8 "उनकी उम्र क्या") :=
  ⟨by decide,
    ((C30_subject_overwritten demoBrain 2 (utf8 "उनकी उम्र क्या है") (utf8 "उत्तर")
      (fun x hx => (contains_eq_false_iff _ _).1
        ((by decide : ∀ x ∈ Intelligence.KNOWN_PERSONS,
          contains (utf8 "उनकी उम्र क्या है") x = false) x hx))
      (by decide)).1).trans (by decide),
    by rfl⟩

/-! ## C29: the empty query -/

open Levenshtein in
/-- The library distance with unit costs is attained by an edit script. -/
theorem editScript_levenshtein (a : Str) :
    ∀ b : Str, EditScript a b (levenshtein Levenshtein.defaultCost a b) := by
  induction a with
  | nil =>
    intro b
    induction b with
    | nil => simpa using EditScript.done
    | cons y ys ih =>
      rw [levenshtein_nil_cons]
      simp only [Levenshtein.defaultCost_insert]
      rw [Nat.add_comm]
      exact EditScript.insert y ih
  | cons x xs iha =>
    intro b
    induction b with
    | nil =>
      rw [levenshtein_cons_nil]
      simp only [Levenshtein.defaultCost_delete]
      rw [Nat.add_comm]
      exact EditScript.delete x (iha [])
    | cons y ys ihb =>
      rw [levenshtein_cons_cons]
      simp only [Levenshtein.defaultCost_delete, Levenshtein.defaultCost_insert,
        Levenshtein.defaultCost_substitute]
      rcases min_choice (1 + levenshtein Levenshtein.defaultCost xs (y :: ys))
        (min (1 + levenshtein Levenshtein.defaultCost (x :: xs) ys)
          ((if x = y then 0 else 1) + levenshtein Levenshtein.defaultCost xs ys)) with h | h
      · rw [h, Nat.add_comm]
        exact EditScript.delete x (iha (y :: ys))
      · rw [h]
        rcases min_choice (1 + levenshtein Levenshtein.defaultCost (x :: xs) ys)
          ((if x = y then 0 else 1) + levenshtein Levenshtein.defaultCost xs ys) with h' | h'
        · rw [h', Nat.add_comm]
          exact EditScript.insert y ihb
        · rw [h']
          by_cases hxy : x = y
          · subst hxy
            simp only [if_true, Nat.zero_add]
            exact EditScript.keep x (iha ys)
          · simp only [if_neg hxy]
            rw [Nat.add_comm]
            exact EditScript.substitute x y (iha ys)

open Levenshtein in
/-- No edit script is shorter than the library distance with unit costs. -/
theorem levenshtein_le_of_editScript {a b : Str} {n : Nat} (h : EditScript a b n) :
    levenshtein Levenshtein.defaultCost a b ≤ n := by
  induction h with
  | done => simp
  | @delete x xs ys n _ ih =>
    cases ys with
    | nil =>
      rw [levenshtein_cons_nil]
      simp only [Levenshtein.defaultCost_delete]
      omega
    | cons y ys' =>
      rw [levenshtein_cons_cons]
      simp only [Levenshtein.defaultCost_delete]
      exact le_trans (min_le_left _ _) (by omega)
  | @insert y xs ys n _ ih =>
    cases xs with
    | nil =>
      rw [levenshtein_nil_cons]
      simp only [Levenshtein.defaultCost_insert]
      omega
    | cons x xs' =>
      rw [levenshtein_cons_cons]
      simp only [Levenshtein.defaultCost_insert]
      exact le_trans (min_le_right _ _) (le_trans (min_le_left _ _) (by omega))
  | @keep x xs ys n _ ih =>
    rw [levenshtein_cons_cons]
    simp only [Levenshtein.defaultCost_substitute, if_true]
    exact le_trans (min_le_right _ _) (le_trans (min_le_right _ _) (by omega))
  | @substitute x y xs ys n _ ih =>
    rw [levenshtein_cons_cons]
    simp only [Levenshtein.defaultCost_substitute]
    refine le_trans (min_le_right _ _) (le_trans (min_le_right _ _) ?_)
    split_ifs <;> omega

/-- An edit script can be extended at the right end by a deletion. -/
theorem EditScript.snoc_delete (x : Nat) {a b : Str} {n : Nat} (h : EditScript a b n) :
    EditScript (a ++ [x]) b (n + 1) := by
  induction h with
  | done => exact EditScript.delete x EditScript.done
  | delete x' _ ih => exact EditScript.delete x' ih
  | insert y _ ih => exact EditScript.insert y ih
  | keep x' _ ih => exact EditScript.keep x' ih
  | substitute x' y _ ih => exact EditScript.substitute x' y ih

/-- An edit script can be extended at the right end by an insertion. -/
theorem EditScript.snoc_insert (y : Nat) {a b : Str} {n : Nat} (h : EditScript a b n) :
    EditScript a (b ++ [y]) (n + 1) := by
  induction h with
  | done => exact EditScript.insert y EditScript.done
  | delete x' _ ih => exact EditScript.delete x' ih
  | insert y' _ ih => exact EditScript.insert y' ih
  | keep x' _ ih => exact EditScript.keep x' ih
  | substitute x' y' _ ih => exact EditScript.substitute x' y' ih

/-- An edit script can be extended at the right end by a kept element. -/
theorem EditScript.snoc_keep (x : Nat) {a b : Str} {n : Nat} (h : EditScript a b n) :
    EditScript (a ++ [x]) (b ++ [x]) n := by
  induction h with
  | done => exact EditScript.keep x EditScript.done
  | delete x' _ ih => exact EditScript.delete x' ih
  | insert y' _ ih => exact EditScript.insert y' ih
  | keep x' _ ih => exact EditScript.keep x' ih
  | substitute x' y' _ ih => exact EditScript.substitute x' y' ih

/-- An edit script can be extended at the right end by a substitution. -/
theorem EditScript.snoc_substitute (x y : Nat) {a b : Str} {n : Nat} (h : EditScript a b n) :
    EditScript (a ++ [x]) (b ++ [y]) (n + 1) := by
  induction h with
  | done => exact EditScript.substitute x y EditScript.done
  | delete x' _ ih => exact EditScript.delete x' ih
  | insert y' _ ih => exact EditScript.insert y' ih
  | keep x' _ ih => exact EditScript.keep x' ih
  | substitute x' y' _ ih => exact EditScript.substitute x' y' ih

/-- Edit scripts can be read from right to left. -/
theorem EditScript.reverse {a b : Str} {n : Nat} (h : EditScript a b n) :
    EditScript a.reverse b.reverse n := by
  induction h with
  | done => exact EditScript.done
  | delete x _ ih => rw [List.reverse_cons]; exact EditScript.snoc_delete x ih
  | insert y _ ih => rw [List.reverse_cons]; exact EditScript.snoc_insert y ih
  | keep x _ ih => rw [List.reverse_cons, List.reverse_cons]; exact EditScript.snoc_keep x ih
  | substitute x y _ ih =>
    rw [List.reverse_cons, List.reverse_cons]; exact EditScript.snoc_substitute x y ih

/-- The distance of the reversed strings is the distance of the strings. -/
theorem levenshtein_reverse (a b : Str) :
    levenshtein Levenshtein.defaultCost a.reverse b.reverse =
      levenshtein Levenshtein.defaultCost a b := by
  apply le_antisymm
  · exact levenshtein_le_of_editScript (editScript_levenshtein a b).reverse
  · have := levenshtein_le_of_editScript (editScript_levenshtein a.reverse b.reverse).reverse
    rwa [List.reverse_reverse, List.reverse_reverse] at this

theorem editDistance_nil_left (b : Str) : editDistance [] b = b.length := by
  unfold editDistance
  induction b with
  | nil => simp
  | cons y ys ih =>
    rw [levenshtein_nil_cons, ih]
    simp only [Levenshtein.defaultCost_insert, List.length_cons]
    omega

theorem editDistance_nil_right (a : Str) : editDistance a [] = a.length := by
  unfold editDistance
  induction a with
  | nil => simp
  | cons x xs ih =>
    rw [levenshtein_cons_nil, ih]
    simp only [Levenshtein.defaultCost_delete, List.length_cons]
    omega

theorem editDistance_reverse (a b : Str) :
    editDistance a.reverse b.reverse = editDistance a b :=
  levenshtein_reverse a b

/-- The recurrence of the table of `fuzzySimilarity`, on prefixes extended at the right. -/
theorem editDistance_snoc (xs ys : Str) (x y : Nat) :
    editDistance (xs ++ [x]) (ys ++ [y]) =
      min (editDistance xs (ys ++ [y]) + 1)
        (min (editDistance (xs ++ [x]) ys + 1)
          (editDistance xs ys + if x ≠ y then 1 else 0)) := by
  rw [← editDistance_reverse (xs ++ [x]) (ys ++ [y]), ← editDistance_reverse xs (ys ++ [y]),
    ← editDistance_reverse (xs ++ [x]) ys, ← editDistance_reverse xs ys]
  simp only [List.reverse_append, List.reverse_singleton, List.singleton_append]
  unfold editDistance
  rw [levenshtein_cons_cons]
  simp only [Levenshtein.defaultCost_delete, Levenshtein.defaultCost_insert,
    Levenshtein.defaultCost_substitute]
  have hc : (if x = y then 0 else 1 : Nat) = if x ≠ y then 1 else 0 := by
    by_cases h : x = y <;> simp [h]
  rw [hc]
  simp only [Nat.add_comm]

theorem getLastD_map_inits {β : Type} (l : Str) :
    ∀ (f : Str → β) (d : β), ((List.inits l).map f).getLastD d = f l := by
  induction l with
  | nil => intro f d; rfl
  | cons a l ih =>
    intro f d
    rw [List.inits_cons, List.map_cons, List.getLastD_cons, List.map_map]
    exact ih (f ∘ fun t => a :: t) (f [])

theorem map_length_inits (l : Str) :
    (List.inits l).map List.length = List.range (l.length + 1) := by
  induction l with
  | nil => rfl
  | cons a l ih =>
    rw [List.inits_cons, List.map_cons, List.map_map, List.length_cons,
      List.range_succ_eq_map, ← ih, List.map_map]
    rfl

/-- The inner loop of the table computes the next row entry by entry. -/
theorem dpRowAux_spec (p : Str) (ai : Nat) (bs : Str) :
    ∀ (b1 : Str),
      Performer.dpRowAux ai bs ((List.inits bs).map fun y => editDistance p (b1 ++ y))
          (editDistance (p ++ [ai]) b1) =
        (List.inits bs).tail.map fun y => editDistance (p ++ [ai]) (b1 ++ y) := by
  induction bs with
  | nil => intro b1; rfl
  | cons bj bs ih =>
    intro b1
    obtain ⟨rest, hrest⟩ : ∃ rest, List.inits bs = [] :: rest := by
      cases bs with
      | nil => exact ⟨_, rfl⟩
      | cons c cs => exact ⟨_, List.inits_cons _ _⟩
    have ih' := ih (b1 ++ [bj])
    rw [hrest] at ih'
    simp only [List.map_cons, List.tail_cons, List.append_nil, List.append_assoc,
      List.singleton_append] at ih'
    rw [List.inits_cons, hrest]
    simp only [List.map_cons, List.map_map, List.tail_cons, List.append_nil, Function.comp]
    unfold Performer.dpRowAux
    simp only
    rw [← editDistance_snoc p b1 ai bj]
    simp only [Function.comp_def]
    rw [ih']

theorem dpRow_spec (p : Str) (ai : Nat) (b : Str) :
    Performer.dpRow ai b ((List.inits b).map (editDistance p)) (p.length + 1) =
      (List.inits b).map (editDistance (p ++ [ai])) := by
  have h := dpRowAux_spec p ai b []
  simp only [List.nil_append] at h
  have h0 : editDistance (p ++ [ai]) [] = p.length + 1 := by
    rw [editDistance_nil_right]; simp
  rw [h0] at h
  unfold Performer.dpRow
  have he : (fun y => editDistance p y) = editDistance p := rfl
  rw [he] at h
  rw [h]
  obtain ⟨rest, hrest⟩ : ∃ rest, List.inits b = [] :: rest := by
    cases b with
    | nil => exact ⟨_, rfl⟩
    | cons c cs => exact ⟨_, List.inits_cons _ _⟩
  rw [hrest, List.tail_cons, List.map_cons, h0]

theorem dpRows_spec (b : Str) (a2 : Str) :
    ∀ p : Str, Performer.dpRows a2 b ((List.inits b).map (editDistance p)) p.length =
      (List.inits b).map (editDistance (p ++ a2)) := by
  induction a2 with
  | nil => intro p; simp [Performer.dpRows]
  | cons ai as ih =>
    intro p
    unfold Performer.dpRows
    rw [dpRow_spec p ai b]
    have := ih (p ++ [ai])
    rw [List.length_append, List.length_singleton] at this
    rw [this, List.append_assoc]
    rfl

/-- The entry `dp[m][n]` is the Levenshtein distance. -/
theorem lev_eq_editDistance (a b : Str) : Performer.lev a b = editDistance a b := by
  unfold Performer.lev
  have h0 : List.range (b.length + 1) = (List.inits b).map (editDistance []) := by
    rw [← map_length_inits]
    apply List.map_congr_left
    intro y _
    rw [editDistance_nil_left]
  rw [h0]
  have := dpRows_spec b a []
  rw [List.length_nil, List.nil_append] at this
  rw [this, getLastD_map_inits]

theorem editDistance_le_max (a : Str) :
    ∀ b : Str, editDistance a b ≤ max a.length b.length := by
  induction a with
  | nil => intro b; rw [editDistance_nil_left]; simp
  | cons x xs ih =>
    intro b
    cases b with
    | nil => rw [editDistance_nil_right]; simp
    | cons y ys =>
      have h := ih ys
      unfold editDistance at h ⊢
      rw [levenshtein_cons_cons]
      refine le_trans (min_le_right _ _) (le_trans (min_le_right _ _) ?_)
      simp only [Levenshtein.defaultCost_substitute, List.length_cons]
      have : (if x = y then 0 else 1 : Nat) ≤ 1 := by split_ifs <;> omega
      omega

theorem editScript_refl (a : Str) : EditScript a a 0 := by
  induction a with
  | nil => exact EditScript.done
  | cons x xs ih => exact EditScript.keep x ih

theorem eq_of_editScript_zero {a b : Str} {n : Nat} (h : EditScript a b n) :
    n = 0 → a = b := by
  induction h with
  | done => intro _; rfl
  | delete x _ _ => intro h0; omega
  | insert y _ _ => intro h0; omega
  | keep x _ ih => intro h0; rw [ih h0]
  | substitute x y _ _ => intro h0; omega

theorem editDistance_eq_zero_iff (a b : Str) : editDistance a b = 0 ↔ a = b := by
  constructor
  · intro h
    have hs := editScript_levenshtein a b
    exact eq_of_editScript_zero hs h
  · rintro rfl
    have := levenshtein_le_of_editScript (editScript_refl a)
    unfold editDistance
    omega

/-! ## C26: the edit-distance similarity -/

/-- C26: the entry `dp[m][n]` of the table of `fuzzySimilarity` is the Levenshtein
distance of `a` and `b`: it equals the library's distance with unit costs, it is the
length of some script of single-element deletions, insertions and substitutions that
turns `a` into `b`, and no such script is shorter.  With exact arithmetic the
similarity is 1 when both strings are empty and `1 - distance / max(len a, len b)`
otherwise; it lies between 0 and 1 and is 1 exactly when `a = b`. -/
theorem C26_fuzzySimilarity (a b : Str) :
    Performer.lev a b = editDistance a b ∧
    EditScript a b (Performer.lev a b) ∧
    (∀ n, EditScript a b n → Performer.lev a b ≤ n) ∧
    Performer.fuzzySimilarity a b =
      (if a = [] ∧ b = [] then 1
       else 1 - (Performer.lev a b : ℚ) / ((max a.length b.length : Nat) : ℚ)) ∧
    0 ≤ Performer.fuzzySimilarity a b ∧
    Performer.fuzzySimilarity a b ≤ 1 ∧
    (Performer.fuzzySimilarity a b = 1 ↔ a = b) := by
  have hlev := lev_eq_editDistance a b
  have hmax : max a.length b.length = 0 ↔ a = [] ∧ b = [] := by
    constructor
    · intro h
      have h1 : a.length = 0 := by omega
      have h2 : b.length = 0 := by omega
      exact ⟨List.length_eq_zero.1 h1, List.length_eq_zero.1 h2⟩
    · rintro ⟨rfl, rfl⟩; rfl
  have hle : Performer.lev a b ≤ max a.length b.length := hlev ▸ editDistance_le_max a b
  have hform : Performer.fuzzySimilarity a b =
      (if a = [] ∧ b = [] then 1
       else 1 - (Performer.lev a b : ℚ) / ((max a.length b.length : Nat) : ℚ)) := by
    unfold Performer.fuzzySimilarity
    simp only
    by_cases h : max a.length b.length = 0
    · rw [if_pos h, if_pos (hmax.1 h)]
    · rw [if_neg h, if_neg (fun h' => h (hmax.2 h'))]
  refine ⟨hlev, ?_, ?_, hform, ?_, ?_, ?_⟩
  · rw [hlev]; exact editScript_levenshtein a b
  · intro n hn
    rw [hlev]; exact levenshtein_le_of_editScript hn
  · rw [hform]
    split_ifs with h
    · norm_num
    · have hpos : (0 : ℚ) < ((max a.length b.length : Nat) : ℚ) := by
        have : 0 < max a.length b.length := Nat.pos_of_ne_zero (fun h' => h (hmax.1 h'))
        exact_mod_cast this
      have hle' : (Performer.lev a b : ℚ) ≤ ((max a.length b.length : Nat) : ℚ) := by
        exact_mod_cast hle
      have : (Performer.lev a b : ℚ) / ((max a.length b.length : Nat) : ℚ) ≤ 1 :=
        (div_le_one hpos).2 hle'
      linarith
  · rw [hform]
    split_ifs with h
    · norm_num
    · have hpos : (0 : ℚ) < ((max a.length b.length : Nat) : ℚ) := by
        have : 0 < max a.length b.length := Nat.pos_of_ne_zero (fun h' => h (hmax.1 h'))
        exact_mod_cast this
      have : (0 : ℚ) ≤ (Performer.lev a b : ℚ) / ((max a.length b.length : Nat) : ℚ) :=
        div_nonneg (by exact_mod_cast Nat.zero_le _) hpos.le
      linarith
  · rw [hform]
    split_ifs with h
    · simp [h.1, h.2]
    · have hpos : (0 : ℚ) < ((max a.length b.length : Nat) : ℚ) := by
        have : 0 < max a.length b.length := Nat.pos_of_ne_zero (fun h' => h (hmax.1 h'))
        exact_mod_cast this
      rw [← editDistance_eq_zero_iff, ← hlev]
      constructor
      · intro h1
        have h2 : (Performer.lev a b : ℚ) / ((max a.length b.length : Nat) : ℚ) = 0 := by
          linarith
        rcases div_eq_zero_iff.1 h2 with h3 | h3
        · exact_mod_cast h3
        · exact absurd h3 hpos.ne'
      · intro h1
        rw [h1]
        simp

/-- C26 on `kitten` and `sitting`: the table ends with 3, the similarity is 4/7; and a
string has similarity 1 to itself. -/
theorem C26_fuzzySimilarity_witness :
    Performer.lev (utf8 "kitten") (utf8 "sitting") = 3 ∧
    editDistance (utf8 "kitten") (utf8 "sitting") = 3 ∧
    Performer.fuzzySimilarity (utf8 "kitten") (utf8 "sitting") = 4 / 7 ∧
    Performer.fuzzySimilarity (utf8 "नदी") (utf8 "नदी") = 1 := by
  have h1 : Performer.lev (utf8 "kitten") (utf8 "sitting") = 3 := by decide
  have h2 : (utf8 "kitten").length = 6 := by decide
  have h3 : (utf8 "sitting").length = 7 := by decide
  have hne : ¬ (utf8 "kitten" = [] ∧ utf8 "sitting" = []) := by decide
  refine ⟨h1, (C26_fuzzySimilarity _ _).1 ▸ h1, ?_, (C26_fuzzySimilarity _ _).2.2.2.2.2.2.2 rfl⟩
  rw [(C26_fuzzySimilarity _ _).2.2.2.1, if_neg hne, h1, h2, h3]
  norm_num

/-! ## C27: fuzzy token correction -/

/-- For a word of fewer than 3 bytes the vocabulary loop leaves `best` and `bestMatch`
at their starting values. -/
theorem autoCorrect_fold_short (word : Str) (hw : word.length < 3) (vocabulary : List Str) :
    ∀ best : ℚ × Str,
      vocabulary.foldl
        (fun (best : ℚ × Str) v =>
          if word.length < 3 then best
          else if Performer.fuzzySimilarity word v > best.1
            then (Performer.fuzzySimilarity word v, v) else best) best = best := by
  induction vocabulary with
  | nil => intro best; rfl
  | cons v vs ih =>
    intro best
    rw [List.foldl_cons, if_pos hw]
    exact ih best

/-- For a word of 3 bytes or more the vocabulary loop is the fold that keeps the first
token of maximal similarity. -/
theorem autoCorrect_fold_long (word : Str) (hw : 3 ≤ word.length) (vocabulary : List Str)
    (best : ℚ × Str) :
    vocabulary.foldl
      (fun (best : ℚ × Str) v =>
        if word.length < 3 then best
        else if Performer.fuzzySimilarity word v > best.1
          then (Performer.fuzzySimilarity word v, v) else best) best =
    vocabulary.foldl
      (fun (best : ℚ × Str) v =>
        if Performer.fuzzySimilarity word v > best.1
          then (Performer.fuzzySimilarity word v, v) else best) best := by
  congr 1
  funext best v
  rw [if_neg (by omega)]

theorem autoCorrect_eq (vocabulary : List Str) (word : Str) :
    Performer.autoCorrect vocabulary word =
      if (vocabulary.foldl
        (fun (best : ℚ × Str) v =>
          if word.length < 3 then best
          else if Performer.fuzzySimilarity word v > best.1
            then (Performer.fuzzySimilarity word v, v) else best) (0, word)).1 > 0.80
      then (vocabulary.foldl
        (fun (best : ℚ × Str) v =>
          if word.length < 3 then best
          else if Performer.fuzzySimilarity word v > best.1
            then (Performer.fuzzySimilarity word v, v) else best) (0, word)).2
      else word := rfl

/-- A word of fewer than 3 bytes is returned as it is. -/
theorem autoCorrect_short (vocabulary : List Str) (word : Str) (hw : word.length < 3) :
    Performer.autoCorrect vocabulary word = word := by
  rw [autoCorrect_eq, autoCorrect_fold_short word hw vocabulary]
  simp only
  rw [if_neg (by norm_num)]

/-- Without a vocabulary token of similarity above 0.80 the word is returned as it is. -/
theorem autoCorrect_none_above (vocabulary : List Str) (word : Str)
    (h : ∀ v ∈ vocabulary, ¬ (0.80 : ℚ) < Performer.fuzzySimilarity word v) :
    Performer.autoCorrect vocabulary word = word := by
  rcases Nat.lt_or_ge word.length 3 with hw | hw
  · exact autoCorrect_short vocabulary word hw
  · rw [autoCorrect_eq, autoCorrect_fold_long word hw]
    rcases foldBest_result (fun v => Performer.fuzzySimilarity word v) (fun v => v)
        vocabulary (0, word) with hres | ⟨v, hv, _, hres⟩
    · rw [hres]
      simp only
      rw [if_neg (by norm_num)]
    · rw [hres]
      simp only
      rw [if_neg (fun hgt => h v hv hgt)]

/-- The first vocabulary token of maximal similarity is returned when that similarity
is above 0.80 and the word has 3 bytes or more. -/
theorem autoCorrect_first_max (word : Str) (hw : 3 ≤ word.length) (pre post : List Str)
    (v : Str) (hv : (0.80 : ℚ) < Performer.fuzzySimilarity word v)
    (hpre : ∀ u ∈ pre, Performer.fuzzySimilarity word u < Performer.fuzzySimilarity word v)
    (hpost : ∀ u ∈ post, Performer.fuzzySimilarity word u ≤ Performer.fuzzySimilarity word v) :
    Performer.autoCorrect (pre ++ v :: post) word = v := by
  rw [autoCorrect_eq, autoCorrect_fold_long word hw,
    foldBest_first (fun v => Performer.fuzzySimilarity word v) (fun v => v) pre post v
      (0, word) (lt_trans (by norm_num) hv) hpre hpost]
  simp only
  rw [if_pos hv]

/-- The result is the word itself or a vocabulary token. -/
theorem autoCorrect_mem (vocabulary : List Str) (word : Str) :
    Performer.autoCorrect vocabulary word = word ∨
      Performer.autoCorrect vocabulary word ∈ vocabulary := by
  rcases Nat.lt_or_ge word.length 3 with hw | hw
  · exact Or.inl (autoCorrect_short vocabulary word hw)
  · rw [autoCorrect_eq, autoCorrect_fold_long word hw]
    rcases foldBest_result (fun v => Performer.fuzzySimilarity word v) (fun v => v)
        vocabulary (0, word) with hres | ⟨v, hv, _, hres⟩
    · rw [hres]
      simp only
      left
      split_ifs <;> rfl
    · rw [hres]
      simp only
      split_ifs
      · exact Or.inr hv
      · exact Or.inl rfl

/-- C27: with exact arithmetic, `autoCorrect` returns the word as it is when the word
has fewer than 3 bytes or when no vocabulary token has a similarity above 0.80 to it;
when the word has 3 bytes or more and the vocabulary is `pre ++ v :: post` with `v` of
similarity above 0.80, every token of `pre` strictly less similar and every token of
`post` at most as similar (so `v` is the first token of maximal similarity), it returns
`v`; the result is always the word or a token of the vocabulary. -/
theorem C27_autoCorrect (vocabulary : List Str) (word : Str) :
    (word.length < 3 → Performer.autoCorrect vocabulary word = word) ∧
    ((∀ v ∈ vocabulary, ¬ (0.80 : ℚ) < Performer.fuzzySimilarity word v) →
      Performer.autoCorrect vocabulary word = word) ∧
    (3 ≤ word.length → ∀ (pre post : List Str) (v : Str), vocabulary = pre ++ v :: post →
      (0.80 : ℚ) < Performer.fuzzySimilarity word v →
      (∀ u ∈ pre, Performer.fuzzySimilarity word u < Performer.fuzzySimilarity word v) →
      (∀ u ∈ post, Performer.fuzzySimilarity word u ≤ Performer.fuzzySimilarity word v) →
      Performer.autoCorrect vocabulary word = v) ∧
    (Performer.autoCorrect vocabulary word = word ∨
      Performer.autoCorrect vocabulary word ∈ vocabulary) := by
  refine ⟨autoCorrect_short vocabulary word, autoCorrect_none_above vocabulary word, ?_,
    autoCorrect_mem vocabulary word⟩
  intro hw pre post v hvoc hv hpre hpost
  rw [hvoc]
  exact autoCorrect_first_max word hw pre post v hv hpre hpost

theorem fuzzySimilarity_self (a : Str) : Performer.fuzzySimilarity a a = 1 := by
  unfold Performer.fuzzySimilarity
  simp only
  split_ifs with h
  · rfl
  · have : Performer.lev a a = 0 := by
      rw [lev_eq_editDistance, editDistance_eq_zero_iff]
    rw [this]
    simp

/-- C27 on the vocabulary `nadi`, `rajdhani`: the two-byte word `na` and the word `xyz`
(no token above 0.80) come back as they are, and `rajdhaani` (similarity 8/9 to
`rajdhani`, 1/3 to `nadi`) is corrected to `rajdhani`. -/
theorem C27_autoCorrect_witness :
    Performer.autoCorrect [utf8 "nadi", utf8 "rajdhani"] (utf8 "na") = utf8 "na" ∧
    Performer.autoCorrect [utf8 "nadi", utf8 "rajdhani"] (utf8 "xyz") = utf8 "xyz" ∧
    Performer.autoCorrect [utf8 "nadi", utf8 "rajdhani"] (utf8 "rajdhaani") = utf8 "rajdhani" := by
  have s1 : Performer.fuzzySimilarity (utf8 "xyz") (utf8 "nadi") = 0 := by
    have h1 : Performer.lev (utf8 "xyz") (utf8 "nadi") = 4 := by decide
    have h2 : (utf8 "xyz").length = 3 := by decide
    have h3 : (utf8 "nadi").length = 4 := by decide
    simp only [Performer.fuzzySimilarity, h1, h2, h3]
    norm_num
  have s2 : Performer.fuzzySimilarity (utf8 "xyz") (utf8 "rajdhani") = 0 := by
    have h1 : Performer.lev (utf8 "xyz") (utf8 "rajdhani") = 8 := by decide
    have h2 : (utf8 "xyz").length = 3 := by decide
    have h3 : (utf8 "rajdhani").length = 8 := by decide
    simp only [Performer.fuzzySimilarity, h1, h2, h3]
    norm_num
  have s3 : Performer.fuzzySimilarity (utf8 "rajdhaani") (utf8 "nadi") = 1 / 3 := by
    have h1 : Performer.lev (utf8 "rajdhaani") (utf8 "nadi") = 6 := by decide
    have h2 : (utf8 "rajdhaani").length = 9 := by decide
    have h3 : (utf8 "nadi").length = 4 := by decide
    simp only [Performer.fuzzySimilarity, h1, h2, h3]
    norm_num
  refine ⟨(C27_autoCorrect _ _).1 (by decide), (C27_autoCorrect _ _).2.1 ?_,
    (C27_autoCorrect _ _).2.2.1 (by decide) [utf8 "nadi"] [] (utf8 "rajdhani") rfl ?_ ?_ ?_⟩
  · intro v hv
    simp only [List.mem_cons, List.mem_singleton, List.not_mem_nil, or_false] at hv
    rcases hv with rfl | rfl
    · rw [s1]; norm_num
    · rw [s2]; norm_num
  · rw [fuzzySimilarity_rajdhaani]; norm_num
  · intro u hu
    rw [List.mem_singleton] at hu
    rw [hu, s3, fuzzySimilarity_rajdhaani]; norm_num
  · intro u hu
    simp at hu

/-! ## C31: `autoCorrect` is idempotent and fixes vocabulary words -/

theorem fuzzySimilarity_le_one (a b : Str) : Performer.fuzzySimilarity a b ≤ 1 := by
  unfold Performer.fuzzySimilarity
  simp only
  split_ifs with h
  · exact le_refl 1
  · have hpos : (0 : ℚ) < ((max a.length b.length : Nat) : ℚ) := by
      exact_mod_cast Nat.pos_of_ne_zero h
    have : (0 : ℚ) ≤ (Performer.lev a b : ℚ) / ((max a.length b.length : Nat) : ℚ) :=
      div_nonneg (by exact_mod_cast Nat.zero_le _) hpos.le
    linarith

theorem fuzzySimilarity_eq_one_iff (a b : Str) : Performer.fuzzySimilarity a b = 1 ↔ a = b := by
  constructor
  · intro h
    unfold Performer.fuzzySimilarity at h
    simp only at h
    split_ifs at h with hm
    · have h1 : a.length = 0 := by omega
      have h2 : b.length = 0 := by omega
      rw [List.length_eq_zero.1 h1, List.length_eq_zero.1 h2]
    · have hpos : (0 : ℚ) < ((max a.length b.length : Nat) : ℚ) := by
        exact_mod_cast Nat.pos_of_ne_zero hm
      have h2 : (Performer.lev a b : ℚ) / ((max a.length b.length : Nat) : ℚ) = 0 := by
        linarith
      rcases div_eq_zero_iff.1 h2 with h3 | h3
      · have h4 : Performer.lev a b = 0 := by exact_mod_cast h3
        rw [lev_eq_editDistance] at h4
        exact (editDistance_eq_zero_iff a b).1 h4
      · exact absurd h3 hpos.ne'
  · rintro rfl
    exact fuzzySimilarity_self a

/-- A token of the vocabulary is returned as it is. -/
theorem autoCorrect_of_mem (vocabulary : List Str) (v : Str) (hv : v ∈ vocabulary) :
    Performer.autoCorrect vocabulary v = v := by
  rcases Nat.lt_or_ge v.length 3 with hw | hw
  · exact autoCorrect_short vocabulary v hw
  · obtain ⟨pre, post, hsplit, hnot⟩ := List.eq_append_cons_of_mem hv
    rw [hsplit]
    refine autoCorrect_first_max v hw pre post v ?_ ?_ ?_
    · rw [fuzzySimilarity_self]; norm_num
    · intro u hu
      rw [fuzzySimilarity_self]
      refine lt_of_le_of_ne (fuzzySimilarity_le_one v u) ?_
      intro h1
      have := (fuzzySimilarity_eq_one_iff v u).1 h1
      exact hnot (this ▸ hu)
    · intro u _
      rw [fuzzySimilarity_self]
      exact fuzzySimilarity_le_one v u

/-- C31: with exact arithmetic, correcting a corrected word changes nothing, and a
token of the vocabulary is returned as it is: its similarity to itself is 1, no
similarity is above 1, and similarity 1 is reached by the token itself only. -/
theorem C31_autoCorrect_idempotent (vocabulary : List Str) (w : Str) :
    Performer.autoCorrect vocabulary (Performer.autoCorrect vocabulary w) =
      Performer.autoCorrect vocabulary w ∧
    (∀ v ∈ vocabulary, Performer.autoCorrect vocabulary v = v) ∧
    (∀ v u : Str, Performer.fuzzySimilarity v u ≤ 1) ∧
    (∀ v u : Str, Performer.fuzzySimilarity v u = 1 ↔ v = u) := by
  refine ⟨?_, autoCorrect_of_mem vocabulary, fuzzySimilarity_le_one, fuzzySimilarity_eq_one_iff⟩
  rcases autoCorrect_mem vocabulary w with h | h
  · rw [h, h]
  · exact autoCorrect_of_mem vocabulary _ h

/-- C31 on the vocabulary `nadi`, `rajdhani`: the token `rajdhani` is returned as it is,
and correcting `rajdhaani` twice gives the same as correcting it once. -/
theorem C31_autoCorrect_idempotent_witness :
    Performer.autoCorrect [utf8 "nadi", utf8 "rajdhani"] (utf8 "rajdhani") = utf8 "rajdhani" ∧
    Performer.autoCorrect [utf8 "nadi", utf8 "rajdhani"]
        (Performer.autoCorrect [utf8 "nadi", utf8 "rajdhani"] (utf8 "rajdhaani")) =
      Performer.autoCorrect [utf8 "nadi", utf8 "rajdhani"] (utf8 "rajdhaani") :=
  ⟨(C31_autoCorrect_idempotent [utf8 "nadi", utf8 "rajdhani"] (utf8 "rajdhaani")).2.1
      (utf8 "rajdhani") (by decide),
    (C31_autoCorrect_idempotent [utf8 "nadi", utf8 "rajdhani"] (utf8 "rajdhaani")).1⟩
